import Mathlib

/-!
# BitcoinP2P.cpp: wire codec of the Bitcoin peer-to-peer client

A shallow embedding of `cppForSwig/BitcoinP2P.cpp` and theorems about it.

Modelling conventions.

* A byte is a `Fin 256`; a buffer is a `List Byte`.
* The host is little-endian (the code type-puns `uint8_t*` to `uint16_t*`,
  `uint32_t*`, `uint64_t*`), so a load `*(uintN_t*)p` is `fromLE` of the `N/8`
  bytes at `p` and a store is `toLE`.
* Machine integers are `Nat`, reduced modulo `2^w` where the C++ type wraps.
* A pointer is the list of bytes that may be read from it, up to the end of the
  buffer it points into; `nullptr` is the pointer with nothing readable.  A
  read that leaves the buffer is undefined behaviour in C++ and is the outcome
  `Result.undefined` here.
* C++ exceptions are outcomes of `Result`: `BitcoinMessageDeserError` and
  `std::runtime_error` are kept apart, because the envelope decoder catches
  only the former.
-/

namespace BitcoinP2P

/-! ## Bytes, outcomes, loads and stores -/

abbrev Byte := Fin 256

/-- Outcome of a piece of C++ code that may throw or misbehave. -/
inductive Result (α : Type) where
  /-- normal return -/
  | ok (a : α)
  /-- a `BitcoinMessageDeserError` was thrown -/
  | deserError (msg : String)
  /-- a `std::runtime_error` was thrown -/
  | runtimeError (msg : String)
  /-- undefined behaviour: an access outside the buffer or through `nullptr` -/
  | undefined
  /-- the loop did not finish within the fuel it was given -/
  | outOfFuel
  deriving DecidableEq, Repr

/-- Sequencing of outcomes: the first failure is the failure of the whole. -/
def Result.bind {α β : Type} (x : Result α) (f : α → Result β) : Result β :=
  match x with
  | .ok a => f a
  | .deserError msg => .deserError msg
  | .runtimeError msg => .runtimeError msg
  | .undefined => .undefined
  | .outOfFuel => .outOfFuel

instance : Monad Result where
  pure := Result.ok
  bind := Result.bind

/-- Store of an integer in `w` bytes, least significant byte first; the value
is truncated to `w` bytes as a cast to `uintN_t` does. -/
def toLE : Nat → Nat → List Byte
  | 0, _ => []
  | w + 1, n => ⟨n % 256, Nat.mod_lt _ (by decide)⟩ :: toLE w (n / 256)

/-- Value of a little-endian byte string. -/
def fromLE : List Byte → Nat
  | [] => 0
  | b :: bs => b.val + 256 * fromLE bs

/-- Load of a `w`-byte little-endian integer through pointer `ptr`. -/
def load (w : Nat) (ptr : List Byte) : Result Nat :=
  if w ≤ ptr.length then .ok (fromLE (ptr.take w)) else .undefined

/-- Read of `n` raw bytes through pointer `ptr` (source of a `memcpy`). -/
def loadBytes (n : Nat) (ptr : List Byte) : Result (List Byte) :=
  if n ≤ ptr.length then .ok (ptr.take n) else .undefined

/-- Write of the bytes `src` through pointer `buf` at offset `off`
(`memcpy(buf + off, src, |src|)`, or a store of an integer whose bytes are
`src`); undefined when the destination range leaves the buffer. The result is
the memory behind `buf` after the write. -/
def store (buf : List Byte) (off : Nat) (src : List Byte) : Result (List Byte) :=
  if off + src.length ≤ buf.length then
    .ok (buf.take off ++ src ++ buf.drop (off + src.length))
  else .undefined

/-! ## Varint (lines 32-109) -/

/-- `get_varint_len(const int64_t& value)`: the argument is a signed 64-bit
integer, here an `Int`. -/
def get_varint_len (value : Int) : Nat :=
  if value < 0xFD then 1
  else if value ≤ 0xFFFF then 3
  else if value ≤ 0xFFFFFFFF then 5
  else 9

/-- Conversion of a `uint64_t`/`size_t` argument to the `int64_t` parameter. -/
def toInt64 (n : Nat) : Int :=
  if n % 2 ^ 64 < 2 ^ 63 then ((n % 2 ^ 64 : Nat) : Int) else ((n % 2 ^ 64 : Nat) : Int) - 2 ^ 64

/-- `make_varint(value, varint)`: returns the length and the vector `varint`
after the call. `push_back` appends; `resize(k)` keeps the first `k` bytes and
pads with zeros, after which every one of the `k` bytes is overwritten. -/
def make_varint (value : Nat) (varint : List Byte) : Nat × List Byte :=
  if value < 0xFD then
    (1, varint ++ toLE 1 value)
  else if value ≤ 0xFFFF then
    (3, (0xFD : Byte) :: toLE 2 value)
  else if value ≤ 0xFFFFFFFF then
    (5, (0xFE : Byte) :: toLE 4 value)
  else
    (9, (0xFF : Byte) :: toLE 8 value)

/-- `get_varint(val, ptr, size)`: returns `(val, return value)`. -/
def get_varint (ptr : List Byte) (size : Nat) : Result (Nat × Nat) :=
  if size = 0 then .runtimeError "invalid varint size"
  else
    match ptr with
    | [] => .undefined
    | b :: rest =>
      if b.val < 0xFD then .ok (b.val, 1)
      else if b.val = 0xFD then
        if size < 3 then .runtimeError "invalid varint size"
        else (load 2 rest).bind fun v => .ok (v, 3)
      else if b.val = 0xFE then
        if size < 5 then .runtimeError "invalid varint size"
        else (load 4 rest).bind fun v => .ok (v, 5)
      else
        if size < 9 then .runtimeError "invalid varint size"
        else (load 8 rest).bind fun v => .ok (v, 9)


/-! ## Constants and types of `BitcoinP2p.h` -/

/-- Modelled from the spec: the header `BitcoinP2p.h` is not among the sources.
The envelope is `magic(4) | command(12) | length(4) | checksum(4)`, 24 bytes. -/
abbrev MAGIC_WORD_OFFSET : Nat := 0

/-- Modelled from the spec: offset of the 12-byte command in the envelope. -/
abbrev MESSAGE_TYPE_OFFSET : Nat := 4

/-- Modelled from the spec: the command field is 12 bytes. -/
abbrev MESSAGE_TYPE_LEN : Nat := 12

/-- Modelled from the spec: offset of the `u32` payload length. -/
abbrev PAYLOAD_LENGTH_OFFSET : Nat := 16

/-- Modelled from the spec: offset of the 4-byte checksum. -/
abbrev CHECKSUM_OFFSET : Nat := 20

/-- Modelled from the spec: the envelope is 24 bytes. A plain integer constant,
so that `*length + MESSAGE_HEADER_LEN` is computed in `uint32_t`. -/
abbrev MESSAGE_HEADER_LEN : Nat := 24

/-- Modelled from the spec: minimum length of a `version` payload, 85 bytes
(80 fixed bytes, a one-byte varint and the 4-byte start height). -/
abbrev VERSION_MINLENGTH : Nat := 85

/-- Modelled from the spec: the user agent follows the 80 fixed bytes
`version(4) services(8) timestamp(8) addr_recv(26) addr_from(26) nonce(8)`. -/
abbrev USERAGENT_OFFSET : Nat := 80

/-- Modelled from the spec: `INV_MAX = 50_000`. -/
abbrev INV_MAX : Nat := 50000

/-- Modelled from the spec: an inventory entry is `type(4) | hash(32)`. -/
abbrev INV_ENTRY_LEN : Nat := 36

abbrev UINT64_MAX : Nat := 2 ^ 64 - 1

/-- A 32-byte hash (`uint8_t hash[32]`, or the result of `getHash256`). -/
abbrev Hash32 := {l : List Byte // l.length = 32}

/-- A 16-byte IPv6 address (`uint8_t ipV6_[16]`). -/
abbrev IPv6 := {l : List Byte // l.length = 16}

/-- Modelled from the spec: the enum `InvType` of `BitcoinP2p.h`, kept as its
underlying integer (the code casts it to and from `uint32_t`). -/
abbrev InvType := Nat

abbrev Inv_Msg_Error : InvType := 0

abbrev Inv_Msg_Tx : InvType := 1

abbrev Inv_Msg_Block : InvType := 2

abbrev Inv_Msg_Filtered_Block : InvType := 3

abbrev Inv_Msg_Witness_Tx : InvType := 0x40000001

abbrev Inv_Msg_Witness_Block : InvType := 0x40000002

/-- `InvEntry`; `invtype_` is held as the integer value of its `InvType`. -/
structure InvEntry where
  invtype_ : Nat
  hash : Hash32
  deriving DecidableEq, Repr

structure BitcoinNetAddr where
  services_ : Nat
  ipV6_ : IPv6
  port_ : Nat
  deriving DecidableEq, Repr

structure VersionHeader where
  version_ : Nat
  services_ : Nat
  timestamp_ : Nat
  addr_recv_ : BitcoinNetAddr
  addr_from_ : BitcoinNetAddr
  nonce_ : Nat
  deriving DecidableEq, Repr

/-- The enum `PayloadType`, as far as `strToPayload_` uses it. -/
inductive PayloadType where
  | Payload_version
  | Payload_verack
  | Payload_inv
  | Payload_ping
  | Payload_pong
  | Payload_getdata
  | Payload_tx
  deriving DecidableEq, Repr

/-- The classes derived from `Payload`, with their data members. Integers are
kept as their unsigned bit patterns (`startHeight_ = -1` is `0xFFFFFFFF`). -/
inductive Payload where
  | Version (vheader_ : VersionHeader) (userAgent_ : List Byte) (startHeight_ : Nat)
  | Verack
  | Ping (nonce_ : Nat)
  | Pong (nonce_ : Nat)
  | Inv (invVector_ : List InvEntry)
  | GetData (invVector_ : List InvEntry)
  | Tx (rawTx_ : List Byte)
  deriving DecidableEq, Repr

/-- Bytes of an ASCII string literal. -/
def ascii (s : List Char) : List Byte :=
  s.map fun c => Fin.ofNat c.toNat

/-- `BitcoinP2P::strToPayload_` (lines 112-120). -/
def strToPayload_ : List (List Byte × PayloadType) :=
  [ (ascii ['v', 'e', 'r', 's', 'i', 'o', 'n'], .Payload_version),
    (ascii ['v', 'e', 'r', 'a', 'c', 'k'], .Payload_verack),
    (ascii ['i', 'n', 'v'], .Payload_inv),
    (ascii ['p', 'i', 'n', 'g'], .Payload_ping),
    (ascii ['p', 'o', 'n', 'g'], .Payload_pong),
    (ascii ['g', 'e', 't', 'd', 'a', 't', 'a'], .Payload_getdata),
    (ascii ['t', 'x'], .Payload_tx) ]

/-- Modelled from the spec: `Payload::typeStr()` is declared in `BitcoinP2p.h`;
each variant answers the command name under which `strToPayload_` knows it. -/
def Payload.typeStr : Payload → List Byte
  | .Version _ _ _ => ascii ['v', 'e', 'r', 's', 'i', 'o', 'n']
  | .Verack => ascii ['v', 'e', 'r', 'a', 'c', 'k']
  | .Ping _ => ascii ['p', 'i', 'n', 'g']
  | .Pong _ => ascii ['p', 'o', 'n', 'g']
  | .Inv _ => ascii ['i', 'n', 'v']
  | .GetData _ => ascii ['g', 'e', 't', 'd', 'a', 't', 'a']
  | .Tx _ => ascii ['t', 'x']

/-- Modelled from the spec: `Payload::type()` is declared in `BitcoinP2p.h`;
each variant answers its own member of `PayloadType`. -/
def Payload.type : Payload → PayloadType
  | .Version _ _ _ => .Payload_version
  | .Verack => .Payload_verack
  | .Ping _ => .Payload_ping
  | .Pong _ => .Payload_pong
  | .Inv _ => .Payload_inv
  | .GetData _ => .Payload_getdata
  | .Tx _ => .Payload_tx

/-- `put_integer_be` (lines 17-29): the `w = sizeof(T)` bytes of the integer in
reverse host order, that is most significant byte first. -/
def put_integer_be (w : Nat) (integer : Nat) : List Byte :=
  (toLE w integer).reverse

/-! ## Payload classes: serialisation (lines 316-321, 364-399, 430-466, 500-605)

`serialize_inner(dataptr)` takes `none` for `nullptr` and `some mem` for a
pointer behind which `mem` is writable; it returns the `size_t` result and the
memory behind `dataptr` after the call. -/

/-- `BitcoinNetAddr::serialize(ptr)` with `ptr = mem + off`. -/
def BitcoinNetAddr.serialize (a : BitcoinNetAddr) (mem : List Byte) (off : Nat) :
    Result (List Byte) := do
  let mem ← store mem off (put_integer_be 8 a.services_)
  let mem ← store mem (off + 8) a.ipV6_.val
  store mem (off + 24) (put_integer_be 2 a.port_)

/-- `Payload_Version::serialize_inner`. -/
def Payload_Version.serialize_inner (vheader_ : VersionHeader) (userAgent_ : List Byte)
    (startHeight_ : Nat) (dataptr : Option (List Byte)) : Result (Nat × List Byte) :=
  match dataptr with
  | none =>
    .ok (get_varint_len (toInt64 userAgent_.length) + userAgent_.length + VERSION_MINLENGTH, [])
  | some mem => do
    let varint := make_varint userAgent_.length []
    let varintlen := varint.1
    let serlen := varintlen + userAgent_.length + VERSION_MINLENGTH
    let mem ← store mem 0 (put_integer_be 4 vheader_.version_)
    let mem ← store mem 4 (put_integer_be 8 vheader_.services_)
    let mem ← store mem 12 (put_integer_be 8 vheader_.timestamp_)
    let mem ← vheader_.addr_recv_.serialize mem 20
    let mem ← vheader_.addr_from_.serialize mem 46
    let mem ← store mem 72 (toLE 8 vheader_.nonce_)
    let mem ← store mem USERAGENT_OFFSET (varint.2.take varintlen)
    let mem ← store mem (USERAGENT_OFFSET + varintlen) userAgent_
    let mem ← store mem (USERAGENT_OFFSET + varintlen + userAgent_.length + 1)
      (toLE 4 startHeight_)
    pure (serlen, mem)

/-- `Payload_Ping::serialize_inner`. -/
def Payload_Ping.serialize_inner (nonce_ : Nat) (dataptr : Option (List Byte)) :
    Result (Nat × List Byte) :=
  if nonce_ = UINT64_MAX then .ok (0, dataptr.getD [])
  else
    match dataptr with
    | none => .ok (8, [])
    | some mem => do
      let mem ← store mem 0 (toLE 8 nonce_)
      pure (8, mem)

/-- `Payload_Pong::serialize_inner`. -/
def Payload_Pong.serialize_inner (nonce_ : Nat) (dataptr : Option (List Byte)) :
    Result (Nat × List Byte) :=
  if nonce_ = UINT64_MAX then .ok (0, dataptr.getD [])
  else
    match dataptr with
    | none => .ok (8, [])
    | some mem => do
      let mem ← store mem 0 (toLE 8 nonce_)
      pure (8, mem)

/-- `Payload_Tx::serialize_inner`. -/
def Payload_Tx.serialize_inner (rawTx_ : List Byte) (dataptr : Option (List Byte)) :
    Result (Nat × List Byte) :=
  match dataptr with
  | none => .ok (rawTx_.length, [])
  | some mem => do
    let mem ← store mem 0 rawTx_
    pure (rawTx_.length, mem)

/-- The loop `for (auto& entry : invVector_)` of the inv serialisers, with
`dataptr = mem + off`. -/
def writeInvEntries : List InvEntry → List Byte → Nat → Result (List Byte)
  | [], mem, _ => .ok mem
  | entry :: rest, mem, off => do
    let mem ← store mem off (toLE 4 entry.invtype_)
    let mem ← store mem (off + 4) entry.hash.val
    writeInvEntries rest mem (off + 36)

/-- `Payload_Inv::serialize_inner`. -/
def Payload_Inv.serialize_inner (invVector_ : List InvEntry) (dataptr : Option (List Byte)) :
    Result (Nat × List Byte) :=
  match dataptr with
  | none =>
    let invcount := invVector_.length
    let varintlen := get_varint_len (toInt64 invcount)
    .ok (invcount * INV_ENTRY_LEN + varintlen, [])
  | some mem => do
    let invcount := invVector_.length
    let varint := make_varint invcount []
    let varintlen := varint.1
    let mem ← store mem 0 (varint.2.take varintlen)
    let mem ← writeInvEntries invVector_ mem varintlen
    pure (varintlen + invcount * INV_ENTRY_LEN, mem)

/-- `Payload_GetData::serialize_inner`. -/
def Payload_GetData.serialize_inner (invVector_ : List InvEntry)
    (dataptr : Option (List Byte)) : Result (Nat × List Byte) :=
  match dataptr with
  | none =>
    let invcount := invVector_.length
    let varintlen := get_varint_len (toInt64 invcount)
    .ok (invcount * INV_ENTRY_LEN + varintlen, [])
  | some mem => do
    let invcount := invVector_.length
    let varint := make_varint invcount []
    let varintlen := varint.1
    let mem ← store mem 0 (varint.2.take varintlen)
    let mem ← writeInvEntries invVector_ mem varintlen
    pure (varintlen + invcount * INV_ENTRY_LEN, mem)

/-- The virtual call `serialize_inner`. Modelled from the spec:
`Payload_Verack::serialize_inner` is defined in `BitcoinP2p.h`; a `verack` has an
empty payload. -/
def Payload.serialize_inner (p : Payload) (dataptr : Option (List Byte)) :
    Result (Nat × List Byte) :=
  match p with
  | .Version vheader_ userAgent_ startHeight_ =>
    Payload_Version.serialize_inner vheader_ userAgent_ startHeight_ dataptr
  | .Verack => .ok (0, dataptr.getD [])
  | .Ping nonce_ => Payload_Ping.serialize_inner nonce_ dataptr
  | .Pong nonce_ => Payload_Pong.serialize_inner nonce_ dataptr
  | .Inv invVector_ => Payload_Inv.serialize_inner invVector_ dataptr
  | .GetData invVector_ => Payload_GetData.serialize_inner invVector_ dataptr
  | .Tx rawTx_ => Payload_Tx.serialize_inner rawTx_ dataptr

/-- `Payload::serialize(magic_word)` (lines 127-164). `getHash256` is
`BtcUtils::getHash256`, the double SHA-256 of the bytes of a `BinaryDataRef`. -/
def Payload.serialize (getHash256 : List Byte → Hash32) (p : Payload) (magic_word : Nat) :
    Result (List Byte) := do
  let payload_size := (← p.serialize_inner none).1
  let msg : List Byte := List.replicate (MESSAGE_HEADER_LEN + payload_size) 0
  let msg ←
    if payload_size > 0 then do
      let body := (← p.serialize_inner (some (msg.drop MESSAGE_HEADER_LEN))).2
      pure (msg.take MESSAGE_HEADER_LEN ++ body)
    else pure msg
  let msg ← store msg MAGIC_WORD_OFFSET (toLE 4 magic_word)
  let msg ← store msg MESSAGE_TYPE_OFFSET (List.replicate MESSAGE_TYPE_LEN 0)
  let msg ← store msg MESSAGE_TYPE_OFFSET p.typeStr
  let msglen := payload_size % 2 ^ 32
  let msg ← store msg PAYLOAD_LENGTH_OFFSET (toLE 4 msglen)
  let bdr : List Byte :=
    if payload_size > 0 then (msg.drop MESSAGE_HEADER_LEN).take payload_size else []
  let hash := getHash256 bdr
  let checksum ← load 4 hash.val
  store msg CHECKSUM_OFFSET (toLE 4 checksum)


/-! ## Payload classes: deserialisation (lines 324-361, 419-451, 469-497, 510-514, 547-575)

Each `deserialize(dataptr, len)` is run by the constructor of its class on a
fresh object, and returns the object. -/

/-- Load of a 32-byte hash through `ptr` (`memcpy(entry.hash, ptr, 32)`). -/
def loadHash (ptr : List Byte) : Result Hash32 :=
  if h : 32 ≤ ptr.length then .ok ⟨ptr.take 32, by simp [h]⟩ else .undefined

/-- Load of a 16-byte address through `ptr` (`memcpy(ipV6_, ptr, 16)`). -/
def loadIPv6 (ptr : List Byte) : Result IPv6 :=
  if h : 16 ≤ ptr.length then .ok ⟨ptr.take 16, by simp [h]⟩ else .undefined

/-- `Payload_Version::deserialize(data, len)`. `remaining` is computed in
`size_t` (64 bits, wrapping) and passed to the `uint32_t` parameter of
`get_varint`. -/
def Payload_Version.deserialize (data : List Byte) (len : Nat) : Result Payload := do
  let version_ ← load 4 data
  let services_ ← load 8 (data.drop 4)
  let timestamp_ ← load 8 (data.drop 12)
  let recv_services_ ← load 8 (data.drop 20)
  let recv_ipV6_ ← loadIPv6 (data.drop 28)
  let recv_port_ ← load 2 (data.drop 44)
  let from_services_ ← load 8 (data.drop 46)
  let from_ipV6_ ← loadIPv6 (data.drop 54)
  let from_port_ ← load 2 (data.drop 70)
  let nonce_ ← load 8 (data.drop 72)
  let remaining := (len + 2 ^ 64 - MESSAGE_HEADER_LEN - USERAGENT_OFFSET) % 2 ^ 64
  let (uaLen, varintlen) ← get_varint (data.drop 80) (remaining % 2 ^ 32)
  let userAgent_ ← loadBytes uaLen (data.drop (80 + varintlen))
  let startHeight_ ← load 4 (data.drop (80 + varintlen + uaLen))
  pure (.Version
    ⟨version_, services_, timestamp_, ⟨recv_services_, recv_ipV6_, recv_port_⟩,
      ⟨from_services_, from_ipV6_, from_port_⟩, nonce_⟩
    userAgent_ startHeight_)

/-- `Payload_Ping::deserialize`. -/
def Payload_Ping.deserialize (dataptr : List Byte) (len : Nat) : Result Payload :=
  if len = 0 then .ok (.Ping UINT64_MAX)
  else if len ≠ 8 then .deserError "invalid ping payload len"
  else do
    let nonce_ ← load 8 dataptr
    pure (.Ping nonce_)

/-- `Payload_Pong::deserialize`. -/
def Payload_Pong.deserialize (dataptr : List Byte) (len : Nat) : Result Payload :=
  if len ≠ 8 then .deserError "invalid pong payload len"
  else do
    let nonce_ ← load 8 dataptr
    pure (.Pong nonce_)

/-- The loop `for (auto& entry : invVector_)` of the inv deserialisers over the
`count` entries that `resize(invCount)` created. -/
def readInvEntries : Nat → List Byte → Nat → Result (List InvEntry)
  | 0, _, _ => .ok []
  | count + 1, ptr, remaining =>
    if remaining < INV_ENTRY_LEN then .deserError "inv deser size mismatch"
    else do
      let entrytype ← load 4 ptr
      if entrytype > 3 then .deserError "invalid inv entry type"
      else do
        let hash ← loadHash (ptr.drop 4)
        let rest ← readInvEntries count (ptr.drop INV_ENTRY_LEN) (remaining - INV_ENTRY_LEN)
        pure (⟨entrytype, hash⟩ :: rest)

/-- `Payload_Inv::deserialize`; `len` reaches `get_varint` as `uint32_t`. -/
def Payload_Inv.deserialize (dataptr : List Byte) (len : Nat) : Result Payload := do
  let (invCount, varintlen) ← get_varint dataptr (len % 2 ^ 32)
  if invCount > INV_MAX then .deserError "inv count > INV_MAX"
  else do
    let invVector_ ← readInvEntries invCount (dataptr.drop varintlen)
      ((len + 2 ^ 64 - varintlen) % 2 ^ 64)
    pure (.Inv invVector_)

/-- `Payload_GetData::deserialize`. -/
def Payload_GetData.deserialize (dataptr : List Byte) (len : Nat) : Result Payload := do
  let (invCount, varintlen) ← get_varint dataptr (len % 2 ^ 32)
  if invCount > INV_MAX then .deserError "inv count > INV_MAX"
  else do
    let invVector_ ← readInvEntries invCount (dataptr.drop varintlen)
      ((len + 2 ^ 64 - varintlen) % 2 ^ 64)
    pure (.GetData invVector_)

/-- `Payload_Tx::deserialize`: `rawTx_.resize(len)` and a `memcpy` of `len`
bytes; nothing is read when `len` is 0. -/
def Payload_Tx.deserialize (dataptr : List Byte) (len : Nat) : Result Payload := do
  let rawTx_ ← loadBytes len dataptr
  pure (.Tx rawTx_)

/-! ## Envelope decoder (lines 167-300) -/

/-- The inner loop `for (i = 4; i < sizeRemaining; i++)` of the magic word
search, from the value `i` on; `i` is an `unsigned`, which wraps at `2^32`.
Returns the value of `i` at loop exit. The first argument is fuel. -/
def scanMagic (ptr : List Byte) (magic_word : Nat) : Nat → Nat → Result Nat
  | 0, _ => .outOfFuel
  | fuel + 1, i =>
    if i < ptr.length then
      match ptr.drop i with
      | [] => .undefined
      | b :: _ =>
        if b.val = magic_word % 256 then
          (load 4 (ptr.drop i)).bind fun mw =>
            if mw = magic_word then .ok i
            else scanMagic ptr magic_word fuel ((i + 1) % 2 ^ 32)
        else scanMagic ptr magic_word fuel ((i + 1) % 2 ^ 32)
    else .ok i

/-- The loop `for (i = 0; i < MESSAGE_TYPE_LEN; i++)` that looks for the
terminating NUL: `scanNul n messagetype` is the number of steps `i` makes when
`n` positions are left to visit. -/
def scanNul : Nat → List Byte → Result Nat
  | 0, _ => .ok 0
  | _ + 1, [] => .undefined
  | n + 1, b :: rest =>
    if b.val = 0 then .ok 0
    else (scanNul n rest).bind fun i => .ok (i + 1)

/-- `strToPayload_.find(messagetype)`. -/
def findPayloadType (messagetype : List Byte) : Option PayloadType :=
  (strToPayload_.find? fun e => e.1 = messagetype).map Prod.snd

/-- The `switch` that instantiates the payload class (lines 253-288). -/
def makePayload (t : PayloadType) (payloadptr : List Byte) (length : Nat) : Result Payload :=
  match t with
  | .Payload_version => Payload_Version.deserialize payloadptr length
  | .Payload_verack => .ok .Verack
  | .Payload_ping => Payload_Ping.deserialize payloadptr length
  | .Payload_pong => Payload_Pong.deserialize payloadptr length
  | .Payload_inv => Payload_Inv.deserialize payloadptr length
  | .Payload_tx => Payload_Tx.deserialize payloadptr length
  | .Payload_getdata => Payload_GetData.deserialize payloadptr length

/-- The `while (offset < totalsize)` loop of `Payload::deserialize`. The first
argument is fuel: one unit per iteration. -/
def deserializeLoop (getHash256 : List Byte → Hash32) (data : List Byte) (magic_word : Nat) :
    Nat → Nat → List Payload → Result (List Payload)
  | 0, offset, retvec => if offset < data.length then .outOfFuel else .ok retvec
  | fuel + 1, offset, retvec =>
    if offset < data.length then
      let ptr := data.drop offset
      (load 4 (ptr.drop MAGIC_WORD_OFFSET)).bind fun magicword =>
      if magicword ≠ magic_word then
        -- invalid magic word, search remainder of the packet for another one
        (scanMagic ptr magic_word ptr.length 4).bind fun i =>
          deserializeLoop getHash256 data magic_word fuel (offset + i) retvec
      else
        let messagetype := ptr.drop MESSAGE_TYPE_OFFSET
        (scanNul MESSAGE_TYPE_LEN messagetype).bind fun i =>
        if i = MESSAGE_TYPE_LEN then
          deserializeLoop getHash256 data magic_word fuel (offset + 4) retvec
        else
          (load 4 (ptr.drop PAYLOAD_LENGTH_OFFSET)).bind fun length =>
          if (length + MESSAGE_HEADER_LEN) % 2 ^ 32 > data.length - offset then
            .deserError "payload length mismatch"
          else
            (load 4 (ptr.drop CHECKSUM_OFFSET)).bind fun checksum =>
            (loadBytes length (ptr.drop MESSAGE_HEADER_LEN)).bind fun payloadRef =>
            (load 4 (getHash256 payloadRef).val).bind fun hashChecksum =>
            if hashChecksum ≠ checksum then
              deserializeLoop getHash256 data magic_word fuel (offset + 4) retvec
            else
              let next := offset + (MESSAGE_HEADER_LEN + length) % 2 ^ 32
              match findPayloadType (messagetype.take i) with
              | none => deserializeLoop getHash256 data magic_word fuel next retvec
              | some t =>
                let payloadptr := if length > 0 then ptr.drop MESSAGE_HEADER_LEN else []
                match makePayload t payloadptr length with
                | .ok p => deserializeLoop getHash256 data magic_word fuel next (retvec ++ [p])
                -- ignore deser error on full length payload
                | .deserError _ => deserializeLoop getHash256 data magic_word fuel next retvec
                | .runtimeError msg => .runtimeError msg
                | .undefined => .undefined
                | .outOfFuel => .outOfFuel
    else .ok retvec

/-- `Payload::deserialize(data, magic_word)`. The loop gets `|data| + 1` units of
fuel: an iteration that does not advance `offset` repeats for ever, every other
one advances it, so the fuel runs out only when the C++ loop does not end. -/
def Payload.deserialize (getHash256 : List Byte → Hash32) (data : List Byte)
    (magic_word : Nat) : Result (List Payload) :=
  if data.length < MESSAGE_HEADER_LEN then .deserError "invalid header size"
  else deserializeLoop getHash256 data magic_word (data.length + 1) 0 []

/-- A stand-in for double SHA-256, for running the decoder on examples: one
byte that depends on every input byte, followed by 31 zero bytes. -/
def toyHash (bs : List Byte) : Hash32 :=
  ⟨Fin.ofNat (bs.foldl (fun acc b => 3 * acc + b.val + 1) 0x9f) :: List.replicate 31 0, by simp⟩

/-- The wire layout of one message: `magic(4) | command, zero padded (12) |
length(4) | checksum(4) | body`, the checksum being the first four bytes of
the hash of the body. Used to state what the codec produces and accepts. -/
def frame (getHash256 : List Byte → Hash32) (magic_word : Nat) (command body : List Byte) :
    List Byte :=
  toLE 4 magic_word ++ ((command ++ List.replicate (12 - command.length) 0) ++
    (toLE 4 body.length ++ ((getHash256 body).val.take 4 ++ body)))

/-- The wire form of an inventory vector: `type(4) | hash(32)` per entry. -/
def encodeInvEntries : List InvEntry → List Byte
  | [] => []
  | entry :: rest => toLE 4 entry.invtype_ ++ (entry.hash.val ++ encodeInvEntries rest)

/-- The 26 bytes that `BitcoinNetAddr::serialize` writes. -/
def encodeNetAddr (a : BitcoinNetAddr) : List Byte :=
  put_integer_be 8 a.services_ ++ (a.ipV6_.val ++ put_integer_be 2 a.port_)

/-- The bytes of a `version` payload as `Payload_Version::serialize_inner`
leaves them in a zero filled buffer. -/
def encodeVersion (vh : VersionHeader) (ua : List Byte) (h : Nat) : List Byte :=
  put_integer_be 4 vh.version_ ++ (put_integer_be 8 vh.services_ ++
    (put_integer_be 8 vh.timestamp_ ++ (encodeNetAddr vh.addr_recv_ ++
      (encodeNetAddr vh.addr_from_ ++ (toLE 8 vh.nonce_ ++
        ((make_varint ua.length []).2 ++ (ua ++ ((0 : Byte) :: toLE 4 h))))))))

/-- A network address for the examples: `::ffff:127.0.0.1`, port 8333. -/
def exampleAddr : BitcoinNetAddr :=
  ⟨8, ⟨[0, 0, 0, 0, 0, 0, 0, 0, 0, 0, 0xFF, 0xFF, 127, 0, 0, 1], rfl⟩, 8333⟩

/-- The `version` that `connectLoop` sends (lines 712-718): protocol version
70012, services `NODE_WITNESS = 8`, user agent `Armory:0.95`, start height -1;
the timestamp, the addresses and the nonce are examples. -/
def handshakeVersion : Payload :=
  .Version ⟨70012, 8, 1478000000, exampleAddr, exampleAddr, 0x0123456789ABCDEF⟩
    (ascii ['A', 'r', 'm', 'o', 'r', 'y', ':', '0', '.', '9', '5']) 0xFFFFFFFF

/-- The 97 payload bytes of `handshakeVersion`. -/
def handshakeBody : List Byte :=
  encodeVersion ⟨70012, 8, 1478000000, exampleAddr, exampleAddr, 0x0123456789ABCDEF⟩
    (ascii ['A', 'r', 'm', 'o', 'r', 'y', ':', '0', '.', '9', '5']) 0xFFFFFFFF

/-- What `Payload_Version::deserialize` reads from `handshakeBody`: the integers
of the header byte-reversed, the start height shifted by one byte. -/
def handshakeDecoded : Payload :=
  .Version ⟨0x7C110100, 0x0800000000000000, 0x807D185800000000,
      ⟨0x0800000000000000, exampleAddr.ipV6_, 0x8D20⟩,
      ⟨0x0800000000000000, exampleAddr.ipV6_, 0x8D20⟩, 0x0123456789ABCDEF⟩
    (ascii ['A', 'r', 'm', 'o', 'r', 'y', ':', '0', '.', '9', '5']) 0xFFFFFF00

/-- The `verack` frame of the main network under `toyHash`. -/
def exampleVerackFrame : List Byte :=
  [0xF9, 0xBE, 0xB4, 0xD9, 0x76, 0x65, 0x72, 0x61, 0x63, 0x6B, 0, 0, 0, 0, 0, 0,
   0, 0, 0, 0, 0x9F, 0, 0, 0]

/-- The command name `version`. -/
def versionCommand : List Byte := ascii ['v', 'e', 'r', 's', 'i', 'o', 'n']

/-- A well-formed `version` payload of 104 bytes: 80 fixed bytes, the varint
19, a user agent of 19 bytes `A`, and the start height -1. -/
def payload104 : List Byte :=
  List.replicate 80 0 ++ [19] ++ List.replicate 19 0x41 ++ [0xFF, 0xFF, 0xFF, 0xFF]

/-- A buffer of 24 bytes: the magic word of the main network, the command
`verack`, the declared length `0xFFFFFFFF` and a checksum field of zeros. -/
def lengthWrapBuffer : List Byte :=
  [0xF9, 0xBE, 0xB4, 0xD9, 0x76, 0x65, 0x72, 0x61, 0x63, 0x6B, 0, 0, 0, 0, 0, 0,
   0xFF, 0xFF, 0xFF, 0xFF, 0, 0, 0, 0]

/-- The width of a varint that its first byte indicates. -/
def varintWidth (b : Byte) : Nat :=
  if b.val < 0xFD then 1 else if b.val = 0xFD then 3 else if b.val = 0xFE then 5 else 9

/-- What the two inventory decoders have in common. -/
def decodeInvVector (dataptr : List Byte) (len : Nat) : Result (List InvEntry) :=
  (get_varint dataptr (len % 2 ^ 32)).bind fun x =>
    if x.1 > INV_MAX then .deserError "inv count > INV_MAX"
    else readInvEntries x.1 (dataptr.drop x.2) ((len + 2 ^ 64 - x.2) % 2 ^ 64)

/-- The body that `Payload::serialize` puts behind the header: nothing when the
size-only pass answers 0, else what `serialize_inner` writes into the zero
filled `payload_size` bytes that `msg.resize` created. -/
def Payload.body (p : Payload) : Result (List Byte) := do
  let payload_size := (← p.serialize_inner none).1
  if payload_size > 0 then do
    let body := (← p.serialize_inner (some (List.replicate payload_size 0))).2
    pure body
  else pure []

/-! ## BitcoinP2P: dispatch and requests (lines 802-1092)

The members of the object that the dispatcher and `getTx` touch are kept in a
record; a function of the class takes the record and returns it after the call.
Callbacks and promises are opaque to the code: they are told apart by a number,
and what is done to them is appended to a log. -/

/-- Modelled from the spec: `NODE_WITNESS = 1 << 3` (declared in `BitcoinP2p.h`). -/
abbrev NODE_WITNESS : Nat := 8

/-- What the object did to its callbacks and promises, in order. -/
inductive Event where
  /-- a callback of `invBlockLambdas_` was called with `invVec` -/
  | invBlockCallback (callback : Nat) (invVec : List InvEntry)
  /-- `invTxLambda_` was called with `invVec` -/
  | invTxCallback (callback : Nat) (invVec : List InvEntry)
  /-- a callback of `getTxCallbackMap_` was called with a `Payload_Tx` -/
  | getTxCallback (callback : Nat) (rawTx_ : List Byte)
  /-- `set_value(true)` on the promise of an entry of `getDataPayloadMap_` -/
  | getDataPromiseSet (promise : Nat)
  /-- `set_value(true)` on `verackPromise_` -/
  | verackPromiseSet
  deriving DecidableEq, Repr

/-- The state of a `BitcoinP2P` object as far as `processPayload` and `getTx`
read or write it, with the process-wide flag `PEER_USES_WITNESS`. The maps are
keyed by 32-byte hashes; `written` holds the buffers handed to
`binSocket_.writeToSocket`, in order. -/
structure P2PState where
  magic_word_ : Nat
  PEER_USES_WITNESS : Bool
  /-- `none`: `verackPromise_` is `nullptr`; `some b`: a promise, set iff `b` -/
  verackPromise_ : Option Bool
  invBlockLambdas_ : List Nat
  invTxLambda_ : Nat
  getTxCallbackMap_ : Hash32 → Option Nat
  getDataPayloadMap_ : Hash32 → Option (Payload × Nat)
  written : List (List Byte)
  events : List Event

/-- `BitcoinP2P::sendMessage` (lines 1008-1014). -/
def sendMessage (getHash256 : List Byte → Hash32) (s : P2PState) (payload : Payload) :
    Result P2PState := do
  let msg ← payload.serialize getHash256 s.magic_word_
  pure { s with written := s.written ++ [msg] }

/-- `BitcoinP2P::checkServices` (lines 840-848); the cast to `Payload_Version*`
is defined for a `Payload_Version` only. -/
def checkServices (s : P2PState) (payload : Payload) : Result P2PState :=
  match payload with
  | .Version vheader_ _ _ =>
    if Nat.land vheader_.services_ NODE_WITNESS ≠ 0 then
      .ok { s with PEER_USES_WITNESS := true }
    else .ok { s with PEER_USES_WITNESS := false }
  | _ => .undefined

/-- `BitcoinP2P::gotVerack` (lines 851-864): a second `set_value` throws
`future_error`, which is caught. -/
def gotVerack (s : P2PState) : P2PState :=
  match s.verackPromise_ with
  | none => s
  | some true => s
  | some false => { s with verackPromise_ := some true, events := s.events ++ [.verackPromiseSet] }

/-- `BitcoinP2P::returnVerack` (lines 867-871). -/
def returnVerack (getHash256 : List Byte → Hash32) (s : P2PState) : Result P2PState :=
  sendMessage getHash256 s .Verack

/-- `BitcoinP2P::replyPong` (lines 874-881); the cast to `Payload_Ping*` is
defined for a `Payload_Ping` only. -/
def replyPong (getHash256 : List Byte → Hash32) (s : P2PState) (payload : Payload) :
    Result P2PState :=
  match payload with
  | .Ping nonce_ => sendMessage getHash256 s (.Pong nonce_)
  | _ => .undefined

/-- `orderedEntries[entry.invtype_].push_back(entry)` on the `std::map`, kept as
a list sorted by key. -/
def mapPushBack : List (Nat × List InvEntry) → InvEntry → List (Nat × List InvEntry)
  | [], entry => [(entry.invtype_, [entry])]
  | (k, v) :: rest, entry =>
    if entry.invtype_ = k then (k, v ++ [entry]) :: rest
    else if entry.invtype_ < k then (entry.invtype_, [entry]) :: (k, v) :: rest
    else (k, v) :: mapPushBack rest entry

/-- `BitcoinP2P::processInvBlock` (lines 918-934): every callback is popped
from `invBlockLambdas_`, then each is called with `invVec`. -/
def processInvBlock (s : P2PState) (invVec : List InvEntry) : P2PState :=
  { s with
    invBlockLambdas_ := [],
    events := s.events ++ s.invBlockLambdas_.map fun callback =>
      Event.invBlockCallback callback invVec }

/-- `BitcoinP2P::processInvTx` (lines 937-940). -/
def processInvTx (s : P2PState) (invVec : List InvEntry) : P2PState :=
  { s with events := s.events ++ [.invTxCallback s.invTxLambda_ invVec] }

/-- The loop `for (auto& entryVec : orderedEntries)` of `processInv`, in the
order of the keys. -/
def processOrderedEntries (s : P2PState) : List (Nat × List InvEntry) → P2PState
  | [] => s
  | (k, v) :: rest =>
    if k = Inv_Msg_Block then processOrderedEntries (processInvBlock s v) rest
    else if k = Inv_Msg_Tx then processOrderedEntries (processInvTx s v) rest
    else processOrderedEntries s rest

/-- `BitcoinP2P::processInv` (lines 885-915). -/
def processInv (s : P2PState) (payload : Payload) : Result P2PState :=
  match payload with
  | .Inv invVector_ => .ok (processOrderedEntries s (invVector_.foldl mapPushBack []))
  | _ => .undefined

/-- The loop of `BitcoinP2P::processGetData` over the entries, on the snapshot
`getdatamap` of the map. `payloadTypeValue` gives the integer values of the
enum `PayloadType`, which `BitcoinP2p.h` declares and the comparison with
`entry.invtype_` uses. A promise that is already set throws `future_error` on
`set_value`, which is caught. -/
def processGetDataEntries (getHash256 : List Byte → Hash32)
    (payloadTypeValue : PayloadType → Nat) (getdatamap : Hash32 → Option (Payload × Nat)) :
    P2PState → List InvEntry → Result P2PState
  | s, [] => .ok s
  | s, entry :: rest =>
    match getdatamap entry.hash with
    | none => processGetDataEntries getHash256 payloadTypeValue getdatamap s rest
    | some (payload, promise) =>
      if payloadTypeValue payload.type ≠ entry.invtype_ then
        processGetDataEntries getHash256 payloadTypeValue getdatamap s rest
      else
        (sendMessage getHash256 s payload).bind fun s =>
          let s :=
            if Event.getDataPromiseSet promise ∈ s.events then s
            else { s with events := s.events ++ [.getDataPromiseSet promise] }
          processGetDataEntries getHash256 payloadTypeValue getdatamap s rest

/-- `BitcoinP2P::processGetData` (lines 943-972). -/
def processGetData (getHash256 : List Byte → Hash32) (payloadTypeValue : PayloadType → Nat)
    (s : P2PState) (payload : Payload) : Result P2PState :=
  match payload with
  | .GetData invVector_ =>
    processGetDataEntries getHash256 payloadTypeValue s.getDataPayloadMap_ s invVector_
  | _ => .undefined

/-- `BitcoinP2P::processGetTx` (lines 975-1005). Modelled from the spec:
`Payload_Tx::getSize` and `Payload_Tx::getHash256` are defined in
`BitcoinP2p.h`; they answer the length of the raw transaction and its
`hash256`. `getTxCallbackMap_.erase` removes the key. -/
def processGetTx (getHash256 : List Byte → Hash32) (s : P2PState) (payload : Payload) :
    Result P2PState :=
  match payload with
  | .Tx rawTx_ =>
    if rawTx_.length = 0 then .ok s
    else
      let txHash := getHash256 rawTx_
      match s.getTxCallbackMap_ txHash with
      | none => .ok s
      | some callback =>
        .ok { s with
          events := s.events ++ [.getTxCallback callback rawTx_],
          getTxCallbackMap_ := fun k => if k = txHash then none else s.getTxCallbackMap_ k }
  | _ => .ok s

/-- The body of the loop of `BitcoinP2P::processPayload`: the `switch` on the
type of one payload (lines 806-835). -/
def processOnePayload (getHash256 : List Byte → Hash32) (payloadTypeValue : PayloadType → Nat)
    (s : P2PState) (payload : Payload) : Result P2PState :=
  match payload.type with
  | .Payload_version => (checkServices s payload).bind fun s => returnVerack getHash256 s
  | .Payload_verack => .ok (gotVerack s)
  | .Payload_ping => replyPong getHash256 s payload
  | .Payload_inv => processInv s payload
  | .Payload_getdata => processGetData getHash256 payloadTypeValue s payload
  | .Payload_tx => processGetTx getHash256 s payload
  | .Payload_pong => .ok s

/-- `BitcoinP2P::processPayload` (lines 802-837). -/
def processPayload (getHash256 : List Byte → Hash32) (payloadTypeValue : PayloadType → Nat) :
    P2PState → List Payload → Result P2PState
  | s, [] => .ok s
  | s, payload :: rest =>
    (processOnePayload getHash256 payloadTypeValue s payload).bind fun s =>
      processPayload getHash256 payloadTypeValue s rest

/-- `BitcoinP2P::registerGetTxCallback` (lines 1080-1085). Modelled from the
spec: the map of `getTxCallbackMap_` is declared outside the sources; its
`insert` overwrites. -/
def registerGetTxCallback (s : P2PState) (hashRef : Hash32) (callback : Nat) : P2PState :=
  { s with getTxCallbackMap_ := fun k => if k = hashRef then some callback
      else s.getTxCallbackMap_ k }

/-- `BitcoinP2P::unregisterGetTxCallback` (lines 1088-1092). -/
def unregisterGetTxCallback (s : P2PState) (hashRef : Hash32) : P2PState :=
  { s with getTxCallbackMap_ := fun k => if k = hashRef then none else s.getTxCallbackMap_ k }

/-- How a call of `getTx` begins. -/
inductive GetTxStart where
  /-- `GetDataException` was thrown; `s` is the state at the throw -/
  | getDataException (msg : String) (s : P2PState)
  /-- the callback was registered and the message handed to `sendMessage`; the
  call then waits on the promise -/
  | sent (r : Result P2PState)

/-- `BitcoinP2P::getTx` (lines 1023-1077) up to the wait on the promise.
`waitOnDataCallback` is the number of the callback the call creates. Modelled
from the spec: the constructor `Payload_GetData(entry)` of `BitcoinP2p.h` makes
a `getdata` that carries the single entry. -/
def getTx (getHash256 : List Byte → Hash32) (s : P2PState) (entry : InvEntry)
    (waitOnDataCallback : Nat) : GetTxStart :=
  if entry.invtype_ ≠ Inv_Msg_Tx ∧ entry.invtype_ ≠ Inv_Msg_Witness_Tx then
    .getDataException "entry type isnt Inv_Msg_Tx" s
  else
    let s := registerGetTxCallback s entry.hash waitOnDataCallback
    .sent (sendMessage getHash256 s (.GetData [entry]))

/-- A quiet state for the examples: no callbacks registered, nothing written. -/
def exampleState : P2PState :=
  { magic_word_ := 0xD9B4BEF9, PEER_USES_WITNESS := false, verackPromise_ := none,
    invBlockLambdas_ := [], invTxLambda_ := 0, getTxCallbackMap_ := fun _ => none,
    getDataPayloadMap_ := fun _ => none, written := [], events := [] }

/-- A frame as it may arrive from a peer: like `frame`, but the 12-byte command
field is `command`, a NUL and arbitrary bytes `pad` behind it. -/
def rawFrame (getHash256 : List Byte → Hash32) (magic_word : Nat)
    (command pad body : List Byte) : List Byte :=
  toLE 4 magic_word ++ ((command ++ (0 : Byte) :: pad) ++
    (toLE 4 body.length ++ ((getHash256 body).val.take 4 ++ body)))

/-- The vector that `orderedEntries` holds under the key `k`; empty when the
key is absent. -/
def entriesOfType : List (Nat × List InvEntry) → Nat → List InvEntry
  | [], _ => []
  | (k2, v) :: rest, k => if k2 = k then v else entriesOfType rest k

/-- The call of `invTxLambda_` that the transaction entries `txs` of an
inventory vector cause: none when there are none. -/
def invTxEvents (s : P2PState) (txs : List InvEntry) : List Event :=
  match txs with
  | [] => []
  | _ :: _ => [.invTxCallback s.invTxLambda_ txs]

/-- One frame of a buffer that holds several. -/
inductive WireFrame where
  /-- the frame `f` that `Payload::serialize` made of the payload `v` -/
  | known (v : Payload) (f : List Byte)
  /-- a frame whose command `strToPayload_` does not hold -/
  | unknown (command pad body : List Byte)

/-- The bytes of a frame. -/
def WireFrame.bytes (getHash256 : List Byte → Hash32) (magic_word : Nat) :
    WireFrame → List Byte
  | .known _ f => f
  | .unknown command pad body => rawFrame getHash256 magic_word command pad body

/-- The payload that a frame stands for, if any. -/
def WireFrame.decoded : WireFrame → Option Payload
  | .known v _ => some v
  | .unknown _ _ _ => none

/-- The buffer made of the frames, one after the other. -/
def wireBytes (getHash256 : List Byte → Hash32) (magic_word : Nat) :
    List WireFrame → List Byte
  | [] => []
  | fr :: rest => fr.bytes getHash256 magic_word ++ wireBytes getHash256 magic_word rest

/-- Three frames of the main network for the examples: a `verack`, a frame of
the unknown command `x` with the payload `01 02 03` and bytes behind the NUL of
its command, and a second `verack`. -/
def exampleFrames : List WireFrame :=
  [.known .Verack exampleVerackFrame,
    .unknown (ascii ['x']) [7, 7, 7, 7, 7, 7, 7, 7, 7, 7] [1, 2, 3],
    .known .Verack exampleVerackFrame]

/-! ## The reconnect loop (lines 659-750) -/

/-- Modelled from the spec: `RECONNECT_INCREMENT_MS` is 1000 (declared in
`BitcoinP2p.h`). -/
abbrev RECONNECT_INCREMENT_MS : Nat := 1000

/-- How one attempt of `connectLoop` to reach the node ends. -/
inductive ConnectEvent where
  /-- `binSocket_.openSocket(false)` returned false -/
  | openFailed
  /-- the socket was opened and the `try` block threw before `verackFuture.get()`
  returned -/
  | handshakeFailed
  /-- the socket was opened and `verackFuture.get()` returned -/
  | handshakeSucceeded
  deriving DecidableEq, Repr

/-- The local `waitBeforeReconnect` of `connectLoop` (a `size_t`), and whether
`connectedPromise_`, which `connectToNode` creates before it starts the loop,
already holds a value. -/
structure ConnectState where
  waitBeforeReconnect : Nat
  connectedPromiseSet : Bool
  deriving DecidableEq, Repr

/-- One attempt of `connectLoop`. A failed `openSocket` adds the increment
below 5000 (lines 678-679). When the `try` block throws, the `catch (...)`
adds the increment (line 734). When the verack arrives,
`connectedPromise_->set_value(true)` (line 728) throws `future_error` on a
promise that already holds a value, which the same `catch (...)` takes;
otherwise `waitBeforeReconnect = 0` (line 729). -/
def connectStep (s : ConnectState) : ConnectEvent → ConnectState
  | .openFailed =>
    if s.waitBeforeReconnect < 5000 then
      { s with waitBeforeReconnect := (s.waitBeforeReconnect + RECONNECT_INCREMENT_MS) % 2 ^ 64 }
    else s
  | .handshakeFailed =>
    { s with waitBeforeReconnect := (s.waitBeforeReconnect + RECONNECT_INCREMENT_MS) % 2 ^ 64 }
  | .handshakeSucceeded =>
    if s.connectedPromiseSet then
      { s with waitBeforeReconnect := (s.waitBeforeReconnect + RECONNECT_INCREMENT_MS) % 2 ^ 64 }
    else { waitBeforeReconnect := 0, connectedPromiseSet := true }

/-- `BitcoinP2P::connectLoop` as far as `waitBeforeReconnect` goes: it starts
at 0 with a fresh `connectedPromise_`, and the attempts follow one another. -/
def connectLoop (events : List ConnectEvent) : ConnectState :=
  events.foldl connectStep { waitBeforeReconnect := 0, connectedPromiseSet := false }

/-! ## Loads and stores: basic facts -/

@[simp] theorem toLE_length (w n : Nat) : (toLE w n).length = w := by
  induction w generalizing n with
  | zero => rfl
  | succ w ih => simp [toLE, ih]

theorem fromLE_toLE (w n : Nat) : fromLE (toLE w n) = n % 256 ^ w := by
  induction w generalizing n with
  | zero => simp [toLE, fromLE, Nat.mod_one]
  | succ w ih =>
    simp only [toLE, fromLE, ih]
    rw [pow_succ, Nat.mul_comm (256 ^ w) 256, Nat.mod_mul]

theorem fromLE_toLE_of_lt (w n : Nat) (h : n < 256 ^ w) : fromLE (toLE w n) = n := by
  rw [fromLE_toLE, Nat.mod_eq_of_lt h]

theorem fromLE_lt (bs : List Byte) : fromLE bs < 256 ^ bs.length := by
  induction bs with
  | nil => simp [fromLE]
  | cons b bs ih =>
    simp only [fromLE, List.length_cons, pow_succ]
    have := b.isLt
    omega

theorem toLE_fromLE (bs : List Byte) : toLE bs.length (fromLE bs) = bs := by
  induction bs with
  | nil => rfl
  | cons b bs ih =>
    have hb := b.isLt
    simp only [List.length_cons, toLE, fromLE]
    congr 1
    · apply Fin.ext
      simp [Nat.add_mul_mod_self_left, Nat.mod_eq_of_lt hb]
    · have : (b.val + 256 * fromLE bs) / 256 = fromLE bs := by omega
      rw [this, ih]

theorem load_toLE_append (w n : Nat) (rest : List Byte) :
    load w (toLE w n ++ rest) = .ok (n % 256 ^ w) := by
  simp [load, fromLE_toLE]

theorem byte_val_FD : ((0xFD : Byte) : Nat) = 0xFD := rfl

theorem byte_val_FE : ((0xFE : Byte) : Nat) = 0xFE := rfl

theorem byte_val_FF : ((0xFF : Byte) : Nat) = 0xFF := rfl


@[simp] theorem bind_ok {α β : Type} (a : α) (f : α → Result β) :
    (Result.ok a).bind f = f a := rfl

@[simp] theorem bind_eq_bind {α β : Type} (x : Result α) (f : α → Result β) :
    (x >>= f) = x.bind f := rfl

@[simp] theorem pure_eq_ok {α : Type} (a : α) : (pure a : Result α) = .ok a := rfl

theorem drop_append_add (a b : List Byte) (n k : Nat) (h : a.length = n) :
    (a ++ b).drop (n + k) = b.drop k := by
  subst h
  rw [← List.drop_drop, List.drop_left]

theorem drop_append_len (a b : List Byte) (n : Nat) (h : a.length = n) :
    (a ++ b).drop n = b := by
  subst h
  exact List.drop_left a b

theorem take_append_len (a b : List Byte) (n : Nat) (h : a.length = n) :
    (a ++ b).take n = a := by
  subst h
  exact List.take_left a b

theorem load_append (w : Nat) (a rest : List Byte) (h : a.length = w) :
    load w (a ++ rest) = .ok (fromLE a) := by
  simp [load, h, take_append_len a rest w h]

theorem loadBytes_append (a rest : List Byte) :
    loadBytes a.length (a ++ rest) = .ok a := by
  simp [loadBytes]

theorem store_ok (buf src : List Byte) (off : Nat) (h : off + src.length ≤ buf.length) :
    store buf off src = .ok (buf.take off ++ src ++ buf.drop (off + src.length)) := by
  simp [store, h]

theorem store_length (buf src buf2 : List Byte) (off : Nat)
    (h : store buf off src = .ok buf2) : buf2.length = buf.length := by
  unfold store at h
  split at h
  · injection h with h
    subst h
    simp
    omega
  · cases h

theorem store_all (buf src : List Byte) (h : src.length = buf.length) :
    store buf 0 src = .ok src := by
  rw [store_ok buf src 0 (by omega)]
  simp [h]

theorem take4_hash (h : Hash32) : toLE 4 (fromLE (h.val.take 4)) = h.val.take 4 := by
  have hl : (h.val.take 4).length = 4 := by simp [h.property]
  have := toLE_fromLE (h.val.take 4)
  rwa [hl] at this

theorem load4_hash (h : Hash32) : load 4 h.val = .ok (fromLE (h.val.take 4)) := by
  simp [load, h.property]

/-! ## The envelope decoder on one well-formed frame -/

theorem scanNul_command (command rest : List Byte) (n : Nat)
    (hnz : ∀ b ∈ command, b.val ≠ 0) (hlen : command.length < n) :
    scanNul n (command ++ (0 : Byte) :: rest) = .ok command.length := by
  induction command generalizing n with
  | nil =>
    cases n with
    | zero => omega
    | succ n => simp [scanNul]
  | cons b bs ih =>
    cases n with
    | zero => simp at hlen
    | succ n =>
      have hb : b.val ≠ 0 := hnz b (by simp)
      have := ih n (fun c hc => hnz c (by simp [hc])) (by simpa using hlen)
      simp [scanNul, hb, this]

theorem deserializeLoop_end (getHash256 : List Byte → Hash32) (data : List Byte)
    (magic_word fuel offset : Nat) (retvec : List Payload) (h : data.length ≤ offset) :
    deserializeLoop getHash256 data magic_word fuel offset retvec = .ok retvec := by
  cases fuel with
  | zero => simp [deserializeLoop, Nat.not_lt.mpr h]
  | succ fuel => simp [deserializeLoop, Nat.not_lt.mpr h]

/-- What one iteration of the decoder loop does with a well-formed frame that
starts at `offset`: the command is looked up, the payload class is
instantiated on the body, and the cursor moves behind the frame. -/
theorem deserializeLoop_frame (getHash256 : List Byte → Hash32) (data : List Byte)
    (magic_word fuel offset : Nat) (retvec : List Payload) (command body post : List Byte)
    (hm : magic_word < 2 ^ 32) (hcmd : command.length < 12)
    (hnz : ∀ b ∈ command, b.val ≠ 0) (hlen : body.length + 24 < 2 ^ 32)
    (hdrop : data.drop offset = frame getHash256 magic_word command body ++ post) :
    deserializeLoop getHash256 data magic_word (fuel + 1) offset retvec =
      match findPayloadType command with
      | none =>
        deserializeLoop getHash256 data magic_word fuel (offset + (24 + body.length)) retvec
      | some t =>
        match makePayload t (if body.length > 0 then body ++ post else []) body.length with
        | .ok p =>
          deserializeLoop getHash256 data magic_word fuel (offset + (24 + body.length))
            (retvec ++ [p])
        | .deserError _ =>
          deserializeLoop getHash256 data magic_word fuel (offset + (24 + body.length)) retvec
        | .runtimeError msg => .runtimeError msg
        | .undefined => .undefined
        | .outOfFuel => .outOfFuel := by
  have hpad : command ++ List.replicate (12 - command.length) (0 : Byte)
      = command ++ (0 : Byte) :: List.replicate (11 - command.length) 0 := by
    have : 12 - command.length = (11 - command.length) + 1 := by omega
    rw [this, List.replicate_succ]
  have hpadlen : (command ++ List.replicate (12 - command.length) (0 : Byte)).length = 12 := by
    simp; omega
  have hcks : ((getHash256 body).val.take 4).length = 4 := by
    simp [(getHash256 body).property]
  have hframe : (frame getHash256 magic_word command body).length = 24 + body.length := by
    simp only [frame, List.length_append, hpadlen, hcks, toLE_length]
    omega
  have hlt : offset < data.length := by
    by_contra hge
    have : data.drop offset = [] := List.drop_eq_nil_of_le (by omega)
    rw [this] at hdrop
    have := congrArg List.length hdrop
    simp [hframe] at this
    omega
  have hrem : data.length - offset = 24 + body.length + post.length := by
    have := congrArg List.length hdrop
    simpa [hframe] using this
  have hmagic : fromLE (toLE 4 magic_word) = magic_word :=
    fromLE_toLE_of_lt 4 magic_word (by norm_num; omega)
  have hblen : fromLE (toLE 4 body.length) = body.length :=
    fromLE_toLE_of_lt 4 body.length (by norm_num; omega)
  have h0 : load 4 (data.drop offset) = .ok magic_word := by
    rw [hdrop, frame, List.append_assoc, load_append 4 _ _ (toLE_length 4 _), hmagic]
  have h4 : (data.drop offset).drop 4
      = command ++ (0 : Byte) :: (List.replicate (11 - command.length) 0 ++
        (toLE 4 body.length ++ ((getHash256 body).val.take 4 ++ body) ++ post)) := by
    rw [hdrop, frame, List.append_assoc, drop_append_len _ _ 4 (toLE_length 4 _), hpad]
    simp
  have h16 : (data.drop offset).drop 16
      = toLE 4 body.length ++ (((getHash256 body).val.take 4 ++ body) ++ post) := by
    rw [hdrop, frame, List.append_assoc, drop_append_add _ _ 4 12 (toLE_length 4 _),
      List.append_assoc, drop_append_len _ _ 12 hpadlen]
    simp
  have h20 : (data.drop offset).drop 20
      = (getHash256 body).val.take 4 ++ (body ++ post) := by
    rw [show (20 : Nat) = 16 + 4 from rfl, ← List.drop_drop, h16,
      drop_append_len _ _ 4 (toLE_length 4 _)]
    simp
  have h24 : (data.drop offset).drop 24 = body ++ post := by
    rw [show (24 : Nat) = 20 + 4 from rfl, ← List.drop_drop, h20, drop_append_len _ _ 4 hcks]
  have hnul := scanNul_command command
    (List.replicate (11 - command.length) 0 ++
        (toLE 4 body.length ++ ((getHash256 body).val.take 4 ++ body) ++ post)) 12 hnz hcmd
  have hchk : ¬ ((body.length + 24) % 2 ^ 32 > data.length - offset) := by
    rw [Nat.mod_eq_of_lt hlen, hrem]
    omega
  have hadv : (24 + body.length) % 2 ^ 32 = 24 + body.length :=
    Nat.mod_eq_of_lt (by omega)
  have hne : command.length ≠ 12 := by omega
  rw [deserializeLoop]
  simp only [hlt, if_true, MAGIC_WORD_OFFSET, List.drop_zero, h0, bind_ok, ne_eq,
    not_true_eq_false, if_false, MESSAGE_TYPE_OFFSET, h4, MESSAGE_TYPE_LEN, hnul, hne,
    PAYLOAD_LENGTH_OFFSET, h16, load_append 4 _ _ (toLE_length 4 body.length), hblen,
    MESSAGE_HEADER_LEN, hchk, CHECKSUM_OFFSET, h20, load_append 4 _ _ hcks, h24,
    loadBytes_append, load4_hash, hadv, List.take_left]


/-! ## The envelope encoder in terms of the body -/
theorem typeStr_length (p : Payload) : p.typeStr.length ≤ 12 := by
  cases p <;> simp [Payload.typeStr, ascii]

theorem store_at (a b c src : List Byte) (off : Nat) (ha : a.length = off)
    (hb : b.length = src.length) :
    store (a ++ (b ++ c)) off src = .ok (a ++ (src ++ c)) := by
  subst ha
  rw [store_ok _ _ _ (by simp; omega)]
  rw [List.take_left, ← hb, ← List.drop_drop, List.drop_left, List.drop_left]
  simp

theorem header_stores (getHash256 : List Byte → Hash32) (magic_word : Nat)
    (command b : List Byte) (hcmd : command.length ≤ 12) (hb : b.length < 2 ^ 32) :
    (do
      let msg ← store (List.replicate 24 (0 : Byte) ++ b) MAGIC_WORD_OFFSET (toLE 4 magic_word)
      let msg ← store msg MESSAGE_TYPE_OFFSET (List.replicate MESSAGE_TYPE_LEN 0)
      let msg ← store msg MESSAGE_TYPE_OFFSET command
      let msg ← store msg PAYLOAD_LENGTH_OFFSET (toLE 4 (b.length % 2 ^ 32))
      let bdr : List Byte :=
        if b.length > 0 then (msg.drop MESSAGE_HEADER_LEN).take b.length else []
      let hash := getHash256 bdr
      let checksum ← load 4 hash.val
      store msg CHECKSUM_OFFSET (toLE 4 checksum))
    = .ok (frame getHash256 magic_word command b) := by
  have hmod : b.length % 2 ^ 32 = b.length := Nat.mod_eq_of_lt hb
  have hz : List.replicate 24 (0 : Byte) ++ b
      = [] ++ (List.replicate 4 0 ++ (List.replicate 12 0 ++ (List.replicate 4 0 ++
          (List.replicate 4 0 ++ b)))) := by
    simp [← List.append_assoc, ← List.replicate_add]
  have hz12 : List.replicate 12 (0 : Byte)
      = List.replicate command.length 0 ++ List.replicate (12 - command.length) 0 := by
    rw [← List.replicate_add]
    congr 1
    omega
  have s1 := store_at [] (List.replicate 4 0) (List.replicate 12 0 ++ (List.replicate 4 0 ++
          (List.replicate 4 0 ++ b))) (toLE 4 magic_word) 0 rfl (by simp)
  have s2 := store_at (toLE 4 magic_word) (List.replicate 12 0) (List.replicate 4 0 ++
          (List.replicate 4 0 ++ b)) (List.replicate 12 0) 4 (by simp) (by simp)
  have s3 := store_at (toLE 4 magic_word) (List.replicate command.length 0)
      (List.replicate (12 - command.length) 0 ++ (List.replicate 4 0 ++
          (List.replicate 4 0 ++ b))) command 4 (by simp) (by simp)
  have s4 := store_at (toLE 4 magic_word ++ (command ++ List.replicate (12 - command.length) 0))
      (List.replicate 4 0) (List.replicate 4 0 ++ b) (toLE 4 b.length) 16
      (by simp; omega) (by simp)
  have s5 := store_at (toLE 4 magic_word ++ (command ++ List.replicate (12 - command.length) 0)
      ++ toLE 4 b.length)
      (List.replicate 4 0) b ((getHash256 b).val.take 4) 20
      (by simp; omega) (by simp [(getHash256 b).property])
  have hd : (toLE 4 magic_word ++ (command ++ List.replicate (12 - command.length) 0)
      ++ (toLE 4 b.length ++ (List.replicate 4 0 ++ b))).drop 24 = b := by
    rw [show (24 : Nat) = 16 + 8 from rfl, drop_append_add _ _ 16 8 (by simp; omega)]
    rw [← List.append_assoc, drop_append_len _ _ 8 (by simp)]
  have hbdr : (if b.length > 0 then List.take b.length b else []) = b := by
    cases b <;> simp
  simp only [List.nil_append] at s1
  simp only [List.append_assoc] at s3 s4 s5 hd
  simp only [bind_eq_bind, hmod, hz, List.nil_append, MAGIC_WORD_OFFSET, MESSAGE_TYPE_OFFSET,
    MESSAGE_TYPE_LEN, PAYLOAD_LENGTH_OFFSET, MESSAGE_HEADER_LEN, CHECKSUM_OFFSET]
  rw [s1, bind_ok, s2, bind_ok, hz12, List.append_assoc, s3, bind_ok, s4, bind_ok, hd, hbdr,
    load4_hash, bind_ok, take4_hash, s5]
  simp only [frame, List.append_assoc]

/-- `Payload::serialize` produces the frame of the command name and the body,
once the size-only pass and the writing pass of `serialize_inner` are known. -/
theorem serialize_of_body (getHash256 : List Byte → Hash32) (p : Payload) (magic_word n r : Nat)
    (mem0 b : List Byte)
    (hsz : p.serialize_inner none = .ok (n, mem0))
    (hw : 0 < n → p.serialize_inner (some (List.replicate n 0)) = .ok (r, b))
    (h0 : n = 0 → b = []) (hlen : b.length = n) (hn : n < 2 ^ 32) :
    p.body = .ok b ∧
      p.serialize getHash256 magic_word = .ok (frame getHash256 magic_word p.typeStr b) := by
  have hs := header_stores getHash256 magic_word p.typeStr b (typeStr_length p) (by omega)
  simp only [bind_eq_bind] at hs
  by_cases hpos : 0 < n
  · have hw2 := hw hpos
    constructor
    · simp [Payload.body, hsz, hpos, hw2]
    · subst hlen
      simp only [Payload.serialize, bind_eq_bind, hsz, bind_ok, MESSAGE_HEADER_LEN,
        List.drop_replicate, Nat.add_sub_cancel_left, hw2, gt_iff_lt, hpos, if_true,
        List.take_replicate, pure_eq_ok]
      simpa [hpos] using hs
  · have hn0 : n = 0 := by omega
    have hb := h0 hn0
    subst hb
    subst hn0
    constructor
    · simp [Payload.body, hsz]
    · simp only [Payload.serialize, bind_eq_bind, hsz, bind_ok, MESSAGE_HEADER_LEN,
        gt_iff_lt, Nat.lt_irrefl, if_false, pure_eq_ok]
      simpa using hs

/-- The envelope decoder on a buffer that is exactly one well-formed frame. -/
theorem deserialize_frame (getHash256 : List Byte → Hash32) (magic_word : Nat)
    (command body : List Byte) (hm : magic_word < 2 ^ 32) (hcmd : command.length < 12)
    (hnz : ∀ b ∈ command, b.val ≠ 0) (hlen : body.length + 24 < 2 ^ 32) :
    Payload.deserialize getHash256 (frame getHash256 magic_word command body) magic_word =
      match findPayloadType command with
      | none => .ok []
      | some t =>
        match makePayload t (if body.length > 0 then body else []) body.length with
        | .ok p => .ok [p]
        | .deserError _ => .ok []
        | .runtimeError msg => .runtimeError msg
        | .undefined => .undefined
        | .outOfFuel => .outOfFuel := by
  have hflen : (frame getHash256 magic_word command body).length = 24 + body.length := by
    simp [frame, (getHash256 body).property]
    omega
  have hstep := deserializeLoop_frame getHash256 (frame getHash256 magic_word command body)
    magic_word (frame getHash256 magic_word command body).length 0 [] command body []
    hm hcmd hnz hlen (by simp)
  have hend : ∀ acc, deserializeLoop getHash256 (frame getHash256 magic_word command body)
      magic_word (frame getHash256 magic_word command body).length (0 + (24 + body.length)) acc
      = .ok acc := fun acc => deserializeLoop_end _ _ _ _ _ _ (by omega)
  unfold Payload.deserialize
  rw [if_neg (by simp only [MESSAGE_HEADER_LEN]; omega), hstep]
  simp only [hend, List.append_nil, List.nil_append]

/-! ## Round trips of the single payload classes -/

theorem load_exact (w : Nat) (a : List Byte) (h : a.length = w) :
    load w a = .ok (fromLE a) := by
  have := load_append w a [] h
  simpa using this

theorem loadBytes_exact (a : List Byte) : loadBytes a.length a = .ok a := by
  simp [loadBytes]

theorem round_trip_of_body (getHash256 : List Byte → Hash32) (p : Payload)
    (magic_word n r : Nat) (mem0 b : List Byte) (t : PayloadType)
    (hm : magic_word < 2 ^ 32)
    (hsz : p.serialize_inner none = .ok (n, mem0))
    (hw : 0 < n → p.serialize_inner (some (List.replicate n 0)) = .ok (r, b))
    (h0 : n = 0 → b = []) (hlen : b.length = n) (hn : n + 24 < 2 ^ 32)
    (hnz : ∀ c ∈ p.typeStr, c.val ≠ 0) (hcmd : p.typeStr.length < 12)
    (ht : findPayloadType p.typeStr = some t)
    (hdec : makePayload t (if b.length > 0 then b else []) b.length = .ok p) :
    ∃ f, p.serialize getHash256 magic_word = .ok f ∧
      Payload.deserialize getHash256 f magic_word = .ok [p] := by
  obtain ⟨_, hser⟩ := serialize_of_body getHash256 p magic_word n r mem0 b hsz hw h0 hlen
    (by omega)
  refine ⟨_, hser, ?_⟩
  rw [deserialize_frame getHash256 magic_word p.typeStr b hm hcmd hnz (by omega), ht]
  simp only [hdec]

theorem typeStr_nz (p : Payload) : ∀ c ∈ p.typeStr, c.val ≠ 0 := by
  cases p <;> simp only [Payload.typeStr, ascii] <;> simp <;> decide

theorem typeStr_lt (p : Payload) : p.typeStr.length < 12 := by
  cases p <;> simp [Payload.typeStr, ascii]

theorem findPayloadType_typeStr (p : Payload) : findPayloadType p.typeStr = some p.type := by
  cases p <;> simp only [Payload.typeStr, Payload.type] <;> decide

theorem round_trip_Verack (getHash256 : List Byte → Hash32) (magic_word : Nat)
    (hm : magic_word < 2 ^ 32) :
    ∃ f, Payload.Verack.serialize getHash256 magic_word = .ok f ∧
      Payload.deserialize getHash256 f magic_word = .ok [.Verack] :=
  round_trip_of_body getHash256 .Verack magic_word 0 0 [] [] .Payload_verack hm rfl
    (fun h => absurd h (by decide)) (fun _ => rfl) rfl (by norm_num) (typeStr_nz _)
    (typeStr_lt _) (findPayloadType_typeStr _) rfl

theorem round_trip_Ping (getHash256 : List Byte → Hash32) (magic_word nonce_ : Nat)
    (hm : magic_word < 2 ^ 32) (hn : nonce_ < 2 ^ 64) :
    ∃ f, (Payload.Ping nonce_).serialize getHash256 magic_word = .ok f ∧
      Payload.deserialize getHash256 f magic_word = .ok [.Ping nonce_] := by
  by_cases hmax : nonce_ = UINT64_MAX
  · refine round_trip_of_body getHash256 (.Ping nonce_) magic_word 0 0 [] []
      .Payload_ping hm ?_ (fun h => absurd h (by decide)) (fun _ => rfl) rfl (by norm_num)
      (typeStr_nz _) (typeStr_lt _) (findPayloadType_typeStr _) ?_
    · simp [Payload.serialize_inner, Payload_Ping.serialize_inner, hmax]
    · simp [makePayload, Payload_Ping.deserialize, hmax]
  · have hst : store (List.replicate 8 (0 : Byte)) 0 (toLE 8 nonce_) = .ok (toLE 8 nonce_) :=
      store_all _ _ (by simp)
    refine round_trip_of_body getHash256 (.Ping nonce_) magic_word 8 8 [] (toLE 8 nonce_)
      .Payload_ping hm ?_ ?_ (fun h => absurd h (by decide)) (by simp) (by norm_num)
      (typeStr_nz _) (typeStr_lt _) (findPayloadType_typeStr _) ?_
    · simp [Payload.serialize_inner, Payload_Ping.serialize_inner, hmax]
    · intro _
      simp only [Payload.serialize_inner, Payload_Ping.serialize_inner, hmax, if_false,
        bind_eq_bind, hst, bind_ok, pure_eq_ok]
    · have hl : load 8 (toLE 8 nonce_) = .ok nonce_ := by
        rw [load_exact 8 _ (by simp), fromLE_toLE_of_lt 8 nonce_ (by norm_num; omega)]
      simp [makePayload, Payload_Ping.deserialize, hl]

theorem round_trip_Tx (getHash256 : List Byte → Hash32) (magic_word : Nat)
    (rawTx_ : List Byte) (hm : magic_word < 2 ^ 32) (hlen : rawTx_.length < 2 ^ 32 - 24) :
    ∃ f, (Payload.Tx rawTx_).serialize getHash256 magic_word = .ok f ∧
      Payload.deserialize getHash256 f magic_word = .ok [.Tx rawTx_] := by
  refine round_trip_of_body getHash256 (.Tx rawTx_) magic_word rawTx_.length rawTx_.length []
    rawTx_ .Payload_tx hm rfl ?_ ?_ rfl (by omega) (typeStr_nz _) (typeStr_lt _)
    (findPayloadType_typeStr _) ?_
  · intro _
    simp [Payload.serialize_inner, Payload_Tx.serialize_inner, store_all]
  · intro h
    exact List.length_eq_zero.mp h
  · have : (if rawTx_.length > 0 then rawTx_ else []) = rawTx_ := by
      cases rawTx_ <;> simp
    simp [makePayload, Payload_Tx.deserialize, this, loadBytes_exact]

/-! ## Inventory vectors -/

theorem make_varint_length (n : Nat) :
    (make_varint n []).2.length = (make_varint n []).1 := by
  unfold make_varint
  split
  · simp
  · split
    · simp
    · split <;> simp

theorem make_varint_pos (n : Nat) : 0 < (make_varint n []).1 := by
  unfold make_varint
  split
  · simp
  · split
    · simp
    · split <;> simp

theorem make_varint_le (n : Nat) : (make_varint n []).1 ≤ 9 := by
  unfold make_varint
  split
  · simp
  · split
    · simp
    · split <;> simp

theorem get_varint_len_eq (n : Nat) (hn : n < 2 ^ 63) :
    get_varint_len (toInt64 n) = (make_varint n []).1 := by
  have h1 : n % 2 ^ 64 = n := Nat.mod_eq_of_lt (by omega)
  have h2 : toInt64 n = (n : Int) := by
    unfold toInt64
    rw [h1, if_pos hn]
  rw [h2]
  unfold get_varint_len make_varint
  by_cases c1 : n < 0xFD
  · have : (n : Int) < 0xFD := by exact_mod_cast c1
    simp [c1, this]
  · have d1 : ¬ (n : Int) < 0xFD := by
      intro h
      exact c1 (by exact_mod_cast h)
    by_cases c2 : n ≤ 0xFFFF
    · have : (n : Int) ≤ 0xFFFF := by exact_mod_cast c2
      simp [c1, d1, c2, this]
    · have d2 : ¬ (n : Int) ≤ 0xFFFF := by
        intro h
        exact c2 (by exact_mod_cast h)
      by_cases c3 : n ≤ 0xFFFFFFFF
      · have : (n : Int) ≤ 0xFFFFFFFF := by exact_mod_cast c3
        simp [c1, d1, c2, d2, c3, this]
      · have d3 : ¬ (n : Int) ≤ 0xFFFFFFFF := by
          intro h
          exact c3 (by exact_mod_cast h)
        simp [c1, d1, c2, d2, c3, d3]

/-- `get_varint` reads back what `make_varint` wrote, whatever follows it. -/
theorem get_varint_make_varint (n size : Nat) (rest : List Byte) (hn : n < 2 ^ 64)
    (hsize : (make_varint n []).1 ≤ size) :
    get_varint ((make_varint n []).2 ++ rest) size = .ok (n, (make_varint n []).1) := by
  have hpos := make_varint_pos n
  have hs0 : size ≠ 0 := by omega
  by_cases h1 : n < 0xFD
  · have hm : n % 256 = n := Nat.mod_eq_of_lt (by omega)
    simp [make_varint, get_varint, h1, toLE, hm, hs0]
  · by_cases h2 : n ≤ 0xFFFF
    · have hv : n % 256 ^ 2 = n := Nat.mod_eq_of_lt (by norm_num; omega)
      have hl := load_toLE_append 2 n rest
      rw [hv] at hl
      have hsz : ¬ size < 3 := by
        simp [make_varint, h1, h2] at hsize
        omega
      simp [make_varint, get_varint, h1, h2, hl, byte_val_FD, hs0, hsz]
    · by_cases h3 : n ≤ 0xFFFFFFFF
      · have hv : n % 256 ^ 4 = n := Nat.mod_eq_of_lt (by norm_num; omega)
        have hl := load_toLE_append 4 n rest
        rw [hv] at hl
        have hsz : ¬ size < 5 := by
          simp [make_varint, h1, h2, h3] at hsize
          omega
        simp [make_varint, get_varint, h1, h2, h3, hl, byte_val_FE, hs0, hsz]
      · have hv : n % 256 ^ 8 = n := Nat.mod_eq_of_lt (by norm_num; omega)
        have hl := load_toLE_append 8 n rest
        rw [hv] at hl
        have hsz : ¬ size < 9 := by
          simp [make_varint, h1, h2, h3] at hsize
          omega
        simp [make_varint, get_varint, h1, h2, h3, hl, byte_val_FF, hs0, hsz]

theorem encodeInvEntries_length (es : List InvEntry) :
    (encodeInvEntries es).length = 36 * es.length := by
  induction es with
  | nil => rfl
  | cons e es ih =>
    simp [encodeInvEntries, ih, e.hash.property]
    omega

theorem writeInvEntries_zero (es : List InvEntry) (done : List Byte) (off k : Nat)
    (hoff : done.length = off) :
    writeInvEntries es (done ++ List.replicate (36 * es.length + k) 0) off
      = .ok (done ++ (encodeInvEntries es ++ List.replicate k 0)) := by
  induction es generalizing done off with
  | nil => simp [writeInvEntries, encodeInvEntries]
  | cons e es ih =>
    have hsplit : List.replicate (36 * (e :: es).length + k) (0 : Byte)
        = List.replicate 4 0 ++ (List.replicate 32 0 ++ List.replicate (36 * es.length + k) 0) := by
      rw [← List.replicate_add, ← List.replicate_add]
      congr 1
      simp only [List.length_cons]
      omega
    have s1 := store_at done (List.replicate 4 0)
      (List.replicate 32 0 ++ List.replicate (36 * es.length + k) 0) (toLE 4 e.invtype_) off
      hoff (by simp)
    have s2 := store_at (done ++ toLE 4 e.invtype_) (List.replicate 32 0)
      (List.replicate (36 * es.length + k) 0) e.hash.val (off + 4)
      (by simp [hoff]) (by simp [e.hash.property])
    have s3 := ih (done ++ (toLE 4 e.invtype_ ++ e.hash.val)) (off + 36)
      (by simp [hoff, e.hash.property])
    simp only [List.append_assoc] at s2 s3
    rw [writeInvEntries, hsplit]
    simp only [bind_eq_bind, s1, bind_ok, s2, s3, encodeInvEntries, List.append_assoc]

theorem readInvEntries_encode (es : List InvEntry) (rest : List Byte) (k : Nat)
    (htype : ∀ e ∈ es, e.invtype_ ≤ 3) :
    readInvEntries es.length (encodeInvEntries es ++ rest) (36 * es.length + k) = .ok es := by
  induction es with
  | nil => rfl
  | cons e es ih =>
    have ht : e.invtype_ ≤ 3 := htype e (by simp)
    have hrem : ¬ (36 * (e :: es).length + k < 36) := by
      simp only [List.length_cons]
      omega
    have hl : load 4 (toLE 4 e.invtype_ ++ (e.hash.val ++ (encodeInvEntries es ++ rest)))
        = .ok e.invtype_ := by
      rw [load_append 4 _ _ (toLE_length 4 _), fromLE_toLE_of_lt 4 _ (by norm_num; omega)]
    have hd4 : (toLE 4 e.invtype_ ++ (e.hash.val ++ (encodeInvEntries es ++ rest))).drop 4
        = e.hash.val ++ (encodeInvEntries es ++ rest) :=
      drop_append_len _ _ 4 (toLE_length 4 _)
    have hd36 : (toLE 4 e.invtype_ ++ (e.hash.val ++ (encodeInvEntries es ++ rest))).drop 36
        = encodeInvEntries es ++ rest := by
      rw [← List.append_assoc]
      exact drop_append_len _ _ 36 (by simp [e.hash.property])
    have hh : loadHash (e.hash.val ++ (encodeInvEntries es ++ rest)) = .ok e.hash := by
      unfold loadHash
      rw [dif_pos (by simp [e.hash.property])]
      congr 1
      apply Subtype.ext
      exact take_append_len _ _ 32 e.hash.property
    have hk : 36 * (e :: es).length + k - 36 = 36 * es.length + k := by
      simp only [List.length_cons]
      omega
    have hih := ih (fun x hx => htype x (by simp [hx]))
    simp only [List.length_cons, readInvEntries, encodeInvEntries, List.append_assoc,
      INV_ENTRY_LEN] at hrem hk ⊢
    simp only [hrem, if_false, bind_eq_bind, hl, bind_ok, Nat.not_lt.mpr ht, hd4, hh,
      hd36, hk, hih, pure_eq_ok, gt_iff_lt]

theorem inv_write (es : List InvEntry) :
    ((store (List.replicate (es.length * 36 + (make_varint es.length []).1) 0) 0
        ((make_varint es.length []).2.take (make_varint es.length []).1)).bind fun mem =>
      writeInvEntries es mem (make_varint es.length []).1)
      = .ok ((make_varint es.length []).2 ++ encodeInvEntries es) := by
  have hvl := make_varint_length es.length
  have htake : (make_varint es.length []).2.take (make_varint es.length []).1
      = (make_varint es.length []).2 := by
    rw [← hvl]
    exact List.take_length _
  have hsplit : List.replicate (es.length * 36 + (make_varint es.length []).1) (0 : Byte)
      = [] ++ (List.replicate (make_varint es.length []).1 0
          ++ List.replicate (36 * es.length + 0) 0) := by
    rw [List.nil_append, ← List.replicate_add]
    congr 1
    omega
  have s1 := store_at [] (List.replicate (make_varint es.length []).1 0)
    (List.replicate (36 * es.length + 0) 0) (make_varint es.length []).2 0 rfl
    (by simp [hvl])
  have s2 := writeInvEntries_zero es (make_varint es.length []).2
    (make_varint es.length []).1 0 hvl
  simp only [List.nil_append] at s1
  rw [htake, hsplit, List.nil_append, s1, bind_ok, s2]
  simp

theorem inv_read (es : List InvEntry) (hcount : es.length ≤ INV_MAX)
    (htype : ∀ e ∈ es, e.invtype_ ≤ 3) :
    ((get_varint ((make_varint es.length []).2 ++ encodeInvEntries es)
        (((make_varint es.length []).2 ++ encodeInvEntries es).length % 2 ^ 32)).bind
      fun x =>
        if x.1 > INV_MAX then (Result.deserError "inv count > INV_MAX" : Result (List InvEntry))
        else readInvEntries x.1
          (((make_varint es.length []).2 ++ encodeInvEntries es).drop x.2)
          ((((make_varint es.length []).2 ++ encodeInvEntries es).length + 2 ^ 64 - x.2)
            % 2 ^ 64))
      = .ok es := by
  have hvl := make_varint_length es.length
  have hle := make_varint_le es.length
  have hlen : ((make_varint es.length []).2 ++ encodeInvEntries es).length
      = (make_varint es.length []).1 + 36 * es.length := by
    simp [hvl, encodeInvEntries_length]
  have hc : es.length ≤ 50000 := hcount
  have hmod : ((make_varint es.length []).1 + 36 * es.length) % 2 ^ 32
      = (make_varint es.length []).1 + 36 * es.length := Nat.mod_eq_of_lt (by omega)
  have hg := get_varint_make_varint es.length
    ((make_varint es.length []).1 + 36 * es.length) (encodeInvEntries es) (by omega) (by omega)
  have hrem : ((make_varint es.length []).1 + 36 * es.length + 2 ^ 64
      - (make_varint es.length []).1) % 2 ^ 64 = 36 * es.length + 0 := by
    have : (make_varint es.length []).1 + 36 * es.length + 2 ^ 64
      - (make_varint es.length []).1 = 36 * es.length + 2 ^ 64 := by omega
    rw [this, Nat.add_mod_right, Nat.mod_eq_of_lt (by omega)]
    rfl
  have hr := readInvEntries_encode es [] 0 htype
  rw [List.append_nil] at hr
  rw [hlen, hmod, hg, bind_ok]
  simp only [gt_iff_lt, Nat.not_lt.mpr hcount, if_false, hrem,
    drop_append_len _ _ _ hvl, hr]

theorem inv_body_nonempty (es : List InvEntry) :
    (if ((make_varint es.length []).2 ++ encodeInvEntries es).length > 0
      then (make_varint es.length []).2 ++ encodeInvEntries es else [])
      = (make_varint es.length []).2 ++ encodeInvEntries es := by
  have := make_varint_pos es.length
  have hvl := make_varint_length es.length
  rw [if_pos]
  simp only [List.length_append, gt_iff_lt]
  omega

theorem round_trip_Inv (getHash256 : List Byte → Hash32) (magic_word : Nat)
    (es : List InvEntry) (hm : magic_word < 2 ^ 32) (hcount : es.length ≤ INV_MAX)
    (htype : ∀ e ∈ es, e.invtype_ ≤ 3) :
    ∃ f, (Payload.Inv es).serialize getHash256 magic_word = .ok f ∧
      Payload.deserialize getHash256 f magic_word = .ok [.Inv es] := by
  have hc : es.length ≤ 50000 := hcount
  have hle := make_varint_le es.length
  have hvl := make_varint_length es.length
  refine round_trip_of_body getHash256 (.Inv es) magic_word
    (es.length * 36 + (make_varint es.length []).1)
    ((make_varint es.length []).1 + es.length * 36) []
    ((make_varint es.length []).2 ++ encodeInvEntries es) .Payload_inv hm ?_ ?_ ?_ ?_
    (by omega) (typeStr_nz _) (typeStr_lt _) (findPayloadType_typeStr _) ?_
  · simp [Payload.serialize_inner, Payload_Inv.serialize_inner,
      get_varint_len_eq es.length (by omega)]
  · intro _
    have hw := inv_write es
    simp only [Payload.serialize_inner, Payload_Inv.serialize_inner, bind_eq_bind,
      pure_eq_ok, INV_ENTRY_LEN]
    cases hst : store (List.replicate (es.length * 36 + (make_varint es.length []).1) 0) 0
        ((make_varint es.length []).2.take (make_varint es.length []).1) with
    | ok mem =>
      rw [hst, bind_ok] at hw
      simp only [bind_ok, hw]
    | deserError msg => rw [hst] at hw; cases hw
    | runtimeError msg => rw [hst] at hw; cases hw
    | undefined => rw [hst] at hw; cases hw
    | outOfFuel => rw [hst] at hw; cases hw
  · intro h
    have := make_varint_pos es.length
    omega
  · simp [hvl, encodeInvEntries_length]
    omega
  · have hr := inv_read es hcount htype
    rw [inv_body_nonempty]
    simp only [makePayload, Payload_Inv.deserialize, bind_eq_bind, pure_eq_ok]
    cases hg : get_varint ((make_varint es.length []).2 ++ encodeInvEntries es)
        (((make_varint es.length []).2 ++ encodeInvEntries es).length % 2 ^ 32) with
    | ok x =>
      rw [hg, bind_ok] at hr
      obtain ⟨a, b⟩ := x
      simp only [bind_ok]
      by_cases hgt : a > INV_MAX
      · simp only [hgt, if_true] at hr
        cases hr
      · simp only [hgt, if_false] at hr ⊢
        rw [hr, bind_ok]
    | deserError msg => rw [hg] at hr; cases hr
    | runtimeError msg => rw [hg] at hr; cases hr
    | undefined => rw [hg] at hr; cases hr
    | outOfFuel => rw [hg] at hr; cases hr

theorem round_trip_GetData (getHash256 : List Byte → Hash32) (magic_word : Nat)
    (es : List InvEntry) (hm : magic_word < 2 ^ 32) (hcount : es.length ≤ INV_MAX)
    (htype : ∀ e ∈ es, e.invtype_ ≤ 3) :
    ∃ f, (Payload.GetData es).serialize getHash256 magic_word = .ok f ∧
      Payload.deserialize getHash256 f magic_word = .ok [.GetData es] := by
  have hc : es.length ≤ 50000 := hcount
  have hle := make_varint_le es.length
  have hvl := make_varint_length es.length
  refine round_trip_of_body getHash256 (.GetData es) magic_word
    (es.length * 36 + (make_varint es.length []).1)
    ((make_varint es.length []).1 + es.length * 36) []
    ((make_varint es.length []).2 ++ encodeInvEntries es) .Payload_getdata hm ?_ ?_ ?_ ?_
    (by omega) (typeStr_nz _) (typeStr_lt _) (findPayloadType_typeStr _) ?_
  · simp [Payload.serialize_inner, Payload_GetData.serialize_inner,
      get_varint_len_eq es.length (by omega)]
  · intro _
    have hw := inv_write es
    simp only [Payload.serialize_inner, Payload_GetData.serialize_inner, bind_eq_bind,
      pure_eq_ok, INV_ENTRY_LEN]
    cases hst : store (List.replicate (es.length * 36 + (make_varint es.length []).1) 0) 0
        ((make_varint es.length []).2.take (make_varint es.length []).1) with
    | ok mem =>
      rw [hst, bind_ok] at hw
      simp only [bind_ok, hw]
    | deserError msg => rw [hst] at hw; cases hw
    | runtimeError msg => rw [hst] at hw; cases hw
    | undefined => rw [hst] at hw; cases hw
    | outOfFuel => rw [hst] at hw; cases hw
  · intro h
    have := make_varint_pos es.length
    omega
  · simp [hvl, encodeInvEntries_length]
    omega
  · have hr := inv_read es hcount htype
    rw [inv_body_nonempty]
    simp only [makePayload, Payload_GetData.deserialize, bind_eq_bind, pure_eq_ok]
    cases hg : get_varint ((make_varint es.length []).2 ++ encodeInvEntries es)
        (((make_varint es.length []).2 ++ encodeInvEntries es).length % 2 ^ 32) with
    | ok x =>
      rw [hg, bind_ok] at hr
      obtain ⟨a, b⟩ := x
      simp only [bind_ok]
      by_cases hgt : a > INV_MAX
      · simp only [hgt, if_true] at hr
        cases hr
      · simp only [hgt, if_false] at hr ⊢
        rw [hr, bind_ok]
    | deserError msg => rw [hg] at hr; cases hr
    | runtimeError msg => rw [hg] at hr; cases hr
    | undefined => rw [hg] at hr; cases hr
    | outOfFuel => rw [hg] at hr; cases hr

/-! ## The `version` payload -/

@[simp] theorem put_integer_be_length (w n : Nat) : (put_integer_be w n).length = w := by
  simp [put_integer_be]

/-- The bytes that `Payload_Version::serialize_inner` leaves in a zero filled
buffer of the size it asked for: the integers of the header most significant
byte first, the nonce least significant byte first, the varint and the user
agent, one byte that is never written, and the start height. -/
theorem version_write (vh : VersionHeader) (ua : List Byte) (h : Nat) :
    Payload_Version.serialize_inner vh ua h
        (some (List.replicate ((make_varint ua.length []).1 + ua.length + VERSION_MINLENGTH) 0))
      = .ok ((make_varint ua.length []).1 + ua.length + VERSION_MINLENGTH,
          encodeVersion vh ua h) := by
  have hvl := make_varint_length ua.length
  have htake : (make_varint ua.length []).2.take (make_varint ua.length []).1
      = (make_varint ua.length []).2 := by
    rw [← hvl]
    exact List.take_length _
  have hsplit : List.replicate ((make_varint ua.length []).1 + ua.length + VERSION_MINLENGTH)
      (0 : Byte) = List.replicate 4 (0 : Byte) ++ (List.replicate 8 (0 : Byte) ++ (List.replicate 8 (0 : Byte) ++ (List.replicate 8 (0 : Byte) ++ (List.replicate 16 (0 : Byte) ++ (List.replicate 2 (0 : Byte) ++ (List.replicate 8 (0 : Byte) ++ (List.replicate 16 (0 : Byte) ++ (List.replicate 2 (0 : Byte) ++ (List.replicate 8 (0 : Byte) ++ (List.replicate (make_varint ua.length []).1 (0 : Byte) ++ (List.replicate ua.length (0 : Byte) ++ (List.replicate 1 (0 : Byte) ++ (List.replicate 4 (0 : Byte)))))))))))))) := by
    simp only [← List.replicate_add, VERSION_MINLENGTH]
    congr 1
    omega
  have s0 := store_at [] (List.replicate 4 (0 : Byte)) (List.replicate 8 (0 : Byte) ++ (List.replicate 8 (0 : Byte) ++ (List.replicate 8 (0 : Byte) ++ (List.replicate 16 (0 : Byte) ++ (List.replicate 2 (0 : Byte) ++ (List.replicate 8 (0 : Byte) ++ (List.replicate 16 (0 : Byte) ++ (List.replicate 2 (0 : Byte) ++ (List.replicate 8 (0 : Byte) ++ (List.replicate (make_varint ua.length []).1 (0 : Byte) ++ (List.replicate ua.length (0 : Byte) ++ (List.replicate 1 (0 : Byte) ++ (List.replicate 4 (0 : Byte))))))))))))))
    (put_integer_be 4 vh.version_) 0
    (by simp [hvl, vh.addr_recv_.ipV6_.property, vh.addr_from_.ipV6_.property]; try omega)
    (by simp [hvl, vh.addr_recv_.ipV6_.property, vh.addr_from_.ipV6_.property])
  have s1 := store_at (put_integer_be 4 vh.version_) (List.replicate 8 (0 : Byte)) (List.replicate 8 (0 : Byte) ++ (List.replicate 8 (0 : Byte) ++ (List.replicate 16 (0 : Byte) ++ (List.replicate 2 (0 : Byte) ++ (List.replicate 8 (0 : Byte) ++ (List.replicate 16 (0 : Byte) ++ (List.replicate 2 (0 : Byte) ++ (List.replicate 8 (0 : Byte) ++ (List.replicate (make_varint ua.length []).1 (0 : Byte) ++ (List.replicate ua.length (0 : Byte) ++ (List.replicate 1 (0 : Byte) ++ (List.replicate 4 (0 : Byte)))))))))))))
    (put_integer_be 8 vh.services_) 4
    (by simp [hvl, vh.addr_recv_.ipV6_.property, vh.addr_from_.ipV6_.property]; try omega)
    (by simp [hvl, vh.addr_recv_.ipV6_.property, vh.addr_from_.ipV6_.property])
  have s2 := store_at (put_integer_be 4 vh.version_ ++ put_integer_be 8 vh.services_) (List.replicate 8 (0 : Byte)) (List.replicate 8 (0 : Byte) ++ (List.replicate 16 (0 : Byte) ++ (List.replicate 2 (0 : Byte) ++ (List.replicate 8 (0 : Byte) ++ (List.replicate 16 (0 : Byte) ++ (List.replicate 2 (0 : Byte) ++ (List.replicate 8 (0 : Byte) ++ (List.replicate (make_varint ua.length []).1 (0 : Byte) ++ (List.replicate ua.length (0 : Byte) ++ (List.replicate 1 (0 : Byte) ++ (List.replicate 4 (0 : Byte))))))))))))
    (put_integer_be 8 vh.timestamp_) 12
    (by simp [hvl, vh.addr_recv_.ipV6_.property, vh.addr_from_.ipV6_.property]; try omega)
    (by simp [hvl, vh.addr_recv_.ipV6_.property, vh.addr_from_.ipV6_.property])
  have s3 := store_at (put_integer_be 4 vh.version_ ++ put_integer_be 8 vh.services_ ++ put_integer_be 8 vh.timestamp_) (List.replicate 8 (0 : Byte)) (List.replicate 16 (0 : Byte) ++ (List.replicate 2 (0 : Byte) ++ (List.replicate 8 (0 : Byte) ++ (List.replicate 16 (0 : Byte) ++ (List.replicate 2 (0 : Byte) ++ (List.replicate 8 (0 : Byte) ++ (List.replicate (make_varint ua.length []).1 (0 : Byte) ++ (List.replicate ua.length (0 : Byte) ++ (List.replicate 1 (0 : Byte) ++ (List.replicate 4 (0 : Byte)))))))))))
    (put_integer_be 8 vh.addr_recv_.services_) 20
    (by simp [hvl, vh.addr_recv_.ipV6_.property, vh.addr_from_.ipV6_.property]; try omega)
    (by simp [hvl, vh.addr_recv_.ipV6_.property, vh.addr_from_.ipV6_.property])
  have s4 := store_at (put_integer_be 4 vh.version_ ++ put_integer_be 8 vh.services_ ++ put_integer_be 8 vh.timestamp_ ++ put_integer_be 8 vh.addr_recv_.services_) (List.replicate 16 (0 : Byte)) (List.replicate 2 (0 : Byte) ++ (List.replicate 8 (0 : Byte) ++ (List.replicate 16 (0 : Byte) ++ (List.replicate 2 (0 : Byte) ++ (List.replicate 8 (0 : Byte) ++ (List.replicate (make_varint ua.length []).1 (0 : Byte) ++ (List.replicate ua.length (0 : Byte) ++ (List.replicate 1 (0 : Byte) ++ (List.replicate 4 (0 : Byte))))))))))
    (vh.addr_recv_.ipV6_.val) 28
    (by simp [hvl, vh.addr_recv_.ipV6_.property, vh.addr_from_.ipV6_.property]; try omega)
    (by simp [hvl, vh.addr_recv_.ipV6_.property, vh.addr_from_.ipV6_.property])
  have s5 := store_at (put_integer_be 4 vh.version_ ++ put_integer_be 8 vh.services_ ++ put_integer_be 8 vh.timestamp_ ++ put_integer_be 8 vh.addr_recv_.services_ ++ vh.addr_recv_.ipV6_.val) (List.replicate 2 (0 : Byte)) (List.replicate 8 (0 : Byte) ++ (List.replicate 16 (0 : Byte) ++ (List.replicate 2 (0 : Byte) ++ (List.replicate 8 (0 : Byte) ++ (List.replicate (make_varint ua.length []).1 (0 : Byte) ++ (List.replicate ua.length (0 : Byte) ++ (List.replicate 1 (0 : Byte) ++ (List.replicate 4 (0 : Byte)))))))))
    (put_integer_be 2 vh.addr_recv_.port_) 44
    (by simp [hvl, vh.addr_recv_.ipV6_.property, vh.addr_from_.ipV6_.property]; try omega)
    (by simp [hvl, vh.addr_recv_.ipV6_.property, vh.addr_from_.ipV6_.property])
  have s6 := store_at (put_integer_be 4 vh.version_ ++ put_integer_be 8 vh.services_ ++ put_integer_be 8 vh.timestamp_ ++ put_integer_be 8 vh.addr_recv_.services_ ++ vh.addr_recv_.ipV6_.val ++ put_integer_be 2 vh.addr_recv_.port_) (List.replicate 8 (0 : Byte)) (List.replicate 16 (0 : Byte) ++ (List.replicate 2 (0 : Byte) ++ (List.replicate 8 (0 : Byte) ++ (List.replicate (make_varint ua.length []).1 (0 : Byte) ++ (List.replicate ua.length (0 : Byte) ++ (List.replicate 1 (0 : Byte) ++ (List.replicate 4 (0 : Byte))))))))
    (put_integer_be 8 vh.addr_from_.services_) 46
    (by simp [hvl, vh.addr_recv_.ipV6_.property, vh.addr_from_.ipV6_.property]; try omega)
    (by simp [hvl, vh.addr_recv_.ipV6_.property, vh.addr_from_.ipV6_.property])
  have s7 := store_at (put_integer_be 4 vh.version_ ++ put_integer_be 8 vh.services_ ++ put_integer_be 8 vh.timestamp_ ++ put_integer_be 8 vh.addr_recv_.services_ ++ vh.addr_recv_.ipV6_.val ++ put_integer_be 2 vh.addr_recv_.port_ ++ put_integer_be 8 vh.addr_from_.services_) (List.replicate 16 (0 : Byte)) (List.replicate 2 (0 : Byte) ++ (List.replicate 8 (0 : Byte) ++ (List.replicate (make_varint ua.length []).1 (0 : Byte) ++ (List.replicate ua.length (0 : Byte) ++ (List.replicate 1 (0 : Byte) ++ (List.replicate 4 (0 : Byte)))))))
    (vh.addr_from_.ipV6_.val) 54
    (by simp [hvl, vh.addr_recv_.ipV6_.property, vh.addr_from_.ipV6_.property]; try omega)
    (by simp [hvl, vh.addr_recv_.ipV6_.property, vh.addr_from_.ipV6_.property])
  have s8 := store_at (put_integer_be 4 vh.version_ ++ put_integer_be 8 vh.services_ ++ put_integer_be 8 vh.timestamp_ ++ put_integer_be 8 vh.addr_recv_.services_ ++ vh.addr_recv_.ipV6_.val ++ put_integer_be 2 vh.addr_recv_.port_ ++ put_integer_be 8 vh.addr_from_.services_ ++ vh.addr_from_.ipV6_.val) (List.replicate 2 (0 : Byte)) (List.replicate 8 (0 : Byte) ++ (List.replicate (make_varint ua.length []).1 (0 : Byte) ++ (List.replicate ua.length (0 : Byte) ++ (List.replicate 1 (0 : Byte) ++ (List.replicate 4 (0 : Byte))))))
    (put_integer_be 2 vh.addr_from_.port_) 70
    (by simp [hvl, vh.addr_recv_.ipV6_.property, vh.addr_from_.ipV6_.property]; try omega)
    (by simp [hvl, vh.addr_recv_.ipV6_.property, vh.addr_from_.ipV6_.property])
  have s9 := store_at (put_integer_be 4 vh.version_ ++ put_integer_be 8 vh.services_ ++ put_integer_be 8 vh.timestamp_ ++ put_integer_be 8 vh.addr_recv_.services_ ++ vh.addr_recv_.ipV6_.val ++ put_integer_be 2 vh.addr_recv_.port_ ++ put_integer_be 8 vh.addr_from_.services_ ++ vh.addr_from_.ipV6_.val ++ put_integer_be 2 vh.addr_from_.port_) (List.replicate 8 (0 : Byte)) (List.replicate (make_varint ua.length []).1 (0 : Byte) ++ (List.replicate ua.length (0 : Byte) ++ (List.replicate 1 (0 : Byte) ++ (List.replicate 4 (0 : Byte)))))
    (toLE 8 vh.nonce_) 72
    (by simp [hvl, vh.addr_recv_.ipV6_.property, vh.addr_from_.ipV6_.property]; try omega)
    (by simp [hvl, vh.addr_recv_.ipV6_.property, vh.addr_from_.ipV6_.property])
  have s10 := store_at (put_integer_be 4 vh.version_ ++ put_integer_be 8 vh.services_ ++ put_integer_be 8 vh.timestamp_ ++ put_integer_be 8 vh.addr_recv_.services_ ++ vh.addr_recv_.ipV6_.val ++ put_integer_be 2 vh.addr_recv_.port_ ++ put_integer_be 8 vh.addr_from_.services_ ++ vh.addr_from_.ipV6_.val ++ put_integer_be 2 vh.addr_from_.port_ ++ toLE 8 vh.nonce_) (List.replicate (make_varint ua.length []).1 (0 : Byte)) (List.replicate ua.length (0 : Byte) ++ (List.replicate 1 (0 : Byte) ++ (List.replicate 4 (0 : Byte))))
    ((make_varint ua.length []).2) 80
    (by simp [hvl, vh.addr_recv_.ipV6_.property, vh.addr_from_.ipV6_.property]; try omega)
    (by simp [hvl, vh.addr_recv_.ipV6_.property, vh.addr_from_.ipV6_.property])
  have s11 := store_at (put_integer_be 4 vh.version_ ++ put_integer_be 8 vh.services_ ++ put_integer_be 8 vh.timestamp_ ++ put_integer_be 8 vh.addr_recv_.services_ ++ vh.addr_recv_.ipV6_.val ++ put_integer_be 2 vh.addr_recv_.port_ ++ put_integer_be 8 vh.addr_from_.services_ ++ vh.addr_from_.ipV6_.val ++ put_integer_be 2 vh.addr_from_.port_ ++ toLE 8 vh.nonce_ ++ (make_varint ua.length []).2) (List.replicate ua.length (0 : Byte)) (List.replicate 1 (0 : Byte) ++ (List.replicate 4 (0 : Byte)))
    (ua) (80 + (make_varint ua.length []).1)
    (by simp [hvl, vh.addr_recv_.ipV6_.property, vh.addr_from_.ipV6_.property]; try omega)
    (by simp [hvl, vh.addr_recv_.ipV6_.property, vh.addr_from_.ipV6_.property])
  have s12 := store_at (put_integer_be 4 vh.version_ ++ put_integer_be 8 vh.services_ ++ put_integer_be 8 vh.timestamp_ ++ put_integer_be 8 vh.addr_recv_.services_ ++ vh.addr_recv_.ipV6_.val ++ put_integer_be 2 vh.addr_recv_.port_ ++ put_integer_be 8 vh.addr_from_.services_ ++ vh.addr_from_.ipV6_.val ++ put_integer_be 2 vh.addr_from_.port_ ++ toLE 8 vh.nonce_ ++ (make_varint ua.length []).2 ++ ua ++ List.replicate 1 (0 : Byte)) (List.replicate 4 (0 : Byte)) []
    (toLE 4 h) (80 + (make_varint ua.length []).1 + ua.length + 1)
    (by simp [hvl, vh.addr_recv_.ipV6_.property, vh.addr_from_.ipV6_.property]; try omega)
    (by simp [hvl, vh.addr_recv_.ipV6_.property, vh.addr_from_.ipV6_.property])
  simp only [List.append_assoc, List.nil_append, List.append_nil] at s0 s1 s2 s3 s4 s5 s6 s7 s8 s9 s10 s11 s12
  simp only [Payload_Version.serialize_inner, BitcoinNetAddr.serialize, bind_eq_bind,
    pure_eq_ok, Nat.reduceAdd, USERAGENT_OFFSET, htake, hsplit]
  simp only [s0, bind_ok]
  simp only [s1, bind_ok]
  simp only [s2, bind_ok]
  simp only [s3, bind_ok]
  simp only [s4, bind_ok]
  simp only [s5, bind_ok]
  simp only [s6, bind_ok]
  simp only [s7, bind_ok]
  simp only [s8, bind_ok]
  simp only [s9, bind_ok]
  simp only [s10, bind_ok]
  simp only [s11, bind_ok]
  simp only [s12, bind_ok]
  simp only [encodeVersion, encodeNetAddr, List.append_assoc, List.singleton_append,
    List.replicate_one, List.cons_append, List.nil_append]

theorem encodeVersion_length (vh : VersionHeader) (ua : List Byte) (h : Nat) :
    (encodeVersion vh ua h).length
      = (make_varint ua.length []).1 + ua.length + VERSION_MINLENGTH := by
  simp only [encodeVersion, encodeNetAddr, List.length_append, List.length_cons,
    put_integer_be_length, toLE_length, make_varint_length, vh.addr_recv_.ipV6_.property,
    vh.addr_from_.ipV6_.property, VERSION_MINLENGTH]
  omega

/-! ## Both passes of `serialize_inner` -/

/-- For every payload whose size-only pass answers `n < 2^32`, the writing pass
succeeds on the `n` zero bytes that `Payload::serialize` hands it and leaves
`n` bytes. -/
theorem serialize_inner_passes (p : Payload) (n : Nat) (mem0 : List Byte)
    (hsz : p.serialize_inner none = .ok (n, mem0)) (hn : n < 2 ^ 32) :
    ∃ r b, (0 < n → p.serialize_inner (some (List.replicate n 0)) = .ok (r, b))
      ∧ (n = 0 → b = []) ∧ b.length = n := by
  cases p with
  | Version vh ua h =>
    simp only [Payload.serialize_inner, Payload_Version.serialize_inner, Result.ok.injEq,
      Prod.mk.injEq] at hsz
    obtain ⟨hsz, -⟩ := hsz
    have hua : ua.length < 2 ^ 63 := by
      simp only [VERSION_MINLENGTH] at hsz
      omega
    rw [get_varint_len_eq ua.length hua] at hsz
    subst hsz
    refine ⟨_, encodeVersion vh ua h, fun _ => version_write vh ua h, ?_,
      encodeVersion_length vh ua h⟩
    intro h0
    simp only [VERSION_MINLENGTH] at h0
    omega
  | Verack =>
    simp only [Payload.serialize_inner, Option.getD_none, Result.ok.injEq,
      Prod.mk.injEq] at hsz
    obtain ⟨hsz, -⟩ := hsz
    subst hsz
    exact ⟨0, [], fun h => absurd h (by decide), fun _ => rfl, rfl⟩
  | Ping nonce_ =>
    by_cases hmax : nonce_ = UINT64_MAX
    · simp only [Payload.serialize_inner, Payload_Ping.serialize_inner, hmax, if_true,
        Option.getD_none, Result.ok.injEq, Prod.mk.injEq] at hsz
      obtain ⟨hsz, -⟩ := hsz
      subst hsz
      exact ⟨0, [], fun h => absurd h (by decide), fun _ => rfl, rfl⟩
    · simp only [Payload.serialize_inner, Payload_Ping.serialize_inner, hmax, if_false,
        Result.ok.injEq, Prod.mk.injEq] at hsz
      obtain ⟨hsz, -⟩ := hsz
      subst hsz
      have hst : store (List.replicate 8 (0 : Byte)) 0 (toLE 8 nonce_) = .ok (toLE 8 nonce_) :=
        store_all _ _ (by simp)
      refine ⟨8, toLE 8 nonce_, fun _ => ?_, fun h => absurd h (by decide), by simp⟩
      simp only [Payload.serialize_inner, Payload_Ping.serialize_inner, hmax, if_false,
        bind_eq_bind, hst, bind_ok, pure_eq_ok]
  | Pong nonce_ =>
    by_cases hmax : nonce_ = UINT64_MAX
    · simp only [Payload.serialize_inner, Payload_Pong.serialize_inner, hmax, if_true,
        Option.getD_none, Result.ok.injEq, Prod.mk.injEq] at hsz
      obtain ⟨hsz, -⟩ := hsz
      subst hsz
      exact ⟨0, [], fun h => absurd h (by decide), fun _ => rfl, rfl⟩
    · simp only [Payload.serialize_inner, Payload_Pong.serialize_inner, hmax, if_false,
        Result.ok.injEq, Prod.mk.injEq] at hsz
      obtain ⟨hsz, -⟩ := hsz
      subst hsz
      have hst : store (List.replicate 8 (0 : Byte)) 0 (toLE 8 nonce_) = .ok (toLE 8 nonce_) :=
        store_all _ _ (by simp)
      refine ⟨8, toLE 8 nonce_, fun _ => ?_, fun h => absurd h (by decide), by simp⟩
      simp only [Payload.serialize_inner, Payload_Pong.serialize_inner, hmax, if_false,
        bind_eq_bind, hst, bind_ok, pure_eq_ok]
  | Inv es =>
    simp only [Payload.serialize_inner, Payload_Inv.serialize_inner, Result.ok.injEq,
      Prod.mk.injEq, INV_ENTRY_LEN] at hsz
    obtain ⟨hsz, -⟩ := hsz
    have hes : es.length < 2 ^ 63 := by omega
    rw [get_varint_len_eq es.length hes] at hsz
    subst hsz
    have hw := inv_write es
    refine ⟨(make_varint es.length []).1 + es.length * 36,
      (make_varint es.length []).2 ++ encodeInvEntries es, fun _ => ?_, ?_, ?_⟩
    · simp only [Payload.serialize_inner, Payload_Inv.serialize_inner, bind_eq_bind,
        pure_eq_ok, INV_ENTRY_LEN]
      cases hst : store (List.replicate (es.length * 36 + (make_varint es.length []).1) 0) 0
          ((make_varint es.length []).2.take (make_varint es.length []).1) with
      | ok mem =>
        rw [hst, bind_ok] at hw
        simp only [bind_ok, hw]
      | deserError msg => rw [hst] at hw; cases hw
      | runtimeError msg => rw [hst] at hw; cases hw
      | undefined => rw [hst] at hw; cases hw
      | outOfFuel => rw [hst] at hw; cases hw
    · intro h0
      have := make_varint_pos es.length
      omega
    · simp [make_varint_length, encodeInvEntries_length]
      omega
  | GetData es =>
    simp only [Payload.serialize_inner, Payload_GetData.serialize_inner, Result.ok.injEq,
      Prod.mk.injEq, INV_ENTRY_LEN] at hsz
    obtain ⟨hsz, -⟩ := hsz
    have hes : es.length < 2 ^ 63 := by omega
    rw [get_varint_len_eq es.length hes] at hsz
    subst hsz
    have hw := inv_write es
    refine ⟨(make_varint es.length []).1 + es.length * 36,
      (make_varint es.length []).2 ++ encodeInvEntries es, fun _ => ?_, ?_, ?_⟩
    · simp only [Payload.serialize_inner, Payload_GetData.serialize_inner, bind_eq_bind,
        pure_eq_ok, INV_ENTRY_LEN]
      cases hst : store (List.replicate (es.length * 36 + (make_varint es.length []).1) 0) 0
          ((make_varint es.length []).2.take (make_varint es.length []).1) with
      | ok mem =>
        rw [hst, bind_ok] at hw
        simp only [bind_ok, hw]
      | deserError msg => rw [hst] at hw; cases hw
      | runtimeError msg => rw [hst] at hw; cases hw
      | undefined => rw [hst] at hw; cases hw
      | outOfFuel => rw [hst] at hw; cases hw
    · intro h0
      have := make_varint_pos es.length
      omega
    · simp [make_varint_length, encodeInvEntries_length]
      omega
  | Tx rawTx_ =>
    simp only [Payload.serialize_inner, Payload_Tx.serialize_inner, Result.ok.injEq,
      Prod.mk.injEq] at hsz
    obtain ⟨hsz, -⟩ := hsz
    subst hsz
    refine ⟨rawTx_.length, rawTx_, fun _ => ?_, fun h => List.length_eq_zero.mp h, rfl⟩
    simp [Payload.serialize_inner, Payload_Tx.serialize_inner, store_all]

/-! ## The magic word search -/

theorem fromLE_inj4 (bs : List Byte) (m : Nat) (hlen : bs.length = 4)
    (h : fromLE bs = m) : bs = toLE 4 m := by
  have := toLE_fromLE bs
  rw [hlen, h] at this
  exact this.symm

/-- The search does not move the cursor backwards on a buffer shorter than
`2^32` bytes. -/
theorem scanMagic_ge (ptr : List Byte) (magic_word : Nat) (hlen : ptr.length < 2 ^ 32)
    (fuel i0 i : Nat) (h : scanMagic ptr magic_word fuel i0 = .ok i) : i0 ≤ i := by
  induction fuel generalizing i0 with
  | zero => simp [scanMagic] at h
  | succ fuel ih =>
    rw [scanMagic] at h
    by_cases hlt : i0 < ptr.length
    · have hmod : (i0 + 1) % 2 ^ 32 = i0 + 1 := Nat.mod_eq_of_lt (by omega)
      simp only [hlt, if_true, hmod] at h
      split at h
      · cases h
      · split at h
        · cases hl : load 4 (List.drop i0 ptr) with
          | ok mw =>
            rw [hl, bind_ok] at h
            split at h
            · injection h with h
              omega
            · have := ih _ h
              omega
          | deserError msg => rw [hl] at h; cases h
          | runtimeError msg => rw [hl] at h; cases h
          | undefined => rw [hl] at h; cases h
          | outOfFuel => rw [hl] at h; cases h
        · have := ih _ h
          omega
    · simp only [hlt, if_false] at h
      injection h with h
      omega

/-- The search started at `i` stops at the first occurrence of the magic word,
here at `|g|`, when the magic word does not occur at any position from `i` up
to there. -/
theorem scanMagic_found (g rest : List Byte) (magic_word : Nat) (hm : magic_word < 2 ^ 32)
    (hg : g.length < 2 ^ 32)
    (fuel i : Nat) (hi : i ≤ g.length) (hfuel : g.length - i < fuel)
    (hno : ∀ j, i ≤ j → j < g.length →
      ((g ++ (toLE 4 magic_word ++ rest)).drop j).take 4 ≠ toLE 4 magic_word) :
    scanMagic (g ++ (toLE 4 magic_word ++ rest)) magic_word fuel i = .ok g.length := by
  induction fuel generalizing i with
  | zero => omega
  | succ fuel ih =>
    have hplen : (g ++ (toLE 4 magic_word ++ rest)).length = g.length + 4 + rest.length := by
      simp
      omega
    rw [scanMagic]
    have hlt : i < (g ++ (toLE 4 magic_word ++ rest)).length := by omega
    simp only [hlt, if_true]
    by_cases hig : i = g.length
    · subst hig
      have hd : List.drop g.length (g ++ (toLE 4 magic_word ++ rest))
          = toLE 4 magic_word ++ rest := List.drop_left _ _
      have hl : load 4 (toLE 4 magic_word ++ rest) = .ok magic_word := by
        rw [load_append 4 _ _ (toLE_length 4 _),
          fromLE_toLE_of_lt 4 _ (by norm_num; omega)]
      rw [hd]
      simp only [toLE, List.cons_append, if_true]
      simp only [toLE, List.cons_append] at hl
      rw [hl]
      simp
    · have hilt : i < g.length := by omega
      have hmod : (i + 1) % 2 ^ 32 = i + 1 := Nat.mod_eq_of_lt (by omega)
      have hrec := ih (i + 1) (by omega) (by omega)
        (fun j hj1 hj2 => hno j (by omega) hj2)
      have hno' := hno i (Nat.le_refl _) hilt
      have hdl : 4 ≤ (List.drop i (g ++ (toLE 4 magic_word ++ rest))).length := by
        rw [List.length_drop, hplen]
        omega
      have hl : load 4 (List.drop i (g ++ (toLE 4 magic_word ++ rest)))
          = .ok (fromLE ((List.drop i (g ++ (toLE 4 magic_word ++ rest))).take 4)) := by
        simp only [load, hdl, if_true]
      have hne : fromLE ((List.drop i (g ++ (toLE 4 magic_word ++ rest))).take 4)
          ≠ magic_word := by
        intro heq
        exact hno' (fromLE_inj4 _ _ (by simp; omega) heq)
      rw [hmod, hrec, hl]
      cases hdrop : List.drop i (g ++ (toLE 4 magic_word ++ rest)) with
      | nil =>
        rw [hdrop] at hdl
        simp at hdl
      | cons b tl =>
        rw [hdrop] at hne
        simp only [bind_ok, hne, if_false]
        split <;> rfl

/-- One iteration of the decoder loop at a position where the magic word does
not match: the cursor moves by what the search answers. -/
theorem deserializeLoop_mismatch (getHash256 : List Byte → Hash32) (data : List Byte)
    (magic_word fuel offset mw i : Nat) (retvec : List Payload)
    (hlt : offset < data.length)
    (hload : load 4 (data.drop offset) = .ok mw) (hne : mw ≠ magic_word)
    (hscan : scanMagic (data.drop offset) magic_word (data.drop offset).length 4 = .ok i) :
    deserializeLoop getHash256 data magic_word (fuel + 1) offset retvec
      = deserializeLoop getHash256 data magic_word fuel (offset + i) retvec := by
  rw [deserializeLoop]
  simp only [hlt, if_true, MAGIC_WORD_OFFSET, List.drop_zero, hload, bind_ok, ne_eq, hne,
    not_false_eq_true, hscan]

/-- Garbage in front of a frame: the decoder finds the frame when the garbage
is at least 4 bytes long and the magic word does not occur before the frame. -/
theorem deserializeLoop_garbage (getHash256 : List Byte → Hash32) (magic_word fuel : Nat)
    (g rest : List Byte) (retvec : List Payload) (hm : magic_word < 2 ^ 32)
    (hg4 : 4 ≤ g.length) (hg : g.length < 2 ^ 32)
    (hno : ∀ j, j < g.length →
      ((g ++ (toLE 4 magic_word ++ rest)).drop j).take 4 ≠ toLE 4 magic_word) :
    deserializeLoop getHash256 (g ++ (toLE 4 magic_word ++ rest)) magic_word (fuel + 1) 0 retvec
      = deserializeLoop getHash256 (g ++ (toLE 4 magic_word ++ rest)) magic_word fuel
          g.length retvec := by
  have hplen : (g ++ (toLE 4 magic_word ++ rest)).length = g.length + 4 + rest.length := by
    simp
    omega
  have hscan := scanMagic_found g rest magic_word hm hg
    (g ++ (toLE 4 magic_word ++ rest)).length 4 hg4 (by omega)
    (fun j _ hj => hno j hj)
  have hl : load 4 (g ++ (toLE 4 magic_word ++ rest))
      = .ok (fromLE ((g ++ (toLE 4 magic_word ++ rest)).take 4)) := by
    simp only [load, hplen]
    rw [if_pos (by omega)]
  have hne : fromLE ((g ++ (toLE 4 magic_word ++ rest)).take 4) ≠ magic_word := by
    intro heq
    have h0 := hno 0 (by omega)
    rw [List.drop_zero] at h0
    exact h0 (fromLE_inj4 _ _ (by simp; omega) heq)
  have := deserializeLoop_mismatch getHash256 (g ++ (toLE 4 magic_word ++ rest)) magic_word
    fuel 0 _ g.length retvec (by omega) (by rw [List.drop_zero]; exact hl) hne
    (by rw [List.drop_zero]; exact hscan)
  simpa using this

/-- A payload is produced only from a position that has the 24 bytes of a
header in front of the end of the buffer. -/
theorem deserializeLoop_short (getHash256 : List Byte → Hash32) (data : List Byte)
    (magic_word : Nat) (fuel offset : Nat)
    (retvec r : List Payload) (hshort : data.length < offset + 24)
    (h : deserializeLoop getHash256 data magic_word fuel offset retvec = .ok r) :
    r = retvec := by
  induction fuel generalizing offset with
  | zero =>
    rw [deserializeLoop] at h
    split at h
    · cases h
    · injection h with h
      exact h.symm
  | succ fuel ih =>
    rw [deserializeLoop] at h
    by_cases hlt : offset < data.length
    · simp only [hlt, if_true, MAGIC_WORD_OFFSET, List.drop_zero, MESSAGE_TYPE_OFFSET,
        MESSAGE_TYPE_LEN, PAYLOAD_LENGTH_OFFSET, CHECKSUM_OFFSET, MESSAGE_HEADER_LEN] at h
      cases h1 : load 4 (List.drop offset data) with
      | ok mw =>
        rw [h1, bind_ok] at h
        by_cases hmw : mw = magic_word
        · simp only [hmw, ne_eq, not_true_eq_false, if_false] at h
          cases h2 : scanNul 12 (List.drop 4 (List.drop offset data)) with
          | ok i =>
            rw [h2, bind_ok] at h
            by_cases hi : i = 12
            · simp only [hi, if_true] at h
              exact ih (offset + 4) (by omega) h
            · simp only [hi, if_false] at h
              cases h3 : load 4 (List.drop 16 (List.drop offset data)) with
              | ok len =>
                rw [h3, bind_ok] at h
                split at h
                · cases h
                · have h4 : load 4 (List.drop 20 (List.drop offset data)) = .undefined := by
                    simp only [load, List.length_drop]
                    rw [if_neg (by omega)]
                  rw [h4] at h
                  cases h
              | deserError msg => rw [h3] at h; cases h
              | runtimeError msg => rw [h3] at h; cases h
              | undefined => rw [h3] at h; cases h
              | outOfFuel => rw [h3] at h; cases h
          | deserError msg => rw [h2] at h; cases h
          | runtimeError msg => rw [h2] at h; cases h
          | undefined => rw [h2] at h; cases h
          | outOfFuel => rw [h2] at h; cases h
        · simp only [ne_eq, hmw, not_false_eq_true, if_true] at h
          cases h2 : scanMagic (List.drop offset data) magic_word
              (List.drop offset data).length 4 with
          | ok i =>
            rw [h2, bind_ok] at h
            have hge := scanMagic_ge (List.drop offset data) magic_word
              (by rw [List.length_drop]; omega) _ 4 i h2
            exact ih (offset + i) (by omega) h
          | deserError msg => rw [h2] at h; cases h
          | runtimeError msg => rw [h2] at h; cases h
          | undefined => rw [h2] at h; cases h
          | outOfFuel => rw [h2] at h; cases h
      | deserError msg => rw [h1] at h; cases h
      | runtimeError msg => rw [h1] at h; cases h
      | undefined => rw [h1] at h; cases h
      | outOfFuel => rw [h1] at h; cases h
    · simp only [hlt, if_false] at h
      injection h with h
      exact h.symm

/-! ## Frames: lengths and tails -/

theorem frame_length (getHash256 : List Byte → Hash32) (magic_word : Nat)
    (command body : List Byte) (hcmd : command.length ≤ 12) :
    (frame getHash256 magic_word command body).length = 24 + body.length := by
  simp only [frame, List.length_append, toLE_length, List.length_replicate, List.length_take,
    (getHash256 body).property]
  omega

theorem frame_drop_header (getHash256 : List Byte → Hash32) (magic_word : Nat)
    (command body post : List Byte) (hcmd : command.length ≤ 12) :
    (frame getHash256 magic_word command body ++ post).drop 24 = body ++ post := by
  have h : frame getHash256 magic_word command body ++ post
      = (toLE 4 magic_word ++ ((command ++ List.replicate (12 - command.length) 0) ++
          (toLE 4 body.length ++ (getHash256 body).val.take 4))) ++ (body ++ post) := by
    simp only [frame, List.append_assoc]
  rw [h]
  apply drop_append_len
  simp only [List.length_append, toLE_length, List.length_replicate, List.length_take,
    (getHash256 body).property]
  omega

theorem frame_drop_all (getHash256 : List Byte → Hash32) (magic_word : Nat)
    (command body post : List Byte) (hcmd : command.length ≤ 12) :
    (frame getHash256 magic_word command body ++ post).drop (24 + body.length) = post :=
  drop_append_len _ _ _ (frame_length getHash256 magic_word command body hcmd)

/-- `Payload::serialize` of a `version` with a user agent of moderate length. -/
theorem serialize_Version (getHash256 : List Byte → Hash32) (magic_word : Nat)
    (vh : VersionHeader) (ua : List Byte) (h : Nat) (hua : ua.length + 128 < 2 ^ 32) :
    (Payload.Version vh ua h).serialize getHash256 magic_word
      = .ok (frame getHash256 magic_word (Payload.Version vh ua h).typeStr
          (encodeVersion vh ua h)) := by
  have hle := make_varint_le ua.length
  refine (serialize_of_body getHash256 (.Version vh ua h) magic_word
    ((make_varint ua.length []).1 + ua.length + VERSION_MINLENGTH)
    ((make_varint ua.length []).1 + ua.length + VERSION_MINLENGTH) []
    (encodeVersion vh ua h) ?_ (fun _ => version_write vh ua h) ?_
    (encodeVersion_length vh ua h) ?_).2
  · simp [Payload.serialize_inner, Payload_Version.serialize_inner,
      get_varint_len_eq ua.length (by omega)]
  · intro h0
    simp only [VERSION_MINLENGTH] at h0
    omega
  · simp only [VERSION_MINLENGTH]
    omega

theorem round_trip_Pong (getHash256 : List Byte → Hash32) (magic_word nonce_ : Nat)
    (hm : magic_word < 2 ^ 32) (hn : nonce_ < 2 ^ 64 - 1) :
    ∃ f, (Payload.Pong nonce_).serialize getHash256 magic_word = .ok f ∧
      Payload.deserialize getHash256 f magic_word = .ok [.Pong nonce_] := by
  have hmax : nonce_ ≠ UINT64_MAX := by
    simp only [UINT64_MAX]
    omega
  have hst : store (List.replicate 8 (0 : Byte)) 0 (toLE 8 nonce_) = .ok (toLE 8 nonce_) :=
    store_all _ _ (by simp)
  refine round_trip_of_body getHash256 (.Pong nonce_) magic_word 8 8 [] (toLE 8 nonce_)
    .Payload_pong hm ?_ ?_ (fun h => absurd h (by decide)) (by simp) (by norm_num)
    (typeStr_nz _) (typeStr_lt _) (findPayloadType_typeStr _) ?_
  · simp [Payload.serialize_inner, Payload_Pong.serialize_inner, hmax]
  · intro _
    simp only [Payload.serialize_inner, Payload_Pong.serialize_inner, hmax, if_false,
      bind_eq_bind, hst, bind_ok, pure_eq_ok]
  · have hl : load 8 (toLE 8 nonce_) = .ok nonce_ := by
      rw [load_exact 8 _ (by simp), fromLE_toLE_of_lt 8 nonce_ (by norm_num; omega)]
    simp [makePayload, Payload_Pong.deserialize, hl]

/-- The frame of the handshake `version` and what the decoder makes of it. -/
theorem handshakeVersion_codec (getHash256 : List Byte → Hash32) :
    handshakeVersion.serialize getHash256 0xD9B4BEF9
        = .ok (frame getHash256 0xD9B4BEF9 handshakeVersion.typeStr handshakeBody) ∧
      Payload.deserialize getHash256
          (frame getHash256 0xD9B4BEF9 handshakeVersion.typeStr handshakeBody) 0xD9B4BEF9
        = .ok [handshakeDecoded] := by
  constructor
  · exact serialize_Version getHash256 0xD9B4BEF9 _ _ _ (by decide)
  · rw [deserialize_frame getHash256 0xD9B4BEF9 handshakeVersion.typeStr handshakeBody
      (by norm_num) (typeStr_lt _) (typeStr_nz _) (by decide),
      findPayloadType_typeStr]
    have hdec : makePayload handshakeVersion.type
        (if handshakeBody.length > 0 then handshakeBody else []) handshakeBody.length
        = .ok handshakeDecoded := by decide
    simp only [hdec]

/-! ## Garbage in front of a frame -/

theorem list_length_four (l : List Byte) (h : l.length = 4) :
    ∃ a b c d, l = [a, b, c, d] := by
  match l, h with
  | [a, b, c, d], _ => exact ⟨a, b, c, d, rfl⟩

/-- With at least 4 bytes of garbage in front, in which (the first bytes of the
frame included) the magic word does not occur before the frame, the decoder
answers what it answers on the frame alone. -/
theorem deserialize_garbage_frame (getHash256 : List Byte → Hash32) (magic_word : Nat)
    (command body g : List Byte) (hm : magic_word < 2 ^ 32) (hcmd : command.length < 12)
    (hnz : ∀ b ∈ command, b.val ≠ 0) (hlen : body.length + 24 < 2 ^ 32)
    (hg4 : 4 ≤ g.length) (hg : g.length < 2 ^ 32)
    (hno : ∀ j, j < g.length →
      ((g ++ frame getHash256 magic_word command body).drop j).take 4 ≠ toLE 4 magic_word) :
    Payload.deserialize getHash256 (g ++ frame getHash256 magic_word command body) magic_word
      = Payload.deserialize getHash256 (frame getHash256 magic_word command body)
          magic_word := by
  have hflen := frame_length getHash256 magic_word command body (by omega)
  have hdlen : (g ++ frame getHash256 magic_word command body).length
      = g.length + (24 + body.length) := by
    rw [List.length_append, hflen]
  have hgar := deserializeLoop_garbage getHash256 magic_word
    (g.length + (24 + body.length)) g
    ((command ++ List.replicate (12 - command.length) 0) ++
      (toLE 4 body.length ++ ((getHash256 body).val.take 4 ++ body))) [] hm hg4 hg hno
  have hfr := deserializeLoop_frame getHash256 (g ++ frame getHash256 magic_word command body)
    magic_word (g.length + (23 + body.length)) g.length [] command body [] hm hcmd hnz hlen
    (by rw [List.append_nil]; exact List.drop_left _ _)
  have hend : ∀ acc, deserializeLoop getHash256 (g ++ frame getHash256 magic_word command body)
      magic_word (g.length + (23 + body.length)) (g.length + (24 + body.length)) acc
      = .ok acc := fun acc => deserializeLoop_end _ _ _ _ _ _ (by omega)
  have hfuel : g.length + (24 + body.length) = g.length + (23 + body.length) + 1 := by omega
  rw [deserialize_frame getHash256 magic_word command body hm hcmd hnz hlen]
  unfold Payload.deserialize
  rw [hdlen, if_neg (by simp only [MESSAGE_HEADER_LEN]; omega)]
  change deserializeLoop getHash256 (g ++ (toLE 4 magic_word ++ _)) magic_word _ 0 [] = _
  rw [hgar]
  change deserializeLoop getHash256 (g ++ frame getHash256 magic_word command body)
    magic_word _ g.length [] = _
  rw [hfuel, hfr]
  simp only [hend, List.append_nil, List.nil_append]

/-! ## A declared length that exceeds the buffer -/

theorem scanNul_append (n : Nat) (l more : List Byte) (h : n ≤ l.length) :
    scanNul n (l ++ more) = scanNul n l := by
  induction n generalizing l with
  | zero => simp [scanNul]
  | succ n ih =>
    cases l with
    | nil => simp at h
    | cons b l =>
      have := ih l (by simpa using h)
      simp only [List.cons_append, scanNul]
      change (if b.val = 0 then Result.ok 0
        else (scanNul n (l ++ more)).bind fun i => Result.ok (i + 1)) = _
      rw [this]

/-- One iteration of the decoder loop at a position with a matching magic word
and a command field that holds a NUL, when the declared length plus 24,
computed in 32 bits, exceeds what is left of the buffer: the decoder throws. -/
theorem deserializeLoop_length_mismatch (getHash256 : List Byte → Hash32) (data : List Byte)
    (magic_word fuel offset len i : Nat) (retvec : List Payload) (cmdfield rest : List Byte)
    (hm : magic_word < 2 ^ 32) (hlen : len < 2 ^ 32) (hcf : cmdfield.length = 12)
    (hnul : scanNul 12 cmdfield = .ok i) (hi : i ≠ 12)
    (hdrop : data.drop offset = toLE 4 magic_word ++ (cmdfield ++ (toLE 4 len ++ rest)))
    (hbad : (len + 24) % 2 ^ 32 > data.length - offset) :
    deserializeLoop getHash256 data magic_word (fuel + 1) offset retvec
      = .deserError "payload length mismatch" := by
  have hlt : offset < data.length := by
    by_contra hge
    have : data.drop offset = [] := List.drop_eq_nil_of_le (by omega)
    rw [this] at hdrop
    have := congrArg List.length hdrop
    simp at this
    omega
  have h0 : load 4 (data.drop offset) = .ok magic_word := by
    rw [hdrop, load_append 4 _ _ (toLE_length 4 _),
      fromLE_toLE_of_lt 4 _ (by norm_num; omega)]
  have h4 : (data.drop offset).drop 4 = cmdfield ++ (toLE 4 len ++ rest) := by
    rw [hdrop, drop_append_len _ _ 4 (toLE_length 4 _)]
  have h16 : (data.drop offset).drop 16 = toLE 4 len ++ rest := by
    rw [hdrop, drop_append_add _ _ 4 12 (toLE_length 4 _), drop_append_len _ _ 12 hcf]
  have hnul2 : scanNul 12 (cmdfield ++ (toLE 4 len ++ rest)) = .ok i := by
    rw [scanNul_append 12 _ _ (by omega), hnul]
  have hl : load 4 (toLE 4 len ++ rest) = .ok len := by
    rw [load_append 4 _ _ (toLE_length 4 _), fromLE_toLE_of_lt 4 _ (by norm_num; omega)]
  rw [deserializeLoop]
  simp only [hlt, if_true, MAGIC_WORD_OFFSET, List.drop_zero, h0, bind_ok, ne_eq,
    not_true_eq_false, if_false, MESSAGE_TYPE_OFFSET, h4, MESSAGE_TYPE_LEN, hnul2, hi,
    PAYLOAD_LENGTH_OFFSET, h16, hl, MESSAGE_HEADER_LEN, hbad]

/-! ## A frame whose checksum does not match -/

/-- One iteration of the decoder loop on a frame whose checksum field differs
from the hash of its payload: the cursor moves by 4 and nothing is produced. -/
theorem deserializeLoop_bad_checksum (getHash256 : List Byte → Hash32) (data : List Byte)
    (magic_word fuel offset : Nat) (retvec : List Payload)
    (command body cks post : List Byte)
    (hm : magic_word < 2 ^ 32) (hcmd : command.length < 12)
    (hnz : ∀ b ∈ command, b.val ≠ 0) (hlen : body.length + 24 < 2 ^ 32)
    (hcks : cks.length = 4) (hbad : fromLE cks ≠ fromLE ((getHash256 body).val.take 4))
    (hdrop : data.drop offset
      = toLE 4 magic_word ++ ((command ++ List.replicate (12 - command.length) 0) ++
          (toLE 4 body.length ++ (cks ++ (body ++ post))))) :
    deserializeLoop getHash256 data magic_word (fuel + 1) offset retvec
      = deserializeLoop getHash256 data magic_word fuel (offset + 4) retvec := by
  have hpad : command ++ List.replicate (12 - command.length) (0 : Byte)
      = command ++ (0 : Byte) :: List.replicate (11 - command.length) 0 := by
    have : 12 - command.length = (11 - command.length) + 1 := by omega
    rw [this, List.replicate_succ]
  have hpadlen : (command ++ List.replicate (12 - command.length) (0 : Byte)).length = 12 := by
    simp; omega
  have hrem : data.length - offset = 24 + body.length + post.length := by
    have := congrArg List.length hdrop
    simp only [List.length_drop, List.length_append, toLE_length, hpadlen, hcks] at this
    omega
  have hlt : offset < data.length := by omega
  have hmagic : fromLE (toLE 4 magic_word) = magic_word :=
    fromLE_toLE_of_lt 4 magic_word (by norm_num; omega)
  have hblen : fromLE (toLE 4 body.length) = body.length :=
    fromLE_toLE_of_lt 4 body.length (by norm_num; omega)
  have h0 : load 4 (data.drop offset) = .ok magic_word := by
    rw [hdrop, load_append 4 _ _ (toLE_length 4 _), hmagic]
  have h4 : (data.drop offset).drop 4
      = command ++ (0 : Byte) :: (List.replicate (11 - command.length) 0 ++
        (toLE 4 body.length ++ (cks ++ (body ++ post)))) := by
    rw [hdrop, drop_append_len _ _ 4 (toLE_length 4 _), hpad]
    simp
  have h16 : (data.drop offset).drop 16
      = toLE 4 body.length ++ (cks ++ (body ++ post)) := by
    rw [hdrop, drop_append_add _ _ 4 12 (toLE_length 4 _), drop_append_len _ _ 12 hpadlen]
  have h20 : (data.drop offset).drop 20 = cks ++ (body ++ post) := by
    rw [show (20 : Nat) = 16 + 4 from rfl, ← List.drop_drop, h16,
      drop_append_len _ _ 4 (toLE_length 4 _)]
  have h24 : (data.drop offset).drop 24 = body ++ post := by
    rw [show (24 : Nat) = 20 + 4 from rfl, ← List.drop_drop, h20, drop_append_len _ _ 4 hcks]
  have hnul := scanNul_command command
    (List.replicate (11 - command.length) 0 ++
        (toLE 4 body.length ++ (cks ++ (body ++ post)))) 12 hnz hcmd
  have hchk : ¬ ((body.length + 24) % 2 ^ 32 > data.length - offset) := by
    rw [Nat.mod_eq_of_lt hlen, hrem]
    omega
  have hne : command.length ≠ 12 := by omega
  have hbad2 : ¬ fromLE ((getHash256 body).val.take 4) = fromLE cks := fun h => hbad h.symm
  rw [deserializeLoop]
  simp only [hlt, if_true, MAGIC_WORD_OFFSET, List.drop_zero, h0, bind_ok, ne_eq,
    not_true_eq_false, if_false, MESSAGE_TYPE_OFFSET, h4, MESSAGE_TYPE_LEN, hnul, hne,
    PAYLOAD_LENGTH_OFFSET, h16, load_append 4 _ _ (toLE_length 4 body.length), hblen,
    MESSAGE_HEADER_LEN, hchk, CHECKSUM_OFFSET, h20, load_append 4 _ _ hcks, h24,
    loadBytes_append, load4_hash, hbad2, not_false_eq_true]

/-- The search runs to the end of the buffer when, from `i` on, every byte that
equals the first byte of the magic word has 4 bytes to compare and they are not
the magic word. -/
theorem scanMagic_none (ptr : List Byte) (magic_word : Nat) (hlen : ptr.length < 2 ^ 32)
    (fuel i : Nat) (hi : i ≤ ptr.length) (hfuel : ptr.length - i < fuel)
    (hno : ∀ j b tl, i ≤ j → ptr.drop j = b :: tl → b.val = magic_word % 256 →
      3 ≤ tl.length ∧ (b :: tl).take 4 ≠ toLE 4 magic_word) :
    scanMagic ptr magic_word fuel i = .ok ptr.length := by
  induction fuel generalizing i with
  | zero => omega
  | succ fuel ih =>
    rw [scanMagic]
    by_cases hlt : i < ptr.length
    · have hmod : (i + 1) % 2 ^ 32 = i + 1 := Nat.mod_eq_of_lt (by omega)
      have hrec := ih (i + 1) (by omega) (by omega)
        (fun j b tl hj => hno j b tl (by omega))
      simp only [hlt, if_true, hmod, hrec]
      cases hdrop : List.drop i ptr with
      | nil =>
        have := congrArg List.length hdrop
        simp only [List.length_drop, List.length_nil] at this
        omega
      | cons b tl =>
        simp only
        by_cases hb : b.val = magic_word % 256
        · obtain ⟨htl, hne⟩ := hno i b tl (Nat.le_refl _) hdrop hb
          have hl : load 4 (b :: tl) = .ok (fromLE ((b :: tl).take 4)) := by
            simp only [load, List.length_cons]
            rw [if_pos (by omega)]
          have hne2 : fromLE ((b :: tl).take 4) ≠ magic_word := fun heq =>
            hne (fromLE_inj4 _ _ (by simp; omega) heq)
          simp only [hb, if_true, hl, bind_ok, hne2, if_false]
        · simp only [hb, if_false]
    · have : i = ptr.length := by omega
      rw [if_neg hlt, this]

theorem frame_set_checksum (getHash256 : List Byte → Hash32) (magic_word : Nat)
    (command body : List Byte) (k : Nat) (x : Byte) (hcmd : command.length ≤ 12)
    (hk4 : k < 4) :
    (frame getHash256 magic_word command body).set (20 + k) x
      = toLE 4 magic_word ++ ((command ++ List.replicate (12 - command.length) 0) ++
          (toLE 4 body.length ++ (((getHash256 body).val.take 4).set k x ++ (body ++ [])))) := by
  have hpadlen : (command ++ List.replicate (12 - command.length) (0 : Byte)).length = 12 := by
    simp; omega
  unfold frame
  rw [List.set_append_right _ _ (by simp; omega),
    List.set_append_right _ _ (by simp only [toLE_length, hpadlen]; omega),
    List.set_append_right _ _ (by simp only [toLE_length, hpadlen]; omega),
    List.set_append_left _ _ (by
      simp only [toLE_length, hpadlen, List.length_take, (getHash256 body).property]
      omega)]
  simp only [toLE_length, hpadlen, List.append_nil]
  congr 5
  omega

theorem fromLE_set_ne (cks : List Byte) (k : Nat) (x : Byte) (hk : k < cks.length)
    (hx : cks.get? k ≠ some x) : fromLE (cks.set k x) ≠ fromLE cks := by
  intro h
  have h1 := toLE_fromLE (cks.set k x)
  have h2 := toLE_fromLE cks
  rw [List.length_set, h, h2] at h1
  have h3 : (cks.set k x).get? k = some x := by
    simp [List.getElem?_set_self hk]
  rw [← h1] at h3
  exact hx h3

/-- A frame with a corrupted checksum byte, in which the magic word does not
occur from position 4 on and its first byte is not among the last 3 bytes:
the decoder gives up the frame, searches to the end and returns nothing. -/
theorem deserialize_corrupted_frame (getHash256 : List Byte → Hash32) (magic_word : Nat)
    (command body cks : List Byte)
    (hm : magic_word < 2 ^ 32) (hcmd : command.length < 12)
    (hnz : ∀ b ∈ command, b.val ≠ 0) (hlen : body.length + 24 < 2 ^ 32)
    (hcks : cks.length = 4) (hbad : fromLE cks ≠ fromLE ((getHash256 body).val.take 4))
    (d : List Byte)
    (hd : d = toLE 4 magic_word ++ ((command ++ List.replicate (12 - command.length) 0) ++
          (toLE 4 body.length ++ (cks ++ (body ++ [])))))
    (hno : ∀ p, 4 ≤ p → p + 4 ≤ d.length → (d.drop p).take 4 ≠ toLE 4 magic_word)
    (htail : ∀ b ∈ d.drop (d.length - 3), b.val ≠ magic_word % 256) :
    Payload.deserialize getHash256 d magic_word = .ok [] := by
  have hpadlen : (command ++ List.replicate (12 - command.length) (0 : Byte)).length = 12 := by
    simp; omega
  have hdlen : d.length = 24 + body.length := by
    rw [hd]
    simp only [List.length_append, toLE_length, hpadlen, hcks, List.length_nil]
    omega
  have hstep1 := deserializeLoop_bad_checksum getHash256 d magic_word (23 + body.length + 1) 0 []
    command body cks [] hm hcmd hnz hlen hcks hbad (by rw [List.drop_zero]; exact hd)
  have hd4len : (d.drop 4).length = 20 + body.length := by
    rw [List.length_drop, hdlen]
    omega
  have hload : load 4 (d.drop 4) = .ok (fromLE ((d.drop 4).take 4)) := by
    simp only [load, hd4len]
    rw [if_pos (by omega)]
  have hne : fromLE ((d.drop 4).take 4) ≠ magic_word := fun heq =>
    hno 4 (Nat.le_refl _) (by omega) (fromLE_inj4 _ _ (by simp [hd4len]; omega) heq)
  have hscan := scanMagic_none (d.drop 4) magic_word (by omega) (d.drop 4).length 4
    (by omega) (by omega)
    (by
      intro j b tl hj hdrop hb
      rw [List.drop_drop] at hdrop
      have hl := congrArg List.length hdrop
      simp only [List.length_drop, List.length_cons, hdlen] at hl
      by_cases h3 : 3 ≤ tl.length
      · refine ⟨h3, ?_⟩
        have := hno (4 + j) (by omega) (by omega)
        rwa [hdrop] at this
      · exfalso
        have hsplit : d.drop (4 + j) = (d.drop (d.length - 3)).drop (4 + j - (d.length - 3)) := by
          rw [List.drop_drop]
          congr 1
          omega
        have hmem : b ∈ d.drop (d.length - 3) := by
          apply List.mem_of_mem_drop
          rw [← hsplit, hdrop]
          exact List.mem_cons_self _ _
        exact htail b hmem hb)
  have hstep2 := deserializeLoop_mismatch getHash256 d magic_word (23 + body.length) 4 _
    (d.drop 4).length [] (by omega) hload hne hscan
  have hend := deserializeLoop_end getHash256 d magic_word (23 + body.length)
    (4 + (d.drop 4).length) [] (by omega)
  unfold Payload.deserialize
  rw [if_neg (by simp only [MESSAGE_HEADER_LEN]; omega), hdlen,
    show 24 + body.length + 1 = 23 + body.length + 1 + 1 by omega, hstep1, Nat.zero_add,
    hstep2, hend]

theorem serialize_Tx (getHash256 : List Byte → Hash32) (magic_word : Nat)
    (rawTx_ : List Byte) (hlen : rawTx_.length < 2 ^ 32) :
    (Payload.Tx rawTx_).serialize getHash256 magic_word
      = .ok (frame getHash256 magic_word (Payload.Tx rawTx_).typeStr rawTx_) := by
  refine (serialize_of_body getHash256 (.Tx rawTx_) magic_word rawTx_.length rawTx_.length []
    rawTx_ rfl ?_ ?_ rfl hlen).2
  · intro _
    simp [Payload.serialize_inner, Payload_Tx.serialize_inner, store_all]
  · intro h
    exact List.length_eq_zero.mp h

theorem window_ne_mainnet (a b c d : Byte)
    (h : a.val ≠ 0xF9 ∨ b.val ≠ 0xBE ∨ c.val ≠ 0xB4 ∨ d.val ≠ 0xD9) :
    ([a, b, c, d] : List Byte) ≠ toLE 4 0xD9B4BEF9 := by
  intro heq
  have h4 : toLE 4 0xD9B4BEF9 = ([0xF9, 0xBE, 0xB4, 0xD9] : List Byte) := by decide
  rw [h4] at heq
  injection heq with h1 heq
  injection heq with h2 heq
  injection heq with h3 heq
  injection heq with h4 heq
  subst h1 h2 h3 h4
  rcases h with h | h | h | h <;> exact h rfl

theorem frame_tx_24 (getHash256 : List Byte → Hash32) (inner : List Byte) (c0 c1 c2 c3 : Byte)
    (hlen : inner.length = 24) (hc : (getHash256 inner).val.take 4 = [c0, c1, c2, c3]) :
    frame getHash256 0xD9B4BEF9 (Payload.Tx inner).typeStr inner
      = [0xF9, 0xBE, 0xB4, 0xD9, 0x74, 0x78, 0, 0, 0, 0, 0, 0, 0, 0, 0, 0, 24, 0, 0, 0,
          c0, c1, c2, c3] ++ inner := by
  unfold frame
  rw [hc, hlen]
  rfl

/-- A transaction whose raw bytes are a `verack` frame, sent in a `tx` frame
whose last checksum byte is replaced by 0 or 1: the decoder gives up the outer
frame, searches on and returns the inner `verack`. -/
theorem corrupted_tx_yields_inner_frame (getHash256 : List Byte → Hash32) :
    ∃ f x, (Payload.Tx (frame getHash256 0xD9B4BEF9 Payload.Verack.typeStr [])).serialize
        getHash256 0xD9B4BEF9 = .ok f ∧
      f.get? 23 ≠ some x ∧
      Payload.deserialize getHash256 (f.set 23 x) 0xD9B4BEF9 = .ok [.Verack] := by
  have hilen := frame_length getHash256 0xD9B4BEF9 Payload.Verack.typeStr []
    (typeStr_length _)
  have hser := serialize_Tx getHash256 0xD9B4BEF9
    (frame getHash256 0xD9B4BEF9 Payload.Verack.typeStr []) (by rw [hilen]; decide)
  obtain ⟨c0, c1, c2, c3, hc⟩ := list_length_four
    ((getHash256 (frame getHash256 0xD9B4BEF9 Payload.Verack.typeStr [])).val.take 4)
    (by simp [(getHash256 _).property])
  -- the replacement for the last checksum byte
  obtain ⟨x, hx3, hx1⟩ : ∃ x : Byte, x ≠ c3 ∧ x.val ≤ 1 := by
    by_cases h0 : c3 = 0
    · exact ⟨1, by rw [h0]; decide, by decide⟩
    · exact ⟨0, fun h => h0 h.symm, by decide⟩
  -- the outer frame and the corrupted buffer, byte by byte
  have hf : frame getHash256 0xD9B4BEF9
      (Payload.Tx (frame getHash256 0xD9B4BEF9 Payload.Verack.typeStr [])).typeStr
      (frame getHash256 0xD9B4BEF9 Payload.Verack.typeStr [])
      = [0xF9, 0xBE, 0xB4, 0xD9, 0x74, 0x78, 0, 0, 0, 0, 0, 0, 0, 0, 0, 0, 24, 0, 0, 0,
          c0, c1, c2, c3]
        ++ frame getHash256 0xD9B4BEF9 Payload.Verack.typeStr [] :=
    frame_tx_24 getHash256 _ c0 c1 c2 c3 hilen hc
  refine ⟨_, x, hser, ?_, ?_⟩
  · rw [hf]
    simp only [List.get?_eq_getElem?, List.cons_append, List.getElem?_cons_succ,
      List.getElem?_cons_zero, ne_eq, Option.some.injEq]
    exact fun h => hx3 h.symm
  · have hd : (frame getHash256 0xD9B4BEF9
        (Payload.Tx (frame getHash256 0xD9B4BEF9 Payload.Verack.typeStr [])).typeStr
        (frame getHash256 0xD9B4BEF9 Payload.Verack.typeStr [])).set 23 x
        = [0xF9, 0xBE, 0xB4, 0xD9, 0x74, 0x78, 0, 0, 0, 0, 0, 0, 0, 0, 0, 0, 24, 0, 0, 0,
            c0, c1, c2, x]
          ++ frame getHash256 0xD9B4BEF9 Payload.Verack.typeStr [] := by
      rw [hf]
      rfl
    rw [hd]
    have hdlen : (([0xF9, 0xBE, 0xB4, 0xD9, 0x74, 0x78, 0, 0, 0, 0, 0, 0, 0, 0, 0, 0,
        24, 0, 0, 0, c0, c1, c2, x] : List Byte)
          ++ frame getHash256 0xD9B4BEF9 Payload.Verack.typeStr []).length = 48 := by
      rw [List.length_append, hilen]
      rfl
    have hbad : fromLE [c0, c1, c2, x]
        ≠ fromLE ((getHash256 (frame getHash256 0xD9B4BEF9 Payload.Verack.typeStr [])).val.take 4)
        := by
      rw [hc]
      intro h
      simp only [fromLE] at h
      exact hx3 (Fin.ext (by omega))
    have hstep1 := deserializeLoop_bad_checksum getHash256
      (([0xF9, 0xBE, 0xB4, 0xD9, 0x74, 0x78, 0, 0, 0, 0, 0, 0, 0, 0, 0, 0,
        24, 0, 0, 0, c0, c1, c2, x] : List Byte)
          ++ frame getHash256 0xD9B4BEF9 Payload.Verack.typeStr [])
      0xD9B4BEF9 48 0 []
      (Payload.Tx (frame getHash256 0xD9B4BEF9 Payload.Verack.typeStr [])).typeStr
      (frame getHash256 0xD9B4BEF9 Payload.Verack.typeStr []) [c0, c1, c2, x] []
      (by norm_num) (typeStr_lt _) (typeStr_nz _) (by rw [hilen]; decide) rfl hbad
      (by
        rw [List.drop_zero, List.append_nil, hilen]
        rfl)
    have hgar := scanMagic_found
      [0x74, 0x78, 0, 0, 0, 0, 0, 0, 0, 0, 0, 0, 24, 0, 0, 0, c0, c1, c2, x]
      ((Payload.Verack.typeStr ++ List.replicate (12 - Payload.Verack.typeStr.length) 0) ++
        (toLE 4 ([] : List Byte).length ++ ((getHash256 []).val.take 4 ++ [])))
      0xD9B4BEF9 (by norm_num) (by simp) 44 4 (by simp) (by simp)
      (by
        intro j hj4 hj20
        have hj : j < 20 := hj20
        interval_cases j
        · exact window_ne_mainnet 0 0 0 0 (Or.inl (by decide))
        · exact window_ne_mainnet 0 0 0 0 (Or.inl (by decide))
        · exact window_ne_mainnet 0 0 0 0 (Or.inl (by decide))
        · exact window_ne_mainnet 0 0 0 0 (Or.inl (by decide))
        · exact window_ne_mainnet 0 0 0 0 (Or.inl (by decide))
        · exact window_ne_mainnet 0 0 0 24 (Or.inl (by decide))
        · exact window_ne_mainnet 0 0 24 0 (Or.inl (by decide))
        · exact window_ne_mainnet 0 24 0 0 (Or.inl (by decide))
        · exact window_ne_mainnet 24 0 0 0 (Or.inl (by decide))
        · exact window_ne_mainnet 0 0 0 c0 (Or.inl (by decide))
        · exact window_ne_mainnet 0 0 c0 c1 (Or.inl (by decide))
        · exact window_ne_mainnet 0 c0 c1 c2 (Or.inl (by decide))
        · exact window_ne_mainnet c0 c1 c2 x (Or.inr (Or.inr (Or.inr (by omega))))
        · exact window_ne_mainnet c1 c2 x 0xF9 (Or.inr (Or.inr (Or.inr (by decide))))
        · exact window_ne_mainnet c2 x 0xF9 0xBE (Or.inr (Or.inr (Or.inl (by decide))))
        · exact window_ne_mainnet x 0xF9 0xBE 0xB4 (Or.inr (Or.inl (by decide))))
    have hstep2 := deserializeLoop_mismatch getHash256
      (([0xF9, 0xBE, 0xB4, 0xD9, 0x74, 0x78, 0, 0, 0, 0, 0, 0, 0, 0, 0, 0,
        24, 0, 0, 0, c0, c1, c2, x] : List Byte)
          ++ frame getHash256 0xD9B4BEF9 Payload.Verack.typeStr [])
      0xD9B4BEF9 47 4 (fromLE [0x74, 0x78, 0, 0]) 20 []
      (by rw [hdlen]; decide)
      (load_append 4 [0x74, 0x78, 0, 0] _ rfl) (by decide)
      (by
        have : (List.drop 4 (([0xF9, 0xBE, 0xB4, 0xD9, 0x74, 0x78, 0, 0, 0, 0, 0, 0, 0, 0,
            0, 0, 24, 0, 0, 0, c0, c1, c2, x] : List Byte)
              ++ frame getHash256 0xD9B4BEF9 Payload.Verack.typeStr [])).length = 44 := by
          rw [List.length_drop, hdlen]
        rw [this]
        exact hgar)
    have hstep3 := deserializeLoop_frame getHash256
      (([0xF9, 0xBE, 0xB4, 0xD9, 0x74, 0x78, 0, 0, 0, 0, 0, 0, 0, 0, 0, 0,
        24, 0, 0, 0, c0, c1, c2, x] : List Byte)
          ++ frame getHash256 0xD9B4BEF9 Payload.Verack.typeStr [])
      0xD9B4BEF9 46 24 [] Payload.Verack.typeStr [] []
      (by norm_num) (typeStr_lt _) (typeStr_nz _) (by decide)
      (by rw [List.append_nil]; rfl)
    have hend := deserializeLoop_end getHash256
      (([0xF9, 0xBE, 0xB4, 0xD9, 0x74, 0x78, 0, 0, 0, 0, 0, 0, 0, 0, 0, 0,
        24, 0, 0, 0, c0, c1, c2, x] : List Byte)
          ++ frame getHash256 0xD9B4BEF9 Payload.Verack.typeStr [])
      0xD9B4BEF9 46 (24 + (24 + ([] : List Byte).length)) [.Verack] (by rw [hdlen]; decide)
    unfold Payload.deserialize
    rw [hdlen, if_neg (by decide), hstep1, show (0 + 4 : Nat) = 4 from rfl, hstep2,
      show (4 + 20 : Nat) = 24 from rfl, hstep3, findPayloadType_typeStr]
    simp only [Payload.type, makePayload, List.nil_append]
    exact hend

/-! ## `get_varint` and the inventory decoders: what makes them fail -/

theorem Payload_Inv_deserialize_eq (dataptr : List Byte) (len : Nat) :
    Payload_Inv.deserialize dataptr len
      = (decodeInvVector dataptr len).bind fun es => .ok (.Inv es) := by
  unfold Payload_Inv.deserialize decodeInvVector
  cases get_varint dataptr (len % 2 ^ 32) with
  | ok x =>
    obtain ⟨c, w⟩ := x
    simp only [bind_eq_bind, bind_ok, pure_eq_ok]
    split <;> rfl
  | deserError msg => rfl
  | runtimeError msg => rfl
  | undefined => rfl
  | outOfFuel => rfl

theorem Payload_GetData_deserialize_eq (dataptr : List Byte) (len : Nat) :
    Payload_GetData.deserialize dataptr len
      = (decodeInvVector dataptr len).bind fun es => .ok (.GetData es) := by
  unfold Payload_GetData.deserialize decodeInvVector
  cases get_varint dataptr (len % 2 ^ 32) with
  | ok x =>
    obtain ⟨c, w⟩ := x
    simp only [bind_eq_bind, bind_ok, pure_eq_ok]
    split <;> rfl
  | deserError msg => rfl
  | runtimeError msg => rfl
  | undefined => rfl
  | outOfFuel => rfl

theorem decodeInvVector_count (p : List Byte) (c w : Nat) (hlen : p.length < 2 ^ 32)
    (hv : get_varint p p.length = .ok (c, w)) (hc : INV_MAX < c) :
    decodeInvVector p p.length = .deserError "inv count > INV_MAX" := by
  unfold decodeInvVector
  rw [Nat.mod_eq_of_lt hlen, hv, bind_ok]
  simp only [gt_iff_lt, hc, if_true]

theorem bind_ok_right {α : Type} (r : Result α) : (r.bind fun a => .ok a) = r := by
  cases r <;> rfl

theorem processPayload_single (getHash256 : List Byte → Hash32)
    (payloadTypeValue : PayloadType → Nat) (s : P2PState) (p : Payload) :
    processPayload getHash256 payloadTypeValue s [p]
      = processOnePayload getHash256 payloadTypeValue s p := by
  simp only [processPayload]
  exact bind_ok_right _

theorem sendMessage_of_serialize (getHash256 : List Byte → Hash32) (s : P2PState)
    (p : Payload) (f : List Byte) (h : p.serialize getHash256 s.magic_word_ = .ok f) :
    sendMessage getHash256 s p = .ok { s with written := s.written ++ [f] } := by
  simp only [sendMessage, bind_eq_bind, h, bind_ok, pure_eq_ok]

theorem serialize_Pong (getHash256 : List Byte → Hash32) (magic_word nonce_ : Nat)
    (hn : nonce_ ≠ UINT64_MAX) :
    (Payload.Pong nonce_).serialize getHash256 magic_word
      = .ok (frame getHash256 magic_word (Payload.Pong nonce_).typeStr (toLE 8 nonce_)) := by
  have hst : store (List.replicate 8 (0 : Byte)) 0 (toLE 8 nonce_) = .ok (toLE 8 nonce_) :=
    store_all _ _ (by simp)
  exact (serialize_of_body getHash256 (.Pong nonce_) magic_word 8 8 [] (toLE 8 nonce_)
    (by simp [Payload.serialize_inner, Payload_Pong.serialize_inner, hn])
    (fun _ => by
      simp only [Payload.serialize_inner, Payload_Pong.serialize_inner, hn, if_false,
        bind_eq_bind, hst, bind_ok, pure_eq_ok])
    (fun h => absurd h (by decide)) (by simp) (by norm_num)).2

theorem serialize_Pong_sentinel (getHash256 : List Byte → Hash32) (magic_word : Nat) :
    (Payload.Pong UINT64_MAX).serialize getHash256 magic_word
      = .ok (frame getHash256 magic_word (Payload.Pong UINT64_MAX).typeStr []) :=
  (serialize_of_body getHash256 (.Pong UINT64_MAX) magic_word 0 0 [] []
    (by simp [Payload.serialize_inner, Payload_Pong.serialize_inner])
    (fun h => absurd h (by decide)) (fun _ => rfl) rfl (by norm_num)).2

/-- The dispatcher on a single Ping hands a Pong of the same nonce to
`sendMessage`. -/
theorem processPayload_Ping (getHash256 : List Byte → Hash32)
    (payloadTypeValue : PayloadType → Nat) (s : P2PState) (nonce_ : Nat) :
    processPayload getHash256 payloadTypeValue s [.Ping nonce_]
      = sendMessage getHash256 s (.Pong nonce_) := by
  rw [processPayload_single]
  rfl

theorem deserialize_ping_frame (getHash256 : List Byte → Hash32) (magic_word : Nat)
    (body : List Byte) (hm : magic_word < 2 ^ 32) (hlen : body.length = 8) :
    Payload.deserialize getHash256
        (frame getHash256 magic_word (Payload.Ping 0).typeStr body) magic_word
      = .ok [.Ping (fromLE body)] := by
  rw [deserialize_frame getHash256 magic_word _ body hm (typeStr_lt _) (typeStr_nz _)
    (by rw [hlen]; norm_num), findPayloadType_typeStr]
  have hl : load 8 body = .ok (fromLE body) := load_exact 8 body hlen
  simp [makePayload, Payload.type, Payload_Ping.deserialize, hlen, hl]

theorem deserialize_ping_empty (getHash256 : List Byte → Hash32) (magic_word : Nat)
    (hm : magic_word < 2 ^ 32) :
    Payload.deserialize getHash256
        (frame getHash256 magic_word (Payload.Ping 0).typeStr []) magic_word
      = .ok [.Ping UINT64_MAX] := by
  rw [deserialize_frame getHash256 magic_word _ [] hm (typeStr_lt _) (typeStr_nz _)
    (by norm_num), findPayloadType_typeStr]
  rfl

theorem serialize_GetData (getHash256 : List Byte → Hash32) (magic_word : Nat)
    (es : List InvEntry) (hcount : es.length ≤ INV_MAX) :
    (Payload.GetData es).serialize getHash256 magic_word
      = .ok (frame getHash256 magic_word (Payload.GetData es).typeStr
          ((make_varint es.length []).2 ++ encodeInvEntries es)) := by
  have hc : es.length ≤ 50000 := hcount
  have hle := make_varint_le es.length
  have hvl := make_varint_length es.length
  refine (serialize_of_body getHash256 (.GetData es) magic_word
    (es.length * 36 + (make_varint es.length []).1)
    ((make_varint es.length []).1 + es.length * 36) []
    ((make_varint es.length []).2 ++ encodeInvEntries es) ?_ ?_ ?_ ?_ (by omega)).2
  · simp [Payload.serialize_inner, Payload_GetData.serialize_inner,
      get_varint_len_eq es.length (by omega)]
  · intro _
    have hw := inv_write es
    simp only [Payload.serialize_inner, Payload_GetData.serialize_inner, bind_eq_bind,
      pure_eq_ok, INV_ENTRY_LEN]
    cases hst : store (List.replicate (es.length * 36 + (make_varint es.length []).1) 0) 0
        ((make_varint es.length []).2.take (make_varint es.length []).1) with
    | ok mem =>
      rw [hst, bind_ok] at hw
      simp only [bind_ok, hw]
    | deserError msg => rw [hst] at hw; cases hw
    | runtimeError msg => rw [hst] at hw; cases hw
    | undefined => rw [hst] at hw; cases hw
    | outOfFuel => rw [hst] at hw; cases hw
  · intro h
    have := make_varint_pos es.length
    omega
  · simp [hvl, encodeInvEntries_length]
    omega

/-! ## The envelope decoder on a frame of any declared length -/

theorem frame_eq_rawFrame (getHash256 : List Byte → Hash32) (magic_word : Nat)
    (command body : List Byte) (hcmd : command.length < 12) :
    frame getHash256 magic_word command body
      = rawFrame getHash256 magic_word command (List.replicate (11 - command.length) 0) body := by
  have : 12 - command.length = (11 - command.length) + 1 := by omega
  rw [frame, rawFrame, this, List.replicate_succ]

theorem rawFrame_length (getHash256 : List Byte → Hash32) (magic_word : Nat)
    (command pad body : List Byte) (hcmd : command.length + 1 + pad.length = 12) :
    (rawFrame getHash256 magic_word command pad body).length = 24 + body.length := by
  simp only [rawFrame, List.length_append, List.length_cons, toLE_length, List.length_take,
    (getHash256 body).property]
  omega

/-- One iteration of the decoder loop on a frame whose checksum is right,
whatever its declared length below `2^32`: the cursor moves by
`MESSAGE_HEADER_LEN + *length`, computed in 32 bits. -/
theorem deserializeLoop_rawFrame (getHash256 : List Byte → Hash32) (data : List Byte)
    (magic_word fuel offset : Nat) (retvec : List Payload)
    (command pad body post : List Byte)
    (hm : magic_word < 2 ^ 32) (hcmd : command.length + 1 + pad.length = 12)
    (hnz : ∀ b ∈ command, b.val ≠ 0) (hlen : body.length < 2 ^ 32)
    (hdrop : data.drop offset = rawFrame getHash256 magic_word command pad body ++ post) :
    deserializeLoop getHash256 data magic_word (fuel + 1) offset retvec =
      match findPayloadType command with
      | none =>
        deserializeLoop getHash256 data magic_word fuel
          (offset + (24 + body.length) % 2 ^ 32) retvec
      | some t =>
        match makePayload t (if body.length > 0 then body ++ post else []) body.length with
        | .ok p =>
          deserializeLoop getHash256 data magic_word fuel
            (offset + (24 + body.length) % 2 ^ 32) (retvec ++ [p])
        | .deserError _ =>
          deserializeLoop getHash256 data magic_word fuel
            (offset + (24 + body.length) % 2 ^ 32) retvec
        | .runtimeError msg => .runtimeError msg
        | .undefined => .undefined
        | .outOfFuel => .outOfFuel := by
  have hpadlen : (command ++ (0 : Byte) :: pad).length = 12 := by
    simp only [List.length_append, List.length_cons]
    omega
  have hcks : ((getHash256 body).val.take 4).length = 4 := by
    simp [(getHash256 body).property]
  have hframe := rawFrame_length getHash256 magic_word command pad body hcmd
  have hlt : offset < data.length := by
    by_contra hge
    have : data.drop offset = [] := List.drop_eq_nil_of_le (by omega)
    rw [this] at hdrop
    have := congrArg List.length hdrop
    simp [hframe] at this
    omega
  have hrem : data.length - offset = 24 + body.length + post.length := by
    have := congrArg List.length hdrop
    simpa [hframe] using this
  have hmagic : fromLE (toLE 4 magic_word) = magic_word :=
    fromLE_toLE_of_lt 4 magic_word (by norm_num; omega)
  have hblen : fromLE (toLE 4 body.length) = body.length :=
    fromLE_toLE_of_lt 4 body.length (by norm_num; omega)
  have h0 : load 4 (data.drop offset) = .ok magic_word := by
    rw [hdrop, rawFrame, List.append_assoc, load_append 4 _ _ (toLE_length 4 _), hmagic]
  have h4 : (data.drop offset).drop 4
      = command ++ (0 : Byte) :: (pad ++
        (toLE 4 body.length ++ ((getHash256 body).val.take 4 ++ body) ++ post)) := by
    rw [hdrop, rawFrame, List.append_assoc, drop_append_len _ _ 4 (toLE_length 4 _)]
    simp
  have h16 : (data.drop offset).drop 16
      = toLE 4 body.length ++ (((getHash256 body).val.take 4 ++ body) ++ post) := by
    rw [hdrop, rawFrame, List.append_assoc, drop_append_add _ _ 4 12 (toLE_length 4 _),
      List.append_assoc, drop_append_len _ _ 12 hpadlen]
    simp
  have h20 : (data.drop offset).drop 20
      = (getHash256 body).val.take 4 ++ (body ++ post) := by
    rw [show (20 : Nat) = 16 + 4 from rfl, ← List.drop_drop, h16,
      drop_append_len _ _ 4 (toLE_length 4 _)]
    simp
  have h24 : (data.drop offset).drop 24 = body ++ post := by
    rw [show (24 : Nat) = 20 + 4 from rfl, ← List.drop_drop, h20, drop_append_len _ _ 4 hcks]
  have hnul := scanNul_command command
    (pad ++ (toLE 4 body.length ++ ((getHash256 body).val.take 4 ++ body) ++ post)) 12 hnz
    (by omega)
  have hchk : ¬ ((body.length + 24) % 2 ^ 32 > data.length - offset) := by
    have := Nat.mod_le (body.length + 24) (2 ^ 32)
    rw [hrem]
    omega
  have hne : command.length ≠ 12 := by omega
  rw [deserializeLoop]
  simp only [hlt, if_true, MAGIC_WORD_OFFSET, List.drop_zero, h0, bind_ok, ne_eq,
    not_true_eq_false, if_false, MESSAGE_TYPE_OFFSET, h4, MESSAGE_TYPE_LEN, hnul, hne,
    PAYLOAD_LENGTH_OFFSET, h16, load_append 4 _ _ (toLE_length 4 body.length), hblen,
    MESSAGE_HEADER_LEN, hchk, CHECKSUM_OFFSET, h20, load_append 4 _ _ hcks, h24,
    loadBytes_append, load4_hash, List.take_left]

/-- A frame of an unknown command whose payload is `2^32 - 24` bytes long: the
cursor moves by `(24 + (2^32 - 24)) mod 2^32 = 0`, and no amount of fuel lets
the loop end. -/
theorem deserializeLoop_stall (getHash256 : List Byte → Hash32) (magic_word : Nat)
    (command pad body : List Byte) (hm : magic_word < 2 ^ 32)
    (hcmd : command.length + 1 + pad.length = 12) (hnz : ∀ b ∈ command, b.val ≠ 0)
    (hnone : findPayloadType command = none) (hbl : body.length = 2 ^ 32 - 24) (fuel : Nat) :
    deserializeLoop getHash256 (rawFrame getHash256 magic_word command pad body) magic_word
      fuel 0 [] = .outOfFuel := by
  have hL := rawFrame_length getHash256 magic_word command pad body hcmd
  have hadv : (24 + body.length) % 2 ^ 32 = 0 := by
    rw [hbl]
    decide
  induction fuel with
  | zero =>
    rw [deserializeLoop, if_pos (by rw [hL]; omega)]
  | succ fuel ih =>
    rw [deserializeLoop_rawFrame getHash256 _ magic_word fuel 0 [] command pad body [] hm hcmd hnz
      (by rw [hbl]; decide) (by simp), hnone]
    simp only [hadv, Nat.add_zero]
    exact ih

/-! ## The dispatcher: the inventory ordered by type -/

theorem mapPushBack_mem (m : List (Nat × List InvEntry)) (e : InvEntry)
    (x : Nat × List InvEntry) (hx : x ∈ mapPushBack m e) :
    x.1 = e.invtype_ ∨ ∃ y ∈ m, y.1 = x.1 := by
  induction m with
  | nil =>
    simp only [mapPushBack, List.mem_singleton] at hx
    left
    rw [hx]
  | cons a rest ih =>
    obtain ⟨k, v⟩ := a
    simp only [mapPushBack] at hx
    split at hx
    · rename_i heq
      rcases List.mem_cons.mp hx with h | h
      · left
        rw [h]
        exact heq.symm
      · exact Or.inr ⟨x, List.mem_cons_of_mem _ h, rfl⟩
    · split at hx
      · rcases List.mem_cons.mp hx with h | h
        · left
          rw [h]
        · exact Or.inr ⟨x, h, rfl⟩
      · rcases List.mem_cons.mp hx with h | h
        · exact Or.inr ⟨(k, v), List.mem_cons_self _ _, by rw [h]⟩
        · rcases ih h with h2 | ⟨y, hy, hy2⟩
          · exact Or.inl h2
          · exact Or.inr ⟨y, List.mem_cons_of_mem _ hy, hy2⟩

/-- The map stays ordered by key, and no key holds an empty vector. -/
theorem mapPushBack_ordered (m : List (Nat × List InvEntry)) (e : InvEntry)
    (hs : m.Pairwise fun a b => a.1 < b.1) (hne : ∀ x ∈ m, x.2 ≠ []) :
    ((mapPushBack m e).Pairwise fun a b => a.1 < b.1) ∧ ∀ x ∈ mapPushBack m e, x.2 ≠ [] := by
  induction m with
  | nil =>
    simp [mapPushBack]
  | cons a rest ih =>
    obtain ⟨k, v⟩ := a
    rw [List.pairwise_cons] at hs
    obtain ⟨hk, hs2⟩ := hs
    have hne2 : ∀ x ∈ rest, x.2 ≠ [] := fun x hx => hne x (List.mem_cons_of_mem _ hx)
    simp only [mapPushBack]
    split
    · refine ⟨List.pairwise_cons.mpr ⟨hk, hs2⟩, ?_⟩
      intro x hx
      rcases List.mem_cons.mp hx with h | h
      · rw [h]
        simp
      · exact hne2 x h
    · split
      · rename_i hlt
        refine ⟨List.pairwise_cons.mpr ⟨?_, List.pairwise_cons.mpr ⟨hk, hs2⟩⟩, ?_⟩
        · intro y hy
          rcases List.mem_cons.mp hy with h | h
          · rw [h]
            exact hlt
          · exact Nat.lt_trans hlt (hk y h)
        · intro x hx
          rcases List.mem_cons.mp hx with h | h
          · rw [h]
            simp
          · exact hne x h
      · rename_i hne1 hnlt
        obtain ⟨ih1, ih2⟩ := ih hs2 hne2
        refine ⟨List.pairwise_cons.mpr ⟨?_, ih1⟩, ?_⟩
        · intro y hy
          rcases mapPushBack_mem rest e y hy with h | ⟨z, hz, hz2⟩
          · rw [h]
            omega
          · rw [← hz2]
            exact hk z hz
        · intro x hx
          rcases List.mem_cons.mp hx with h | h
          · rw [h]
            exact hne (k, v) (List.mem_cons_self _ _)
          · exact ih2 x h

theorem entriesOfType_absent (m : List (Nat × List InvEntry)) (k : Nat)
    (h : ∀ x ∈ m, x.1 ≠ k) : entriesOfType m k = [] := by
  induction m with
  | nil => rfl
  | cons a rest ih =>
    obtain ⟨k2, v⟩ := a
    have h1 : k2 ≠ k := h (k2, v) (List.mem_cons_self _ _)
    simp only [entriesOfType, h1, if_false]
    exact ih fun x hx => h x (List.mem_cons_of_mem _ hx)

theorem mapPushBack_entries (m : List (Nat × List InvEntry)) (e : InvEntry) (k : Nat)
    (hs : m.Pairwise fun a b => a.1 < b.1) :
    entriesOfType (mapPushBack m e) k
      = if k = e.invtype_ then entriesOfType m k ++ [e] else entriesOfType m k := by
  induction m with
  | nil =>
    simp only [mapPushBack, entriesOfType]
    by_cases h : k = e.invtype_
    · simp [h]
    · have h2 : ¬ e.invtype_ = k := fun hc => h hc.symm
      simp [h, h2]
  | cons a rest ih =>
    obtain ⟨k2, v⟩ := a
    rw [List.pairwise_cons] at hs
    obtain ⟨hk, hs2⟩ := hs
    simp only [mapPushBack]
    split
    · rename_i heq
      simp only [entriesOfType]
      by_cases h : k2 = k
      · have h2 : k = e.invtype_ := by omega
        simp [h, h2]
      · have h2 : ¬ k = e.invtype_ := by omega
        simp [h, h2]
    · split
      · rename_i hne1 hlt
        have habs : entriesOfType ((k2, v) :: rest) e.invtype_ = [] := by
          apply entriesOfType_absent
          intro x hx
          rcases List.mem_cons.mp hx with h | h
          · rw [h]
            simp only
            omega
          · have := hk x h
            simp only at this
            omega
        by_cases h : k = e.invtype_
        · subst h
          rw [if_pos rfl, habs]
          simp [entriesOfType]
        · have h2 : ¬ e.invtype_ = k := fun hc => h hc.symm
          rw [if_neg h]
          conv_lhs => rw [entriesOfType]
          simp only [h2, if_false]
      · rename_i hne1 hnlt
        simp only [entriesOfType]
        by_cases h : k2 = k
        · have h2 : ¬ k = e.invtype_ := by omega
          simp [h, h2]
        · simp only [h, if_false]
          exact ih hs2

theorem foldl_mapPushBack (es : List InvEntry) (m : List (Nat × List InvEntry))
    (hs : m.Pairwise fun a b => a.1 < b.1) (hne : ∀ x ∈ m, x.2 ≠ []) :
    ((es.foldl mapPushBack m).Pairwise fun a b => a.1 < b.1) ∧
    (∀ x ∈ es.foldl mapPushBack m, x.2 ≠ []) ∧
    ∀ k, entriesOfType (es.foldl mapPushBack m) k
      = entriesOfType m k ++ es.filter fun e => e.invtype_ = k := by
  induction es generalizing m with
  | nil => exact ⟨hs, hne, fun k => by simp⟩
  | cons e es ih =>
    obtain ⟨h1, h2⟩ := mapPushBack_ordered m e hs hne
    obtain ⟨i1, i2, i3⟩ := ih (mapPushBack m e) h1 h2
    refine ⟨i1, i2, ?_⟩
    intro k
    rw [List.foldl_cons, i3 k, mapPushBack_entries m e k hs]
    by_cases h : k = e.invtype_
    · have h2 : e.invtype_ = k := h.symm
      simp [h, List.filter_cons]
    · have h2 : ¬ e.invtype_ = k := fun hc => h hc.symm
      simp [h, h2, List.filter_cons]

/-- What the loop of `processInv` does, in terms of the transaction entries
and the block entries of the map: the transactions come first. -/
theorem processOrderedEntries_eq (m : List (Nat × List InvEntry)) (s : P2PState)
    (hs : m.Pairwise fun a b => a.1 < b.1) (hne : ∀ x ∈ m, x.2 ≠ []) :
    processOrderedEntries s m =
      match entriesOfType m Inv_Msg_Block with
      | [] =>
        (match entriesOfType m Inv_Msg_Tx with
          | [] => s
          | t :: ts => processInvTx s (t :: ts))
      | b :: bs =>
        processInvBlock
          (match entriesOfType m Inv_Msg_Tx with
            | [] => s
            | t :: ts => processInvTx s (t :: ts)) (b :: bs) := by
  induction m generalizing s with
  | nil => rfl
  | cons a rest ih =>
    obtain ⟨k, v⟩ := a
    rw [List.pairwise_cons] at hs
    obtain ⟨hk, hs2⟩ := hs
    have hne2 : ∀ x ∈ rest, x.2 ≠ [] := fun x hx => hne x (List.mem_cons_of_mem _ hx)
    have hv : v ≠ [] := hne (k, v) (List.mem_cons_self _ _)
    obtain ⟨v0, vs, rfl⟩ : ∃ v0 vs, v = v0 :: vs := by
      cases v with
      | nil => exact absurd rfl hv
      | cons v0 vs => exact ⟨v0, vs, rfl⟩
    by_cases hb : k = Inv_Msg_Block
    · subst hb
      have ha1 : entriesOfType rest Inv_Msg_Tx = [] :=
        entriesOfType_absent rest _ fun x hx => by
          have := hk x hx
          simp only [Inv_Msg_Block, Inv_Msg_Tx] at this ⊢
          omega
      have ha2 : entriesOfType rest Inv_Msg_Block = [] :=
        entriesOfType_absent rest _ fun x hx => by
          have := hk x hx
          simp only [Inv_Msg_Block] at this ⊢
          omega
      simp only [processOrderedEntries, if_true]
      rw [ih _ hs2 hne2, ha1, ha2]
      simp [entriesOfType, ha1]
    · by_cases ht : k = Inv_Msg_Tx
      · subst ht
        have ha1 : entriesOfType rest Inv_Msg_Tx = [] :=
          entriesOfType_absent rest _ fun x hx => by
            have := hk x hx
            simp only [Inv_Msg_Tx] at this ⊢
            omega
        simp only [processOrderedEntries, hb, if_false, if_true]
        rw [ih _ hs2 hne2, ha1]
        simp [entriesOfType]
      · simp only [processOrderedEntries, hb, ht, if_false]
        rw [ih _ hs2 hne2]
        simp [entriesOfType, hb, ht]

/-- The dispatcher on a single Inv, in terms of its transaction entries and
its block entries. -/
theorem processPayload_Inv (getHash256 : List Byte → Hash32)
    (payloadTypeValue : PayloadType → Nat) (s : P2PState) (es : List InvEntry) :
    processPayload getHash256 payloadTypeValue s [.Inv es] =
      .ok (match es.filter fun e => e.invtype_ = Inv_Msg_Block with
        | [] =>
          { s with events := s.events
              ++ invTxEvents s (es.filter fun e => e.invtype_ = Inv_Msg_Tx) }
        | b :: bs =>
          { s with
            invBlockLambdas_ := [],
            events := s.events ++ invTxEvents s (es.filter fun e => e.invtype_ = Inv_Msg_Tx)
              ++ s.invBlockLambdas_.map fun callback =>
                Event.invBlockCallback callback (b :: bs) }) := by
  rw [processPayload_single]
  show processInv s (.Inv es) = _
  obtain ⟨h1, h2, h3⟩ := foldl_mapPushBack es [] List.Pairwise.nil (fun x hx => by cases hx)
  simp only [processInv]
  rw [processOrderedEntries_eq _ s h1 h2, h3 Inv_Msg_Block, h3 Inv_Msg_Tx]
  simp only [entriesOfType, List.nil_append]
  cases hbl : es.filter (fun e => e.invtype_ = Inv_Msg_Block) with
  | nil =>
    cases htx : es.filter (fun e => e.invtype_ = Inv_Msg_Tx) with
    | nil => simp [invTxEvents]
    | cons t ts => simp [invTxEvents, processInvTx]
  | cons b bs =>
    cases htx : es.filter (fun e => e.invtype_ = Inv_Msg_Tx) with
    | nil => simp [invTxEvents, processInvBlock]
    | cons t ts => simp [invTxEvents, processInvBlock, processInvTx]

/-! ## Payload decoders and the bytes behind the payload -/

theorem bind_eq_ok {α β : Type} {r : Result α} {f : α → Result β} {y : β}
    (h : r.bind f = .ok y) : ∃ x, r = .ok x ∧ f x = .ok y := by
  cases r with
  | ok x => exact ⟨x, rfl, h⟩
  | deserError msg => cases h
  | runtimeError msg => cases h
  | undefined => cases h
  | outOfFuel => cases h

theorem drop_extend (a a2 : List Byte) (k : Nat) (hp : a <+: a2) : a.drop k <+: a2.drop k := by
  obtain ⟨t, rfl⟩ := hp
  by_cases hk : k ≤ a.length
  · rw [List.drop_append_of_le_length hk]
    exact List.prefix_append _ _
  · rw [List.drop_eq_nil_of_le (by omega)]
    exact List.nil_prefix

theorem load_extend (w : Nat) (a a2 : List Byte) (x : Nat) (hp : a <+: a2)
    (h : load w a = .ok x) : load w a2 = .ok x := by
  obtain ⟨t, rfl⟩ := hp
  unfold load at h ⊢
  split at h
  · rename_i hw
    rw [if_pos (by rw [List.length_append]; omega), List.take_append_of_le_length hw]
    exact h
  · cases h

theorem loadBytes_extend (n : Nat) (a a2 x : List Byte) (hp : a <+: a2)
    (h : loadBytes n a = .ok x) : loadBytes n a2 = .ok x := by
  obtain ⟨t, rfl⟩ := hp
  unfold loadBytes at h ⊢
  split at h
  · rename_i hw
    rw [if_pos (by rw [List.length_append]; omega), List.take_append_of_le_length hw]
    exact h
  · cases h

theorem loadHash_extend (a a2 : List Byte) (x : Hash32) (hp : a <+: a2)
    (h : loadHash a = .ok x) : loadHash a2 = .ok x := by
  obtain ⟨t, rfl⟩ := hp
  unfold loadHash at h ⊢
  split at h
  · rename_i hw
    rw [dif_pos (by rw [List.length_append]; omega)]
    injection h with h
    subst h
    congr 1
    apply Subtype.ext
    exact List.take_append_of_le_length hw
  · cases h

theorem loadIPv6_extend (a a2 : List Byte) (x : IPv6) (hp : a <+: a2)
    (h : loadIPv6 a = .ok x) : loadIPv6 a2 = .ok x := by
  obtain ⟨t, rfl⟩ := hp
  unfold loadIPv6 at h ⊢
  split at h
  · rename_i hw
    rw [dif_pos (by rw [List.length_append]; omega)]
    injection h with h
    subst h
    congr 1
    apply Subtype.ext
    exact List.take_append_of_le_length hw
  · cases h

theorem get_varint_extend (a a2 : List Byte) (size : Nat) (r : Nat × Nat) (hp : a <+: a2)
    (h : get_varint a size = .ok r) : get_varint a2 size = .ok r := by
  obtain ⟨t, rfl⟩ := hp
  cases a with
  | nil =>
    simp only [get_varint] at h
    split at h <;> cases h
  | cons b rest =>
    have hpre : rest <+: rest ++ t := List.prefix_append _ _
    simp only [List.cons_append, get_varint] at h ⊢
    split at h
    · cases h
    · rename_i hs
      rw [if_neg hs]
      split at h
      · rename_i h1
        rw [if_pos h1]
        exact h
      · rename_i h1
        rw [if_neg h1]
        split at h
        · rename_i h2
          rw [if_pos h2]
          split at h
          · cases h
          · rename_i h3
            rw [if_neg h3]
            obtain ⟨x, hx, hf⟩ := bind_eq_ok h
            rw [load_extend _ _ _ _ hpre hx, bind_ok]
            exact hf
        · rename_i h2
          rw [if_neg h2]
          split at h
          · rename_i h4
            rw [if_pos h4]
            split at h
            · cases h
            · rename_i h3
              rw [if_neg h3]
              obtain ⟨x, hx, hf⟩ := bind_eq_ok h
              rw [load_extend _ _ _ _ hpre hx, bind_ok]
              exact hf
          · rename_i h4
            rw [if_neg h4]
            split at h
            · cases h
            · rename_i h3
              rw [if_neg h3]
              obtain ⟨x, hx, hf⟩ := bind_eq_ok h
              rw [load_extend _ _ _ _ hpre hx, bind_ok]
              exact hf

theorem readInvEntries_extend (count : Nat) (a a2 : List Byte) (remaining : Nat)
    (r : List InvEntry) (hp : a <+: a2) (h : readInvEntries count a remaining = .ok r) :
    readInvEntries count a2 remaining = .ok r := by
  induction count generalizing a a2 remaining r with
  | zero =>
    simp only [readInvEntries] at h ⊢
    exact h
  | succ count ih =>
    simp only [readInvEntries, bind_eq_bind, pure_eq_ok] at h ⊢
    split at h
    · cases h
    · rename_i hrem
      rw [if_neg hrem]
      obtain ⟨x, hx, hf⟩ := bind_eq_ok h
      rw [load_extend _ _ _ _ hp hx, bind_ok]
      split at hf
      · cases hf
      · rename_i hty
        rw [if_neg hty]
        obtain ⟨y, hy, hf2⟩ := bind_eq_ok hf
        rw [loadHash_extend _ _ _ (drop_extend _ _ _ hp) hy, bind_ok]
        obtain ⟨z, hz, hf3⟩ := bind_eq_ok hf2
        rw [ih _ _ _ _ (drop_extend _ _ _ hp) hz, bind_ok]
        exact hf3

theorem Payload_Version_deserialize_extend (a a2 : List Byte) (len : Nat) (v : Payload)
    (hp : a <+: a2) (h : Payload_Version.deserialize a len = .ok v) :
    Payload_Version.deserialize a2 len = .ok v := by
  simp only [Payload_Version.deserialize, bind_eq_bind, pure_eq_ok] at h ⊢
  obtain ⟨x1, hx1, h⟩ := bind_eq_ok h
  rw [load_extend _ _ _ _ hp hx1, bind_ok]
  obtain ⟨x2, hx2, h⟩ := bind_eq_ok h
  rw [load_extend _ _ _ _ (drop_extend _ _ _ hp) hx2, bind_ok]
  obtain ⟨x3, hx3, h⟩ := bind_eq_ok h
  rw [load_extend _ _ _ _ (drop_extend _ _ _ hp) hx3, bind_ok]
  obtain ⟨x4, hx4, h⟩ := bind_eq_ok h
  rw [load_extend _ _ _ _ (drop_extend _ _ _ hp) hx4, bind_ok]
  obtain ⟨x5, hx5, h⟩ := bind_eq_ok h
  rw [loadIPv6_extend _ _ _ (drop_extend _ _ _ hp) hx5, bind_ok]
  obtain ⟨x6, hx6, h⟩ := bind_eq_ok h
  rw [load_extend _ _ _ _ (drop_extend _ _ _ hp) hx6, bind_ok]
  obtain ⟨x7, hx7, h⟩ := bind_eq_ok h
  rw [load_extend _ _ _ _ (drop_extend _ _ _ hp) hx7, bind_ok]
  obtain ⟨x8, hx8, h⟩ := bind_eq_ok h
  rw [loadIPv6_extend _ _ _ (drop_extend _ _ _ hp) hx8, bind_ok]
  obtain ⟨x9, hx9, h⟩ := bind_eq_ok h
  rw [load_extend _ _ _ _ (drop_extend _ _ _ hp) hx9, bind_ok]
  obtain ⟨x10, hx10, h⟩ := bind_eq_ok h
  rw [load_extend _ _ _ _ (drop_extend _ _ _ hp) hx10, bind_ok]
  obtain ⟨x11, hx11, h⟩ := bind_eq_ok h
  rw [get_varint_extend _ _ _ _ (drop_extend _ _ _ hp) hx11, bind_ok]
  obtain ⟨x12, hx12, h⟩ := bind_eq_ok h
  rw [loadBytes_extend _ _ _ _ (drop_extend _ _ _ hp) hx12, bind_ok]
  obtain ⟨x13, hx13, h⟩ := bind_eq_ok h
  rw [load_extend _ _ _ _ (drop_extend _ _ _ hp) hx13, bind_ok]
  exact h

/-- A payload decoder that succeeds on a payload gives the same payload when
more bytes follow in memory. -/
theorem makePayload_extend (t : PayloadType) (a a2 : List Byte) (len : Nat) (v : Payload)
    (hp : a <+: a2) (h : makePayload t a len = .ok v) : makePayload t a2 len = .ok v := by
  cases t with
  | Payload_version => exact Payload_Version_deserialize_extend a a2 len v hp h
  | Payload_verack => exact h
  | Payload_ping =>
    simp only [makePayload, Payload_Ping.deserialize, bind_eq_bind, pure_eq_ok] at h ⊢
    split at h
    · rename_i h0
      rw [if_pos h0]
      exact h
    · rename_i h0
      rw [if_neg h0]
      split at h
      · cases h
      · rename_i h8
        rw [if_neg h8]
        obtain ⟨x, hx, hf⟩ := bind_eq_ok h
        rw [load_extend _ _ _ _ hp hx, bind_ok]
        exact hf
  | Payload_pong =>
    simp only [makePayload, Payload_Pong.deserialize, bind_eq_bind, pure_eq_ok] at h ⊢
    split at h
    · cases h
    · rename_i h8
      rw [if_neg h8]
      obtain ⟨x, hx, hf⟩ := bind_eq_ok h
      rw [load_extend _ _ _ _ hp hx, bind_ok]
      exact hf
  | Payload_inv =>
    simp only [makePayload, Payload_Inv.deserialize, bind_eq_bind, pure_eq_ok] at h ⊢
    obtain ⟨x, hx, hf⟩ := bind_eq_ok h
    rw [get_varint_extend _ _ _ _ hp hx, bind_ok]
    split at hf
    · cases hf
    · rename_i hmax
      rw [if_neg hmax]
      obtain ⟨y, hy, hf2⟩ := bind_eq_ok hf
      rw [readInvEntries_extend _ _ _ _ _ (drop_extend _ _ _ hp) hy, bind_ok]
      exact hf2
  | Payload_getdata =>
    simp only [makePayload, Payload_GetData.deserialize, bind_eq_bind, pure_eq_ok] at h ⊢
    obtain ⟨x, hx, hf⟩ := bind_eq_ok h
    rw [get_varint_extend _ _ _ _ hp hx, bind_ok]
    split at hf
    · cases hf
    · rename_i hmax
      rw [if_neg hmax]
      obtain ⟨y, hy, hf2⟩ := bind_eq_ok hf
      rw [readInvEntries_extend _ _ _ _ _ (drop_extend _ _ _ hp) hy, bind_ok]
      exact hf2
  | Payload_tx =>
    simp only [makePayload, Payload_Tx.deserialize, bind_eq_bind, pure_eq_ok] at h ⊢
    obtain ⟨x, hx, hf⟩ := bind_eq_ok h
    rw [loadBytes_extend _ _ _ _ hp hx, bind_ok]
    exact hf

/-! ## The envelope decoder on a sequence of frames -/

/-- The frame of a round-trippable payload is the frame of its body, and the
payload decoder returns the payload on that body. -/
theorem known_frame_body (getHash256 : List Byte → Hash32) (magic_word n : Nat)
    (v : Payload) (mem0 f : List Byte) (hm : magic_word < 2 ^ 32)
    (hsz : v.serialize_inner none = .ok (n, mem0)) (hn : n + 24 < 2 ^ 32)
    (hser : v.serialize getHash256 magic_word = .ok f)
    (hrt : Payload.deserialize getHash256 f magic_word = .ok [v]) :
    ∃ b, f = frame getHash256 magic_word v.typeStr b ∧ b.length + 24 < 2 ^ 32 ∧
      makePayload v.type (if b.length > 0 then b else []) b.length = .ok v := by
  obtain ⟨r, b, hw, h0, hlen⟩ := serialize_inner_passes v n mem0 hsz (by omega)
  obtain ⟨-, hser2⟩ :=
    serialize_of_body getHash256 v magic_word n r mem0 b hsz hw h0 hlen (by omega)
  rw [hser2] at hser
  injection hser with hf
  subst hf
  refine ⟨b, rfl, by omega, ?_⟩
  rw [deserialize_frame getHash256 magic_word v.typeStr b hm (typeStr_lt v) (typeStr_nz v)
    (by omega), findPayloadType_typeStr] at hrt
  simp only at hrt
  cases hd : makePayload v.type (if b.length > 0 then b else []) b.length with
  | ok p =>
    rw [hd] at hrt
    simp only [Result.ok.injEq, List.cons.injEq, and_true] at hrt
    rw [hrt]
  | deserError msg =>
    rw [hd] at hrt
    simp at hrt
  | runtimeError msg =>
    rw [hd] at hrt
    cases hrt
  | undefined =>
    rw [hd] at hrt
    cases hrt
  | outOfFuel =>
    rw [hd] at hrt
    cases hrt

theorem wireFrame_length (getHash256 : List Byte → Hash32) (magic_word : Nat)
    (fr : WireFrame) (hm : magic_word < 2 ^ 32)
    (hk : ∀ v f, fr = .known v f →
      (∃ n mem0, v.serialize_inner none = .ok (n, mem0) ∧ n + 24 < 2 ^ 32) ∧
      v.serialize getHash256 magic_word = .ok f ∧
      Payload.deserialize getHash256 f magic_word = .ok [v])
    (hu : ∀ command pad body, fr = .unknown command pad body →
      command.length + 1 + pad.length = 12 ∧ (∀ b ∈ command, b.val ≠ 0) ∧
      findPayloadType command = none ∧ body.length + 24 < 2 ^ 32) :
    24 ≤ (fr.bytes getHash256 magic_word).length := by
  cases fr with
  | known v f =>
    obtain ⟨⟨n, mem0, hsz, hn⟩, hser, hrt⟩ := hk v f rfl
    obtain ⟨b, rfl, -, -⟩ :=
      known_frame_body getHash256 magic_word n v mem0 f hm hsz hn hser hrt
    simp only [WireFrame.bytes]
    rw [frame_length getHash256 magic_word _ b (typeStr_length v)]
    omega
  | unknown command pad body =>
    obtain ⟨hcmd, -, -, -⟩ := hu command pad body rfl
    simp only [WireFrame.bytes]
    rw [rawFrame_length getHash256 magic_word command pad body hcmd]
    omega

/-- One iteration of the decoder loop at the start of a frame of the sequence:
the payload of a known frame is appended, nothing is for an unknown one, and
the cursor moves behind the frame. -/
theorem deserializeLoop_wireFrame (getHash256 : List Byte → Hash32) (data : List Byte)
    (magic_word fuel offset : Nat) (retvec : List Payload) (fr : WireFrame)
    (post : List Byte) (hm : magic_word < 2 ^ 32)
    (hk : ∀ v f, fr = .known v f →
      (∃ n mem0, v.serialize_inner none = .ok (n, mem0) ∧ n + 24 < 2 ^ 32) ∧
      v.serialize getHash256 magic_word = .ok f ∧
      Payload.deserialize getHash256 f magic_word = .ok [v])
    (hu : ∀ command pad body, fr = .unknown command pad body →
      command.length + 1 + pad.length = 12 ∧ (∀ b ∈ command, b.val ≠ 0) ∧
      findPayloadType command = none ∧ body.length + 24 < 2 ^ 32)
    (hdrop : data.drop offset = fr.bytes getHash256 magic_word ++ post) :
    deserializeLoop getHash256 data magic_word (fuel + 1) offset retvec
      = deserializeLoop getHash256 data magic_word fuel
          (offset + (fr.bytes getHash256 magic_word).length)
          (retvec ++ fr.decoded.toList) := by
  cases fr with
  | known v f =>
    obtain ⟨⟨n, mem0, hsz, hn⟩, hser, hrt⟩ := hk v f rfl
    obtain ⟨b, rfl, hb, hdec⟩ :=
      known_frame_body getHash256 magic_word n v mem0 f hm hsz hn hser hrt
    simp only [WireFrame.bytes] at hdrop
    have hpre : (if b.length > 0 then b else []) <+: (if b.length > 0 then b ++ post else []) := by
      by_cases h0 : b.length > 0
      · rw [if_pos h0, if_pos h0]
        exact List.prefix_append _ _
      · rw [if_neg h0, if_neg h0]
    have hdec2 := makePayload_extend v.type _ _ b.length v hpre hdec
    rw [deserializeLoop_frame getHash256 data magic_word fuel offset retvec v.typeStr b post hm
      (typeStr_lt v) (typeStr_nz v) hb hdrop, findPayloadType_typeStr]
    simp only [hdec2, WireFrame.bytes, WireFrame.decoded, Option.toList]
    rw [frame_length getHash256 magic_word _ b (typeStr_length v)]
  | unknown command pad body =>
    obtain ⟨hcmd, hnz, hnone, hlen⟩ := hu command pad body rfl
    simp only [WireFrame.bytes] at hdrop
    rw [deserializeLoop_rawFrame getHash256 data magic_word fuel offset retvec command pad body
      post hm hcmd hnz (by omega) hdrop, hnone]
    simp only [WireFrame.bytes, WireFrame.decoded, Option.toList, List.append_nil]
    rw [rawFrame_length getHash256 magic_word command pad body hcmd,
      Nat.mod_eq_of_lt (by omega)]

theorem deserializeLoop_wireBytes (getHash256 : List Byte → Hash32) (data : List Byte)
    (magic_word : Nat) (hm : magic_word < 2 ^ 32) (frames : List WireFrame) :
    ∀ (fuel offset : Nat) (retvec : List Payload),
    (∀ v f, WireFrame.known v f ∈ frames →
      (∃ n mem0, v.serialize_inner none = .ok (n, mem0) ∧ n + 24 < 2 ^ 32) ∧
      v.serialize getHash256 magic_word = .ok f ∧
      Payload.deserialize getHash256 f magic_word = .ok [v]) →
    (∀ command pad body, WireFrame.unknown command pad body ∈ frames →
      command.length + 1 + pad.length = 12 ∧ (∀ b ∈ command, b.val ≠ 0) ∧
      findPayloadType command = none ∧ body.length + 24 < 2 ^ 32) →
    frames.length ≤ fuel →
    data.drop offset = wireBytes getHash256 magic_word frames →
    deserializeLoop getHash256 data magic_word fuel offset retvec
      = .ok (retvec ++ frames.filterMap WireFrame.decoded) := by
  induction frames with
  | nil =>
    intro fuel offset retvec _ _ _ hdrop
    simp only [wireBytes] at hdrop
    have hle : data.length ≤ offset := List.drop_eq_nil_iff.mp hdrop
    rw [deserializeLoop_end getHash256 data magic_word fuel offset retvec hle]
    simp
  | cons fr rest ih =>
    intro fuel offset retvec hknown hunknown hfuel hdrop
    simp only [wireBytes] at hdrop
    obtain ⟨fuel2, rfl⟩ : ∃ fuel2, fuel = fuel2 + 1 := by
      simp only [List.length_cons] at hfuel
      exact ⟨fuel - 1, by omega⟩
    have hk : ∀ v f, fr = .known v f →
        (∃ n mem0, v.serialize_inner none = .ok (n, mem0) ∧ n + 24 < 2 ^ 32) ∧
        v.serialize getHash256 magic_word = .ok f ∧
        Payload.deserialize getHash256 f magic_word = .ok [v] := fun v f h =>
      hknown v f (by rw [h]; exact List.mem_cons_self _ _)
    have hu : ∀ command pad body, fr = .unknown command pad body →
        command.length + 1 + pad.length = 12 ∧ (∀ b ∈ command, b.val ≠ 0) ∧
        findPayloadType command = none ∧ body.length + 24 < 2 ^ 32 := fun c p b h =>
      hunknown c p b (by rw [h]; exact List.mem_cons_self _ _)
    rw [deserializeLoop_wireFrame getHash256 data magic_word fuel2 offset retvec fr _ hm hk hu
      hdrop]
    have hdrop2 : data.drop (offset + (fr.bytes getHash256 magic_word).length)
        = wireBytes getHash256 magic_word rest := by
      rw [← List.drop_drop, hdrop]
      exact List.drop_left _ _
    rw [ih fuel2 _ _ (fun v f h => hknown v f (List.mem_cons_of_mem _ h))
      (fun c p b h => hunknown c p b (List.mem_cons_of_mem _ h))
      (by simp only [List.length_cons] at hfuel; omega) hdrop2]
    cases hd : fr.decoded with
    | none => simp [List.filterMap_cons, hd]
    | some p => simp [List.filterMap_cons, hd]

theorem wireBytes_length (getHash256 : List Byte → Hash32) (magic_word : Nat)
    (hm : magic_word < 2 ^ 32) (frames : List WireFrame)
    (hknown : ∀ v f, WireFrame.known v f ∈ frames →
      (∃ n mem0, v.serialize_inner none = .ok (n, mem0) ∧ n + 24 < 2 ^ 32) ∧
      v.serialize getHash256 magic_word = .ok f ∧
      Payload.deserialize getHash256 f magic_word = .ok [v])
    (hunknown : ∀ command pad body, WireFrame.unknown command pad body ∈ frames →
      command.length + 1 + pad.length = 12 ∧ (∀ b ∈ command, b.val ≠ 0) ∧
      findPayloadType command = none ∧ body.length + 24 < 2 ^ 32) :
    24 * frames.length ≤ (wireBytes getHash256 magic_word frames).length := by
  induction frames with
  | nil => simp [wireBytes]
  | cons fr rest ih =>
    have h1 := wireFrame_length getHash256 magic_word fr hm
      (fun v f h => hknown v f (by rw [h]; exact List.mem_cons_self _ _))
      (fun c p b h => hunknown c p b (by rw [h]; exact List.mem_cons_self _ _))
    have h2 := ih (fun v f h => hknown v f (List.mem_cons_of_mem _ h))
      (fun c p b h => hunknown c p b (List.mem_cons_of_mem _ h))
    simp only [wireBytes, List.length_append, List.length_cons]
    omega

/-! ## C1: varint round trip -/

/-- C1: for every unsigned 64-bit `n`, `get_varint` run on the bytes that
`make_varint n` produces from an empty vector, with `size` the produced length,
succeeds, yields `n` and reports the length `make_varint` returned, which is
1, 3, 5 or 9 by the size class of `n` and is the number of bytes produced. -/
theorem varint_round_trip (n : Nat) (hn : n < 2 ^ 64) :
    get_varint (make_varint n []).2 (make_varint n []).1
        = .ok (n, (make_varint n []).1)
      ∧ (make_varint n []).1
        = (if n < 0xFD then 1 else if n ≤ 0xFFFF then 3
           else if n ≤ 0xFFFFFFFF then 5 else 9)
      ∧ (make_varint n []).2.length = (make_varint n []).1 := by
  by_cases h1 : n < 0xFD
  · have hm : n % 256 = n := Nat.mod_eq_of_lt (by omega)
    simp [make_varint, get_varint, h1, toLE, hm]
  · by_cases h2 : n ≤ 0xFFFF
    · have hv : n % 256 ^ 2 = n := Nat.mod_eq_of_lt (by norm_num; omega)
      have hl := load_toLE_append 2 n []
      simp only [List.append_nil, hv] at hl
      simp [make_varint, get_varint, h1, h2, hl, Result.bind, byte_val_FD]
    · by_cases h3 : n ≤ 0xFFFFFFFF
      · have hv : n % 256 ^ 4 = n := Nat.mod_eq_of_lt (by norm_num; omega)
        have hl := load_toLE_append 4 n []
        simp only [List.append_nil, hv] at hl
        simp [make_varint, get_varint, h1, h2, h3, hl, Result.bind, byte_val_FE]
      · have hv : n % 256 ^ 8 = n := Nat.mod_eq_of_lt (by norm_num; omega)
        have hl := load_toLE_append 8 n []
        simp only [List.append_nil, hv] at hl
        simp [make_varint, get_varint, h1, h2, h3, hl, Result.bind, byte_val_FF]

/-- Witness for C1 at `n = 0x10000`, the first value of five bytes. -/
theorem varint_round_trip_witness :
    (0x10000 : Nat) < 2 ^ 64 ∧
    (get_varint (make_varint 0x10000 []).2 (make_varint 0x10000 []).1
        = .ok (0x10000, (make_varint 0x10000 []).1)
      ∧ (make_varint 0x10000 []).1
        = (if (0x10000 : Nat) < 0xFD then 1 else if (0x10000 : Nat) ≤ 0xFFFF then 3
           else if (0x10000 : Nat) ≤ 0xFFFFFFFF then 5 else 9)
      ∧ (make_varint 0x10000 []).2.length = (make_varint 0x10000 []).1) :=
  ⟨by norm_num, varint_round_trip 0x10000 (by norm_num)⟩

/-! ## C2: layout of the envelope -/

/-- C2: for every payload whose size-only pass answers `n < 2^32` and every
magic word, the writing pass produces a body `b` of `n` bytes and
`Payload::serialize` returns exactly `24 + |b|` bytes: the magic word
little-endian, the command name padded with zeros to 12 bytes, `|b|` as a
little-endian `u32`, the first 4 bytes of the hash of `b` (of the empty string
when `b` is empty), and `b`. -/
theorem serialize_layout (getHash256 : List Byte → Hash32) (p : Payload)
    (magic_word n : Nat) (mem0 : List Byte)
    (hsz : p.serialize_inner none = .ok (n, mem0)) (hn : n < 2 ^ 32) :
    ∃ b, p.body = .ok b ∧ b.length = n ∧
      p.serialize getHash256 magic_word
        = .ok (toLE 4 magic_word ++ (p.typeStr ++ List.replicate (12 - p.typeStr.length) 0)
            ++ toLE 4 b.length ++ (getHash256 b).val.take 4 ++ b) ∧
      (toLE 4 magic_word ++ (p.typeStr ++ List.replicate (12 - p.typeStr.length) 0)
            ++ toLE 4 b.length ++ (getHash256 b).val.take 4 ++ b).length = 24 + b.length := by
  obtain ⟨r, b, hw, h0, hlen⟩ := serialize_inner_passes p n mem0 hsz hn
  obtain ⟨hbody, hser⟩ :=
    serialize_of_body getHash256 p magic_word n r mem0 b hsz hw h0 hlen hn
  refine ⟨b, hbody, hlen, ?_, ?_⟩
  · rw [hser]
    simp only [frame, List.append_assoc]
  · have := typeStr_lt p
    simp only [List.length_append, toLE_length, List.length_replicate, List.length_take,
      (getHash256 b).property]
    omega

/-- Witness for C2: a `ping` with nonce 5 on the main network. -/
theorem serialize_layout_witness :
    (Payload.Ping 5).serialize_inner none = .ok (8, []) ∧ (8 : Nat) < 2 ^ 32 ∧
    ∃ b, (Payload.Ping 5).body = .ok b ∧ b.length = 8 ∧
      (Payload.Ping 5).serialize toyHash 0xD9B4BEF9
        = .ok (toLE 4 0xD9B4BEF9
            ++ ((Payload.Ping 5).typeStr ++ List.replicate (12 - (Payload.Ping 5).typeStr.length) 0)
            ++ toLE 4 b.length ++ (toyHash b).val.take 4 ++ b) ∧
      (toLE 4 0xD9B4BEF9
            ++ ((Payload.Ping 5).typeStr ++ List.replicate (12 - (Payload.Ping 5).typeStr.length) 0)
            ++ toLE 4 b.length ++ (toyHash b).val.take 4 ++ b).length = 24 + b.length :=
  ⟨by decide, by norm_num,
    serialize_layout toyHash (.Ping 5) 0xD9B4BEF9 8 [] (by decide) (by norm_num)⟩

/-! ## C3: round trip of `verack`, `ping` and `tx` -/

/-- C3: for every magic word, the decoder run on the serialised frame of a
Verack, of a Ping with any 64-bit nonce (the sentinel `UINT64_MAX` included) or
of a Tx with a raw byte string shorter than `2^32 - 24` returns exactly that
one payload. -/
theorem codec_round_trip_verack_ping_tx (getHash256 : List Byte → Hash32)
    (magic_word : Nat) (v : Payload) (hm : magic_word < 2 ^ 32)
    (hv : v = .Verack ∨ (∃ nonce_, nonce_ < 2 ^ 64 ∧ v = .Ping nonce_)
      ∨ (∃ rawTx_ : List Byte, rawTx_.length < 2 ^ 32 - 24 ∧ v = .Tx rawTx_)) :
    ∃ f, v.serialize getHash256 magic_word = .ok f ∧
      Payload.deserialize getHash256 f magic_word = .ok [v] := by
  rcases hv with h | ⟨nonce_, hn, h⟩ | ⟨rawTx_, hlen, h⟩
  · subst h
    exact round_trip_Verack getHash256 magic_word hm
  · subst h
    exact round_trip_Ping getHash256 magic_word nonce_ hm hn
  · subst h
    exact round_trip_Tx getHash256 magic_word rawTx_ hm hlen

/-- Witness for C3: a zero-length `ping` (sentinel nonce) on the main network. -/
theorem codec_round_trip_verack_ping_tx_witness :
    (0xD9B4BEF9 : Nat) < 2 ^ 32 ∧
    ((Payload.Ping UINT64_MAX) = .Verack
      ∨ (∃ nonce_, nonce_ < 2 ^ 64 ∧ (Payload.Ping UINT64_MAX) = .Ping nonce_)
      ∨ (∃ rawTx_ : List Byte, rawTx_.length < 2 ^ 32 - 24
          ∧ (Payload.Ping UINT64_MAX) = .Tx rawTx_)) ∧
    ∃ f, (Payload.Ping UINT64_MAX).serialize toyHash 0xD9B4BEF9 = .ok f ∧
      Payload.deserialize toyHash f 0xD9B4BEF9 = .ok [.Ping UINT64_MAX] :=
  ⟨by norm_num, Or.inr (Or.inl ⟨UINT64_MAX, by norm_num, rfl⟩),
    codec_round_trip_verack_ping_tx toyHash 0xD9B4BEF9 (.Ping UINT64_MAX) (by norm_num)
      (Or.inr (Or.inl ⟨UINT64_MAX, by norm_num, rfl⟩))⟩

/-! ## C4: round trip of `inv` and `getdata` -/

/-- C4: for every magic word and every list of at most `INV_MAX` inventory
entries whose types are among 0, 1, 2, 3 (the hashes are 32 bytes by type), the
decoder run on the serialised frame of `Inv es` returns exactly `[Inv es]`, the
entries in the same order, and likewise for `GetData es`. -/
theorem codec_round_trip_inv_getdata (getHash256 : List Byte → Hash32)
    (magic_word : Nat) (es : List InvEntry) (hm : magic_word < 2 ^ 32)
    (hcount : es.length ≤ INV_MAX) (htype : ∀ e ∈ es, e.invtype_ ≤ 3) :
    (∃ f, (Payload.Inv es).serialize getHash256 magic_word = .ok f ∧
      Payload.deserialize getHash256 f magic_word = .ok [.Inv es]) ∧
    (∃ f, (Payload.GetData es).serialize getHash256 magic_word = .ok f ∧
      Payload.deserialize getHash256 f magic_word = .ok [.GetData es]) :=
  ⟨round_trip_Inv getHash256 magic_word es hm hcount htype,
    round_trip_GetData getHash256 magic_word es hm hcount htype⟩

/-- Witness for C4: a transaction entry followed by a block entry. -/
theorem codec_round_trip_inv_getdata_witness :
    (0xD9B4BEF9 : Nat) < 2 ^ 32 ∧
    ([⟨Inv_Msg_Tx, toyHash []⟩, ⟨Inv_Msg_Block, toyHash [1]⟩] : List InvEntry).length ≤ INV_MAX ∧
    (∀ e ∈ ([⟨Inv_Msg_Tx, toyHash []⟩, ⟨Inv_Msg_Block, toyHash [1]⟩] : List InvEntry),
      e.invtype_ ≤ 3) ∧
    ((∃ f, (Payload.Inv [⟨Inv_Msg_Tx, toyHash []⟩, ⟨Inv_Msg_Block, toyHash [1]⟩]).serialize
          toyHash 0xD9B4BEF9 = .ok f ∧
        Payload.deserialize toyHash f 0xD9B4BEF9
          = .ok [.Inv [⟨Inv_Msg_Tx, toyHash []⟩, ⟨Inv_Msg_Block, toyHash [1]⟩]]) ∧
      (∃ f, (Payload.GetData [⟨Inv_Msg_Tx, toyHash []⟩, ⟨Inv_Msg_Block, toyHash [1]⟩]).serialize
          toyHash 0xD9B4BEF9 = .ok f ∧
        Payload.deserialize toyHash f 0xD9B4BEF9
          = .ok [.GetData [⟨Inv_Msg_Tx, toyHash []⟩, ⟨Inv_Msg_Block, toyHash [1]⟩]])) :=
  ⟨by norm_num, by decide, by decide,
    codec_round_trip_inv_getdata toyHash 0xD9B4BEF9
      [⟨Inv_Msg_Tx, toyHash []⟩, ⟨Inv_Msg_Block, toyHash [1]⟩] (by norm_num) (by decide)
      (by decide)⟩

/-! ## C5: `pong` -/

/-- A Pong whose nonce is `UINT64_MAX` is serialised as a bare header of 24
bytes, without the 8-byte nonce, and the decoder run on that frame returns no
payload. -/
theorem pong_sentinel_not_round_tripped (getHash256 : List Byte → Hash32) :
    ∃ f, (Payload.Pong UINT64_MAX).serialize getHash256 0xD9B4BEF9 = .ok f ∧
      f.length = 24 ∧ Payload.deserialize getHash256 f 0xD9B4BEF9 = .ok [] := by
  obtain ⟨-, hser⟩ := serialize_of_body getHash256 (.Pong UINT64_MAX) 0xD9B4BEF9 0 0 [] []
    (by simp [Payload.serialize_inner, Payload_Pong.serialize_inner])
    (fun h => absurd h (by decide)) (fun _ => rfl) rfl (by norm_num)
  refine ⟨_, hser, frame_length getHash256 _ _ [] (typeStr_length _), ?_⟩
  rw [deserialize_frame getHash256 0xD9B4BEF9 _ [] (by norm_num) (typeStr_lt _)
    (typeStr_nz _) (by norm_num), findPayloadType_typeStr]
  rfl

/-- C5 as the code has it: for every magic word and every nonce other than
`UINT64_MAX`, the serialised Pong is 32 bytes, carries the nonce in its 8
payload bytes and decodes to exactly `[Pong n]`; a Pong whose nonce is
`UINT64_MAX` is serialised with an empty payload, as a frame of 24 bytes, and
the decoder run on that frame drops it: it returns the empty sequence. -/
theorem pong_round_trip (getHash256 : List Byte → Hash32) (magic_word nonce_ : Nat)
    (hm : magic_word < 2 ^ 32) (hn : nonce_ < 2 ^ 64 - 1) :
    (∃ f, (Payload.Pong nonce_).serialize getHash256 magic_word = .ok f ∧
      f.length = 24 + 8 ∧ f.drop 24 = toLE 8 nonce_ ∧
      Payload.deserialize getHash256 f magic_word = .ok [.Pong nonce_]) ∧
    (∃ f, (Payload.Pong UINT64_MAX).serialize getHash256 magic_word = .ok f ∧
      f.length = 24 ∧ Payload.deserialize getHash256 f magic_word = .ok []) := by
  constructor
  · have hmax : nonce_ ≠ UINT64_MAX := by
      simp only [UINT64_MAX]
      omega
    have hst : store (List.replicate 8 (0 : Byte)) 0 (toLE 8 nonce_) = .ok (toLE 8 nonce_) :=
      store_all _ _ (by simp)
    obtain ⟨-, hser⟩ := serialize_of_body getHash256 (.Pong nonce_) magic_word 8 8 []
      (toLE 8 nonce_)
      (by simp [Payload.serialize_inner, Payload_Pong.serialize_inner, hmax])
      (fun _ => by
        simp only [Payload.serialize_inner, Payload_Pong.serialize_inner, hmax, if_false,
          bind_eq_bind, hst, bind_ok, pure_eq_ok])
      (fun h => absurd h (by decide)) (by simp) (by norm_num)
    obtain ⟨f, hser2, hdes⟩ := round_trip_Pong getHash256 magic_word nonce_ hm hn
    rw [hser] at hser2
    injection hser2 with hf
    subst hf
    refine ⟨_, hser, ?_, ?_, hdes⟩
    · rw [frame_length getHash256 _ _ _ (typeStr_length _), toLE_length]
    · have := frame_drop_header getHash256 magic_word (Payload.Pong nonce_).typeStr
        (toLE 8 nonce_) [] (typeStr_length _)
      simpa using this
  · obtain ⟨-, hser⟩ := serialize_of_body getHash256 (.Pong UINT64_MAX) magic_word 0 0 [] []
      (by simp [Payload.serialize_inner, Payload_Pong.serialize_inner])
      (fun h => absurd h (by decide)) (fun _ => rfl) rfl (by norm_num)
    refine ⟨_, hser, frame_length getHash256 _ _ [] (typeStr_length _), ?_⟩
    rw [deserialize_frame getHash256 magic_word _ [] hm (typeStr_lt _) (typeStr_nz _)
      (by norm_num), findPayloadType_typeStr]
    rfl

/-- Witness for C5: a `pong` with nonce 7 on the main network. -/
theorem pong_round_trip_witness :
    (0xD9B4BEF9 : Nat) < 2 ^ 32 ∧ (7 : Nat) < 2 ^ 64 - 1 ∧
    ((∃ f, (Payload.Pong 7).serialize toyHash 0xD9B4BEF9 = .ok f ∧
      f.length = 24 + 8 ∧ f.drop 24 = toLE 8 7 ∧
      Payload.deserialize toyHash f 0xD9B4BEF9 = .ok [.Pong 7]) ∧
    (∃ f, (Payload.Pong UINT64_MAX).serialize toyHash 0xD9B4BEF9 = .ok f ∧
      f.length = 24 ∧ Payload.deserialize toyHash f 0xD9B4BEF9 = .ok [])) :=
  ⟨by norm_num, by norm_num, pong_round_trip toyHash 0xD9B4BEF9 7 (by norm_num) (by norm_num)⟩

/-- C5 as stated fails at the nonce `UINT64_MAX`: for no hash function does the
decoder, run on the serialised frame of `Pong UINT64_MAX`, return that Pong. -/
theorem pong_round_trip_counterexample :
    ¬ ∃ (getHash256 : List Byte → Hash32) (f : List Byte),
      (Payload.Pong UINT64_MAX).serialize getHash256 0xD9B4BEF9 = .ok f ∧
      Payload.deserialize getHash256 f 0xD9B4BEF9 = .ok [.Pong UINT64_MAX] := by
  rintro ⟨getHash256, f, hser, hdes⟩
  obtain ⟨f2, hser2, -, hdes2⟩ := pong_sentinel_not_round_tripped getHash256
  rw [hser] at hser2
  injection hser2 with hf
  subst hf
  rw [hdes2] at hdes
  cases hdes

/-! ## C6: byte order of the `version` header -/

/-- C6, the code at the failing input: the handshake `version` (protocol
version 70012, services 8) is serialised with the protocol version, the
services and the timestamp most significant byte first, so that the payload
starts `00 01 11 7C 00 00 00 00 00 00 00 08`, and the decoder reads the frame
back as protocol version `0x7C110100` and services `0x0800000000000000`. -/
theorem version_header_byte_order (getHash256 : List Byte → Hash32) :
    ∃ f, handshakeVersion.serialize getHash256 0xD9B4BEF9 = .ok f ∧
      (f.drop 24).take 20
        = [0x00, 0x01, 0x11, 0x7C, 0, 0, 0, 0, 0, 0, 0, 0x08,
           0, 0, 0, 0, 0x58, 0x18, 0x7D, 0x80] ∧
      ∃ vh ua h, Payload.deserialize getHash256 f 0xD9B4BEF9 = .ok [.Version vh ua h] ∧
        vh.version_ = 0x7C110100 ∧ vh.services_ = 0x0800000000000000 ∧
        vh.timestamp_ = 0x807D185800000000 := by
  obtain ⟨hser, hdes⟩ := handshakeVersion_codec getHash256
  refine ⟨_, hser, ?_, _, _, _, hdes, rfl, rfl, rfl⟩
  have hd := frame_drop_header getHash256 0xD9B4BEF9 handshakeVersion.typeStr handshakeBody []
    (typeStr_length _)
  rw [List.append_nil, List.append_nil] at hd
  rw [hd]
  decide

/-! ## C7: place of the start height in a `version` -/

/-- C7, the code at the failing input: the payload of the handshake `version`
(user agent of 11 bytes, start height -1) is 97 = 80 + 1 + 11 + 5 bytes long;
the 4 bytes that follow the user agent are `00 FF FF FF`, the start height
lying one byte further; and the decoder reads the start height `0xFFFFFF00`. -/
theorem version_start_height_offset (getHash256 : List Byte → Hash32) :
    ∃ f, handshakeVersion.serialize getHash256 0xD9B4BEF9 = .ok f ∧
      f.length = 24 + 97 ∧
      ((f.drop 24).drop (80 + 1 + 11)).take 4 = [0x00, 0xFF, 0xFF, 0xFF] ∧
      (f.drop 24).drop (80 + 1 + 11 + 1) = [0xFF, 0xFF, 0xFF, 0xFF] ∧
      ∃ vh ua, Payload.deserialize getHash256 f 0xD9B4BEF9
        = .ok [.Version vh ua 0xFFFFFF00] := by
  obtain ⟨hser, hdes⟩ := handshakeVersion_codec getHash256
  have hd := frame_drop_header getHash256 0xD9B4BEF9 handshakeVersion.typeStr handshakeBody []
    (typeStr_length _)
  rw [List.append_nil, List.append_nil] at hd
  refine ⟨_, hser, ?_, ?_, ?_, _, _, hdes⟩
  · rw [frame_length getHash256 _ _ _ (typeStr_length _)]
    decide
  · rw [hd]
    decide
  · rw [hd]
    decide

/-! ## C8: `version` payloads of 104 bytes -/

set_option maxRecDepth 100000 in
/-- C8, the code at the failing input: on the well-formed `version` payload of
104 bytes (80 fixed bytes, the varint 19, 19 bytes of user agent and the start
height) `Payload_Version::deserialize` computes `remaining = 104 - 24 - 80 = 0`
and `get_varint` throws `runtime_error`; the envelope decoder, which catches
`BitcoinMessageDeserError` only, is left by that exception. -/
theorem version_decode_104_raises (getHash256 : List Byte → Hash32) :
    payload104.length = 104 ∧
    Payload_Version.deserialize payload104 payload104.length
      = .runtimeError "invalid varint size" ∧
    Payload.deserialize getHash256 (frame getHash256 0xD9B4BEF9 versionCommand payload104)
        0xD9B4BEF9
      = .runtimeError "invalid varint size" := by
  refine ⟨by decide, by decide, ?_⟩
  rw [deserialize_frame getHash256 0xD9B4BEF9 versionCommand payload104 (by norm_num)
    (by decide) (by decide) (by decide)]
  have ht : findPayloadType versionCommand = some .Payload_version := by decide
  have hdec : makePayload .Payload_version
      (if payload104.length > 0 then payload104 else []) payload104.length
      = .runtimeError "invalid varint size" := by decide
  simp only [ht, hdec]

/-! ## C9: `version` payloads that are too short -/

set_option maxRecDepth 100000 in
/-- C9, the code at the failing input: a correctly framed `version` message
with a payload of one byte, followed in the buffer by 84 zero bytes. The
version decoder raises nothing: it reads the 85 bytes behind the payload
pointer, 84 of them beyond the payload, and the envelope decoder returns a
Version made of them. -/
theorem version_decode_short_payload (getHash256 : List Byte → Hash32) :
    Payload.deserialize getHash256
        (frame getHash256 0xD9B4BEF9 versionCommand [0] ++ List.replicate 84 0) 0xD9B4BEF9
      = .ok [.Version ⟨0, 0, 0, ⟨0, ⟨List.replicate 16 0, rfl⟩, 0⟩,
          ⟨0, ⟨List.replicate 16 0, rfl⟩, 0⟩, 0⟩ [] 0] := by
  have hcmd : versionCommand.length ≤ 12 := by decide
  have hlen : (frame getHash256 0xD9B4BEF9 versionCommand [0] ++ List.replicate 84 0).length
      = 109 := by
    rw [List.length_append, frame_length getHash256 _ _ _ hcmd]
    rfl
  have hstep := deserializeLoop_frame getHash256
    (frame getHash256 0xD9B4BEF9 versionCommand [0] ++ List.replicate 84 0) 0xD9B4BEF9 109 0 []
    versionCommand [0] (List.replicate 84 0) (by norm_num) (by decide) (by decide)
    (by decide) (by rw [List.drop_zero])
  have ht : findPayloadType versionCommand = some .Payload_version := by decide
  have hdec : makePayload .Payload_version
      (if ([0] : List Byte).length > 0 then [0] ++ List.replicate 84 0 else [])
      ([0] : List Byte).length
      = .ok (.Version ⟨0, 0, 0, ⟨0, ⟨List.replicate 16 0, rfl⟩, 0⟩,
          ⟨0, ⟨List.replicate 16 0, rfl⟩, 0⟩, 0⟩ [] 0) := by decide
  have hd := frame_drop_all getHash256 0xD9B4BEF9 versionCommand [0] (List.replicate 84 0) hcmd
  have hmis := deserializeLoop_mismatch getHash256
    (frame getHash256 0xD9B4BEF9 versionCommand [0] ++ List.replicate 84 0) 0xD9B4BEF9 108
    (24 + ([0] : List Byte).length) 0 84
    [.Version ⟨0, 0, 0, ⟨0, ⟨List.replicate 16 0, rfl⟩, 0⟩,
          ⟨0, ⟨List.replicate 16 0, rfl⟩, 0⟩, 0⟩ [] 0]
    (by rw [hlen]; decide) (by rw [hd]; decide) (by decide) (by rw [hd]; decide)
  have hend := deserializeLoop_end getHash256
    (frame getHash256 0xD9B4BEF9 versionCommand [0] ++ List.replicate 84 0) 0xD9B4BEF9 108
    (24 + ([0] : List Byte).length + 84)
    [.Version ⟨0, 0, 0, ⟨0, ⟨List.replicate 16 0, rfl⟩, 0⟩,
          ⟨0, ⟨List.replicate 16 0, rfl⟩, 0⟩, 0⟩ [] 0]
    (by rw [hlen]; decide)
  unfold Payload.deserialize
  rw [hlen, if_neg (by decide), hstep]
  simp only [ht, hdec, Nat.zero_add, List.nil_append]
  rw [hmis, hend]

/-! ## C10: framing resync -/

/-- C10 as the code has it: for every magic word, every frame `f` that
`serialize` makes of a round-trippable payload `v` smaller than `2^32 - 24`
bytes, and every garbage `g` of at least 4 and fewer than `2^32` bytes such that
the magic sequence does not occur in `g ++ f` at any position before `|g|`
(occurrences that straddle the end of the garbage included), the decoder run on
`g ++ f` returns exactly `[v]`. -/
theorem framing_resync (getHash256 : List Byte → Hash32) (magic_word n : Nat) (v : Payload)
    (mem0 f g : List Byte) (hm : magic_word < 2 ^ 32)
    (hsz : v.serialize_inner none = .ok (n, mem0)) (hn : n + 24 < 2 ^ 32)
    (hser : v.serialize getHash256 magic_word = .ok f)
    (hrt : Payload.deserialize getHash256 f magic_word = .ok [v])
    (hg4 : 4 ≤ g.length) (hg : g.length < 2 ^ 32)
    (hno : ∀ j, j < g.length → ((g ++ f).drop j).take 4 ≠ toLE 4 magic_word) :
    Payload.deserialize getHash256 (g ++ f) magic_word = .ok [v] := by
  obtain ⟨r, b, hw, h0, hlen⟩ := serialize_inner_passes v n mem0 hsz (by omega)
  obtain ⟨-, hser2⟩ :=
    serialize_of_body getHash256 v magic_word n r mem0 b hsz hw h0 hlen (by omega)
  rw [hser2] at hser
  injection hser with hf
  subst hf
  rw [deserialize_garbage_frame getHash256 magic_word v.typeStr b g hm (typeStr_lt v)
    (typeStr_nz v) (by omega) hg4 hg hno]
  exact hrt

set_option maxRecDepth 100000 in
/-- Witness for C10: five zero bytes in front of a `verack` frame of the main
network. -/
theorem framing_resync_witness :
    (0xD9B4BEF9 : Nat) < 2 ^ 32 ∧
    Payload.Verack.serialize_inner none = .ok (0, []) ∧
    (0 : Nat) + 24 < 2 ^ 32 ∧
    Payload.Verack.serialize toyHash 0xD9B4BEF9 = .ok exampleVerackFrame ∧
    Payload.deserialize toyHash exampleVerackFrame 0xD9B4BEF9 = .ok [.Verack] ∧
    4 ≤ ([0, 0, 0, 0, 0] : List Byte).length ∧
    ([0, 0, 0, 0, 0] : List Byte).length < 2 ^ 32 ∧
    (∀ j, j < ([0, 0, 0, 0, 0] : List Byte).length →
      ((([0, 0, 0, 0, 0] : List Byte) ++ exampleVerackFrame).drop j).take 4
        ≠ toLE 4 0xD9B4BEF9) ∧
    Payload.deserialize toyHash (([0, 0, 0, 0, 0] : List Byte) ++ exampleVerackFrame)
      0xD9B4BEF9 = .ok [.Verack] :=
  ⟨by norm_num, by decide, by norm_num, by decide, by decide, by decide, by decide, by decide,
    framing_resync toyHash 0xD9B4BEF9 0 .Verack [] exampleVerackFrame [0, 0, 0, 0, 0]
      (by norm_num) (by decide) (by norm_num) (by decide) (by decide) (by decide) (by decide)
      (by decide)⟩

set_option maxRecDepth 100000 in
/-- C10 as stated fails, for every hash function. (1) One byte of garbage `00`
in front of a `verack` frame of the main network: the garbage does not contain
the magic sequence, yet the decoder, which compares at position 0 and searches
from position 4 on, does not return `[Verack]`. (2) Six bytes of garbage
`09 09 09 09 01 02`, free of the magic sequence `01 02 01 02`, in front of a `tx`
frame: the magic sequence occurs across the end of the garbage, and the decoder
does not return the transaction. -/
theorem framing_resync_counterexample :
    (¬ ∃ (getHash256 : List Byte → Hash32) (f : List Byte),
        Payload.Verack.serialize getHash256 0xD9B4BEF9 = .ok f ∧
        Payload.deserialize getHash256 (([0x00] : List Byte) ++ f) 0xD9B4BEF9
          = .ok [.Verack]) ∧
    (∀ j, j < ([9, 9, 9, 9, 1, 2] : List Byte).length - 3 →
        (([9, 9, 9, 9, 1, 2] : List Byte).drop j).take 4 ≠ toLE 4 0x02010201) ∧
    (¬ ∃ (getHash256 : List Byte → Hash32) (f : List Byte),
        (Payload.Tx [0xAB]).serialize getHash256 0x02010201 = .ok f ∧
        Payload.deserialize getHash256 (([9, 9, 9, 9, 1, 2] : List Byte) ++ f) 0x02010201
          = .ok [.Tx [0xAB]]) := by
  refine ⟨?_, by decide, ?_⟩
  · rintro ⟨getHash256, f, hser, hdes⟩
    obtain ⟨-, hser2⟩ := serialize_of_body getHash256 .Verack 0xD9B4BEF9 0 0 [] []
      rfl (fun h => absurd h (by decide)) (fun _ => rfl) rfl (by norm_num)
    rw [hser2] at hser
    injection hser with hf
    subst hf
    have hflen := frame_length getHash256 0xD9B4BEF9 Payload.Verack.typeStr []
      (typeStr_length _)
    have hdlen : (([0x00] : List Byte)
        ++ frame getHash256 0xD9B4BEF9 Payload.Verack.typeStr []).length = 25 := by
      rw [List.length_append, hflen]
      rfl
    have hload : load 4 (([0x00] : List Byte)
        ++ frame getHash256 0xD9B4BEF9 Payload.Verack.typeStr [])
        = .ok (fromLE [0x00, 0xF9, 0xBE, 0xB4]) := by
      simp only [load, hdlen]
      rfl
    unfold Payload.deserialize at hdes
    rw [hdlen, if_neg (by decide), deserializeLoop] at hdes
    simp only [hdlen, MAGIC_WORD_OFFSET, List.drop_zero, hload, bind_ok] at hdes
    rw [if_pos (by decide), if_pos (by decide)] at hdes
    cases hscan : scanMagic (([0x00] : List Byte)
        ++ frame getHash256 0xD9B4BEF9 Payload.Verack.typeStr []) 0xD9B4BEF9 25 4 with
    | ok i =>
      rw [hscan, bind_ok] at hdes
      have hge := scanMagic_ge _ _ (by rw [hdlen]; norm_num) _ _ _ hscan
      have := deserializeLoop_short getHash256 _ 0xD9B4BEF9 _ _ _ _
        (by rw [hdlen]; omega) hdes
      cases this
    | deserError msg => rw [hscan] at hdes; cases hdes
    | runtimeError msg => rw [hscan] at hdes; cases hdes
    | undefined => rw [hscan] at hdes; cases hdes
    | outOfFuel => rw [hscan] at hdes; cases hdes
  · rintro ⟨getHash256, f, hser, hdes⟩
    obtain ⟨-, hser2⟩ := serialize_of_body getHash256 (.Tx [0xAB]) 0x02010201 1 1 [] [0xAB]
      rfl (fun _ => rfl) (fun h => absurd h (by decide)) rfl (by norm_num)
    rw [hser2] at hser
    injection hser with hf
    subst hf
    have hflen := frame_length getHash256 0x02010201 (Payload.Tx [0xAB]).typeStr [0xAB]
      (typeStr_length _)
    have hdlen : (([9, 9, 9, 9, 1, 2] : List Byte)
        ++ frame getHash256 0x02010201 (Payload.Tx [0xAB]).typeStr [0xAB]).length = 31 := by
      rw [List.length_append, hflen]
      rfl
    -- the buffer, split at the magic sequence that straddles the end of the garbage
    have hsplit : ([9, 9, 9, 9, 1, 2] : List Byte)
        ++ frame getHash256 0x02010201 (Payload.Tx [0xAB]).typeStr [0xAB]
        = [9, 9, 9, 9] ++ (toLE 4 0x02010201 ++
            ([1, 2, 0x74, 0x78, 0, 0, 0, 0, 0, 0, 0, 0] ++ (toLE 4 0x10000 ++
              ([0, 0] ++ ((getHash256 [0xAB]).val.take 4 ++ [0xAB]))))) := rfl
    have hgar := deserializeLoop_garbage getHash256 0x02010201 31 [9, 9, 9, 9]
      ([1, 2, 0x74, 0x78, 0, 0, 0, 0, 0, 0, 0, 0] ++ (toLE 4 0x10000 ++
        ([0, 0] ++ ((getHash256 [0xAB]).val.take 4 ++ [0xAB])))) []
      (by norm_num) (by decide) (by decide)
      (by
        intro j hj
        have hj4 : j < 4 := hj
        interval_cases j
        · exact (by decide : ([9, 9, 9, 9] : List Byte) ≠ toLE 4 0x02010201)
        · exact (by decide : ([9, 9, 9, 1] : List Byte) ≠ toLE 4 0x02010201)
        · exact (by decide : ([9, 9, 1, 2] : List Byte) ≠ toLE 4 0x02010201)
        · exact (by decide : ([9, 1, 2, 1] : List Byte) ≠ toLE 4 0x02010201))
    have hbad := deserializeLoop_length_mismatch getHash256
      ([9, 9, 9, 9] ++ (toLE 4 0x02010201 ++
            ([1, 2, 0x74, 0x78, 0, 0, 0, 0, 0, 0, 0, 0] ++ (toLE 4 0x10000 ++
              ([0, 0] ++ ((getHash256 [0xAB]).val.take 4 ++ [0xAB]))))))
      0x02010201 30 4 0x10000 4 [] [1, 2, 0x74, 0x78, 0, 0, 0, 0, 0, 0, 0, 0]
      ([0, 0] ++ ((getHash256 [0xAB]).val.take 4 ++ [0xAB]))
      (by norm_num) (by norm_num) rfl (by decide) (by decide) rfl
      (by rw [← hsplit, hdlen]; decide)
    unfold Payload.deserialize at hdes
    rw [hdlen, if_neg (by decide), hsplit, hgar] at hdes
    rw [show ([9, 9, 9, 9] : List Byte).length = 4 from rfl, hbad] at hdes
    cases hdes

/-! ## C11: a corrupted checksum -/

/-- C11 as the code has it: for every payload `v` smaller than `2^32 - 24`
bytes with frame `f = serialize(v, m)`, every index `i` in 20..23 and every
value `x` other than byte `i` of `f`, if in the corrupted buffer the magic
sequence does not occur at any position from 4 on and the first byte of the
magic word is not among the last 3 bytes, the decoder returns the empty
sequence without raising. -/
theorem checksum_corruption (getHash256 : List Byte → Hash32) (magic_word n i : Nat)
    (v : Payload) (mem0 f : List Byte) (x : Byte) (hm : magic_word < 2 ^ 32)
    (hsz : v.serialize_inner none = .ok (n, mem0)) (hn : n + 24 < 2 ^ 32)
    (hser : v.serialize getHash256 magic_word = .ok f)
    (hi1 : 20 ≤ i) (hi2 : i ≤ 23) (hx : f.get? i ≠ some x)
    (hno : ∀ p, 4 ≤ p → p + 4 ≤ (f.set i x).length →
      ((f.set i x).drop p).take 4 ≠ toLE 4 magic_word)
    (htail : ∀ b ∈ (f.set i x).drop ((f.set i x).length - 3), b.val ≠ magic_word % 256) :
    Payload.deserialize getHash256 (f.set i x) magic_word = .ok [] := by
  obtain ⟨r, b, hw, h0, hlen⟩ := serialize_inner_passes v n mem0 hsz (by omega)
  obtain ⟨-, hser2⟩ :=
    serialize_of_body getHash256 v magic_word n r mem0 b hsz hw h0 hlen (by omega)
  rw [hser2] at hser
  injection hser with hf
  subst hf
  obtain ⟨k, rfl⟩ : ∃ k, i = 20 + k := ⟨i - 20, by omega⟩
  have hk : k < 4 := by omega
  have hset := frame_set_checksum getHash256 magic_word v.typeStr b k x (typeStr_length v) hk
  have hflen := frame_length getHash256 magic_word v.typeStr b (typeStr_length v)
  have hcks4 : ((getHash256 b).val.take 4).length = 4 := by simp [(getHash256 b).property]
  have hbad : fromLE (((getHash256 b).val.take 4).set k x)
      ≠ fromLE ((getHash256 b).val.take 4) := by
    intro h
    have h1 := toLE_fromLE (((getHash256 b).val.take 4).set k x)
    have h2 := toLE_fromLE ((getHash256 b).val.take 4)
    rw [List.length_set, h, h2] at h1
    rw [← h1, List.append_nil] at hset
    have hsame : (frame getHash256 magic_word v.typeStr b).set (20 + k) x
        = frame getHash256 magic_word v.typeStr b := by
      rw [hset]
      rfl
    apply hx
    have hget : ((frame getHash256 magic_word v.typeStr b).set (20 + k) x)[20 + k]? = some x :=
      List.getElem?_set_self (by omega)
    rw [hsame] at hget
    rw [List.get?_eq_getElem?]
    exact hget
  exact deserialize_corrupted_frame getHash256 magic_word v.typeStr b
    (((getHash256 b).val.take 4).set k x) hm (typeStr_lt v) (typeStr_nz v) (by omega)
    (by rw [List.length_set]; exact hcks4) hbad _ hset hno htail

set_option maxRecDepth 100000 in
/-- Witness for C11: the `verack` frame of the main network with byte 20
changed from `9F` to `00`. -/
theorem checksum_corruption_witness :
    (0xD9B4BEF9 : Nat) < 2 ^ 32 ∧
    Payload.Verack.serialize_inner none = .ok (0, []) ∧
    (0 : Nat) + 24 < 2 ^ 32 ∧
    Payload.Verack.serialize toyHash 0xD9B4BEF9 = .ok exampleVerackFrame ∧
    (20 : Nat) ≤ 20 ∧ (20 : Nat) ≤ 23 ∧ exampleVerackFrame.get? 20 ≠ some 0 ∧
    (∀ p, 4 ≤ p → p + 4 ≤ (exampleVerackFrame.set 20 0).length →
      ((exampleVerackFrame.set 20 0).drop p).take 4 ≠ toLE 4 0xD9B4BEF9) ∧
    (∀ b ∈ (exampleVerackFrame.set 20 0).drop ((exampleVerackFrame.set 20 0).length - 3),
      b.val ≠ 0xD9B4BEF9 % 256) ∧
    Payload.deserialize toyHash (exampleVerackFrame.set 20 0) 0xD9B4BEF9 = .ok [] :=
  have hno : ∀ p, 4 ≤ p → p + 4 ≤ (exampleVerackFrame.set 20 0).length →
      ((exampleVerackFrame.set 20 0).drop p).take 4 ≠ toLE 4 0xD9B4BEF9 := by
    intro p h1 h2
    have h3 : p < 21 := by
      have : (exampleVerackFrame.set 20 0).length = 24 := by decide
      omega
    interval_cases p <;> decide
  ⟨by norm_num, by decide, by norm_num, by decide, by decide, by decide, by decide, hno,
    by decide,
    checksum_corruption toyHash 0xD9B4BEF9 0 20 .Verack [] exampleVerackFrame 0
      (by norm_num) (by decide) (by norm_num) (by decide) (by decide) (by decide) (by decide)
      hno (by decide)⟩

/-- C11 as stated fails, for every hash function: take the transaction whose
raw bytes are a `verack` frame of the main network and replace byte 23 of its
`tx` frame by 0, or by 1 when it is 0. The decoder gives up the outer frame,
searches on from position 8, finds the inner frame at position 24 and returns
`[Verack]`, not the empty sequence. -/
theorem checksum_corruption_counterexample :
    ¬ ∃ getHash256 : List Byte → Hash32, ∀ (f : List Byte) (x : Byte),
      (Payload.Tx (frame getHash256 0xD9B4BEF9 Payload.Verack.typeStr [])).serialize
        getHash256 0xD9B4BEF9 = .ok f →
      f.get? 23 ≠ some x →
      Payload.deserialize getHash256 (f.set 23 x) 0xD9B4BEF9 = .ok [] := by
  rintro ⟨getHash256, h⟩
  obtain ⟨f, x, hser, hx, hdes⟩ := corrupted_tx_yields_inner_frame getHash256
  have := h f x hser hx
  rw [hdes] at this
  cases this

/-! ## C12: a declared length near `2^32` -/

/-- C12, the code at the failing input: in `lengthWrapBuffer` the magic word
matches, the command is NUL-terminated and the declared length `0xFFFFFFFF`
plus 24 exceeds the 24 bytes of the buffer; but `*length + MESSAGE_HEADER_LEN`
is computed in 32 bits and is 23, the length check passes, and the decoder goes
on to hash `0xFFFFFFFF` bytes behind the header: a read outside the buffer, not
the payload-length-mismatch error. -/
theorem length_check_wraps (getHash256 : List Byte → Hash32) :
    lengthWrapBuffer.length = 24 ∧
    load 4 (lengthWrapBuffer.drop PAYLOAD_LENGTH_OFFSET) = .ok 0xFFFFFFFF ∧
    0xFFFFFFFF + 24 > lengthWrapBuffer.length ∧
    (0xFFFFFFFF + MESSAGE_HEADER_LEN) % 2 ^ 32 = 23 ∧
    Payload.deserialize getHash256 lengthWrapBuffer 0xD9B4BEF9 = .undefined :=
  ⟨by decide, by decide, by decide, by decide, rfl⟩

/-! ## C13: a payload that its decoder rejects -/

/-- C13, the code at the failing input: an `inv` frame with an empty payload
followed by a `verack` frame. `Payload_Inv::deserialize` calls `get_varint` with
size 0, which throws `runtime_error`; the envelope decoder catches
`BitcoinMessageDeserError` only, so the exception leaves `Payload::deserialize`
and the `verack` is not returned, although that frame alone decodes to
`[Verack]`. -/
theorem inv_empty_payload_raises (getHash256 : List Byte → Hash32) :
    Payload.deserialize getHash256
        (frame getHash256 0xD9B4BEF9 (Payload.Inv []).typeStr []
          ++ frame getHash256 0xD9B4BEF9 Payload.Verack.typeStr []) 0xD9B4BEF9
      = .runtimeError "invalid varint size" ∧
    Payload.deserialize getHash256 (frame getHash256 0xD9B4BEF9 Payload.Verack.typeStr [])
        0xD9B4BEF9 = .ok [.Verack] := by
  constructor
  · have hvlen := frame_length getHash256 0xD9B4BEF9 Payload.Verack.typeStr []
      (typeStr_length _)
    have hilen := frame_length getHash256 0xD9B4BEF9 (Payload.Inv []).typeStr []
      (typeStr_length _)
    have hstep := deserializeLoop_frame getHash256
      (frame getHash256 0xD9B4BEF9 (Payload.Inv []).typeStr []
          ++ frame getHash256 0xD9B4BEF9 Payload.Verack.typeStr []) 0xD9B4BEF9 48 0 []
      (Payload.Inv []).typeStr [] (frame getHash256 0xD9B4BEF9 Payload.Verack.typeStr [])
      (by norm_num) (typeStr_lt _) (typeStr_nz _) (by decide) (by rw [List.drop_zero])
    unfold Payload.deserialize
    rw [List.length_append, hvlen, hilen]
    rw [if_neg (by decide)]
    change deserializeLoop getHash256 _ 0xD9B4BEF9 (48 + 1) 0 [] = _
    rw [hstep, findPayloadType_typeStr]
    rfl
  · rw [deserialize_frame getHash256 0xD9B4BEF9 _ [] (by norm_num) (typeStr_lt _)
      (typeStr_nz _) (by norm_num), findPayloadType_typeStr]
    rfl

/-! ## C14: when `get_varint` fails -/

/-- C14: for every buffer `buf`, taken with `size = |buf|`, `get_varint` fails,
with `runtime_error`, if and only if the buffer is empty or shorter than the
width its first byte indicates; otherwise it returns that width and the first
byte itself (width 1) or the little-endian value of the follow-on bytes; and
what lies behind the `size` bytes has no influence on the outcome. -/
theorem get_varint_spec (buf extra : List Byte) :
    get_varint (buf ++ extra) buf.length = get_varint buf buf.length ∧
    (get_varint buf buf.length = .runtimeError "invalid varint size" ↔
      (buf = [] ∨ ∃ b rest, buf = b :: rest ∧ buf.length < varintWidth b)) ∧
    (∀ b rest, buf = b :: rest → varintWidth b ≤ buf.length →
      get_varint buf buf.length
        = .ok (if b.val < 0xFD then b.val else fromLE (rest.take (varintWidth b - 1)),
            varintWidth b)) := by
  cases buf with
  | nil => simp [get_varint]
  | cons b rest =>
    have hload : ∀ w, w ≤ rest.length →
        load w (rest ++ extra) = .ok (fromLE (rest.take w)) ∧
        load w rest = .ok (fromLE (rest.take w)) := by
      intro w hw
      constructor
      · simp only [load, List.length_append]
        rw [if_pos (by omega), List.take_append_of_le_length hw]
      · simp only [load]
        rw [if_pos hw]
    by_cases h1 : b.val < 0xFD
    · simp [get_varint, varintWidth, h1]
    · by_cases h2 : b.val = 0xFD
      · by_cases hs : rest.length + 1 < 3
        · simp [get_varint, varintWidth, h1, h2, hs]
        · obtain ⟨ha, hb⟩ := hload 2 (by omega)
          simp [get_varint, varintWidth, h1, h2, hs, ha, hb]
      · by_cases h3 : b.val = 0xFE
        · by_cases hs : rest.length + 1 < 5
          · simp [get_varint, varintWidth, h1, h2, h3, hs]
          · obtain ⟨ha, hb⟩ := hload 4 (by omega)
            simp [get_varint, varintWidth, h1, h2, h3, hs, ha, hb]
        · by_cases hs : rest.length + 1 < 9
          · simp [get_varint, varintWidth, h1, h2, h3, hs]
          · obtain ⟨ha, hb⟩ := hload 8 (by omega)
            simp [get_varint, varintWidth, h1, h2, h3, hs, ha, hb]

/-- Witness for C14: the varint `FD 51 C3` (the value 50001, width 3), with and
without a byte behind it, and the same varint cut to 2 bytes. -/
theorem get_varint_spec_witness :
    get_varint ([0xFD, 0x51, 0xC3] ++ [0xAA]) ([0xFD, 0x51, 0xC3] : List Byte).length
      = get_varint [0xFD, 0x51, 0xC3] ([0xFD, 0x51, 0xC3] : List Byte).length ∧
    get_varint [0xFD, 0x51, 0xC3] ([0xFD, 0x51, 0xC3] : List Byte).length = .ok (50001, 3) ∧
    get_varint [0xFD, 0x51] ([0xFD, 0x51] : List Byte).length
      = .runtimeError "invalid varint size" :=
  ⟨(get_varint_spec [0xFD, 0x51, 0xC3] [0xAA]).1,
    (get_varint_spec [0xFD, 0x51, 0xC3] []).2.2 0xFD [0x51, 0xC3] rfl (by decide),
    (get_varint_spec [0xFD, 0x51] []).2.1.mpr (Or.inr ⟨0xFD, [0x51], rfl, by decide⟩)⟩

/-! ## C15: the bound `INV_MAX` -/

/-- C15: for every Inv or GetData payload `p` (shorter than `2^32` bytes, as a
payload is) whose leading varint holds a count greater than `INV_MAX`, whatever
bytes follow, the payload decoder fails with `BitcoinMessageDeserError`; and
the frame of an Inv or GetData of `INV_MAX + 1` entries yields no payload from
the envelope decoder. -/
theorem inv_count_bound (getHash256 : List Byte → Hash32) (magic_word count w : Nat)
    (p : List Byte) (es : List InvEntry) (hm : magic_word < 2 ^ 32)
    (hlen : p.length < 2 ^ 32) (hv : get_varint p p.length = .ok (count, w))
    (hcount : INV_MAX < count) (hes : es.length = INV_MAX + 1) :
    Payload_Inv.deserialize p p.length = .deserError "inv count > INV_MAX" ∧
    Payload_GetData.deserialize p p.length = .deserError "inv count > INV_MAX" ∧
    (∃ f, (Payload.Inv es).serialize getHash256 magic_word = .ok f ∧
      Payload.deserialize getHash256 f magic_word = .ok []) ∧
    (∃ f, (Payload.GetData es).serialize getHash256 magic_word = .ok f ∧
      Payload.deserialize getHash256 f magic_word = .ok []) := by
  have hd := decodeInvVector_count p count w hlen hv hcount
  have hvl := make_varint_length es.length
  have hle := make_varint_le es.length
  have hpos := make_varint_pos es.length
  have hes2 : es.length = 50001 := hes
  have hblen : ((make_varint es.length []).2 ++ encodeInvEntries es).length
      = (make_varint es.length []).1 + 36 * es.length := by
    simp [hvl, encodeInvEntries_length]
  have hbody : (if ((make_varint es.length []).2 ++ encodeInvEntries es).length > 0
      then (make_varint es.length []).2 ++ encodeInvEntries es else [])
      = (make_varint es.length []).2 ++ encodeInvEntries es := inv_body_nonempty es
  have hg := get_varint_make_varint es.length
    ((make_varint es.length []).2 ++ encodeInvEntries es).length
    (encodeInvEntries es) (by omega) (by rw [hblen]; omega)
  have hd2 := decodeInvVector_count ((make_varint es.length []).2 ++ encodeInvEntries es)
    es.length (make_varint es.length []).1 (by rw [hblen]; omega) hg
    (by rw [hes2]; decide)
  refine ⟨?_, ?_, ?_, ?_⟩
  · rw [Payload_Inv_deserialize_eq, hd]
    rfl
  · rw [Payload_GetData_deserialize_eq, hd]
    rfl
  · obtain ⟨r, b, hw, h0, hbl⟩ := serialize_inner_passes (.Inv es) _ []
      (show (Payload.Inv es).serialize_inner none
        = .ok (es.length * INV_ENTRY_LEN + get_varint_len (toInt64 es.length), []) from rfl)
      (by
        rw [get_varint_len_eq es.length (by omega)]
        simp only [INV_ENTRY_LEN]
        omega)
    -- the body is the varint followed by the entries
    have hwr := inv_write es
    rw [get_varint_len_eq es.length (by omega)] at hw hbl h0
    have hb : b = (make_varint es.length []).2 ++ encodeInvEntries es := by
      have h1 := hw (by simp only [INV_ENTRY_LEN]; omega)
      simp only [Payload.serialize_inner, Payload_Inv.serialize_inner, bind_eq_bind,
        pure_eq_ok, INV_ENTRY_LEN] at h1
      cases hst : store (List.replicate (es.length * 36 + (make_varint es.length []).1) 0) 0
          ((make_varint es.length []).2.take (make_varint es.length []).1) with
      | ok mem =>
        rw [hst, bind_ok] at hwr h1
        rw [hwr, bind_ok] at h1
        injection h1 with h1
        injection h1 with _ h1
        exact h1.symm
      | deserError msg => rw [hst] at hwr; cases hwr
      | runtimeError msg => rw [hst] at hwr; cases hwr
      | undefined => rw [hst] at hwr; cases hwr
      | outOfFuel => rw [hst] at hwr; cases hwr
    subst hb
    obtain ⟨-, hser⟩ := serialize_of_body getHash256 (.Inv es) magic_word _ r [] _
      (show (Payload.Inv es).serialize_inner none
        = .ok (es.length * INV_ENTRY_LEN + get_varint_len (toInt64 es.length), []) from rfl)
      (by rw [get_varint_len_eq es.length (by omega)]; exact hw)
      (by rw [get_varint_len_eq es.length (by omega)]; exact h0)
      (by rw [get_varint_len_eq es.length (by omega)]; exact hbl)
      (by
        rw [get_varint_len_eq es.length (by omega)]
        simp only [INV_ENTRY_LEN]
        omega)
    refine ⟨_, hser, ?_⟩
    rw [deserialize_frame getHash256 magic_word _ _ hm (typeStr_lt _) (typeStr_nz _)
      (by rw [hblen]; omega), findPayloadType_typeStr, hbody]
    simp only [Payload.type, makePayload, Payload_Inv_deserialize_eq, hd2]
    rfl
  · obtain ⟨r, b, hw, h0, hbl⟩ := serialize_inner_passes (.GetData es) _ []
      (show (Payload.GetData es).serialize_inner none
        = .ok (es.length * INV_ENTRY_LEN + get_varint_len (toInt64 es.length), []) from rfl)
      (by
        rw [get_varint_len_eq es.length (by omega)]
        simp only [INV_ENTRY_LEN]
        omega)
    have hwr := inv_write es
    rw [get_varint_len_eq es.length (by omega)] at hw hbl h0
    have hb : b = (make_varint es.length []).2 ++ encodeInvEntries es := by
      have h1 := hw (by simp only [INV_ENTRY_LEN]; omega)
      simp only [Payload.serialize_inner, Payload_GetData.serialize_inner, bind_eq_bind,
        pure_eq_ok, INV_ENTRY_LEN] at h1
      cases hst : store (List.replicate (es.length * 36 + (make_varint es.length []).1) 0) 0
          ((make_varint es.length []).2.take (make_varint es.length []).1) with
      | ok mem =>
        rw [hst, bind_ok] at hwr h1
        rw [hwr, bind_ok] at h1
        injection h1 with h1
        injection h1 with _ h1
        exact h1.symm
      | deserError msg => rw [hst] at hwr; cases hwr
      | runtimeError msg => rw [hst] at hwr; cases hwr
      | undefined => rw [hst] at hwr; cases hwr
      | outOfFuel => rw [hst] at hwr; cases hwr
    subst hb
    obtain ⟨-, hser⟩ := serialize_of_body getHash256 (.GetData es) magic_word _ r [] _
      (show (Payload.GetData es).serialize_inner none
        = .ok (es.length * INV_ENTRY_LEN + get_varint_len (toInt64 es.length), []) from rfl)
      (by rw [get_varint_len_eq es.length (by omega)]; exact hw)
      (by rw [get_varint_len_eq es.length (by omega)]; exact h0)
      (by rw [get_varint_len_eq es.length (by omega)]; exact hbl)
      (by
        rw [get_varint_len_eq es.length (by omega)]
        simp only [INV_ENTRY_LEN]
        omega)
    refine ⟨_, hser, ?_⟩
    rw [deserialize_frame getHash256 magic_word _ _ hm (typeStr_lt _) (typeStr_nz _)
      (by rw [hblen]; omega), findPayloadType_typeStr, hbody]
    simp only [Payload.type, makePayload, Payload_GetData_deserialize_eq, hd2]
    rfl

/-- Witness for C15: the varint `FD 51 C3` (count 50001) with nothing behind it,
and 50001 equal transaction entries. -/
theorem inv_count_bound_witness :
    (0xD9B4BEF9 : Nat) < 2 ^ 32 ∧
    ([0xFD, 0x51, 0xC3] : List Byte).length < 2 ^ 32 ∧
    get_varint [0xFD, 0x51, 0xC3] ([0xFD, 0x51, 0xC3] : List Byte).length = .ok (50001, 3) ∧
    INV_MAX < 50001 ∧
    (List.replicate 50001 (⟨Inv_Msg_Tx, toyHash []⟩ : InvEntry)).length = INV_MAX + 1 ∧
    (Payload_Inv.deserialize [0xFD, 0x51, 0xC3] ([0xFD, 0x51, 0xC3] : List Byte).length
        = .deserError "inv count > INV_MAX" ∧
      Payload_GetData.deserialize [0xFD, 0x51, 0xC3] ([0xFD, 0x51, 0xC3] : List Byte).length
        = .deserError "inv count > INV_MAX" ∧
      (∃ f, (Payload.Inv (List.replicate 50001 ⟨Inv_Msg_Tx, toyHash []⟩)).serialize
          toyHash 0xD9B4BEF9 = .ok f ∧
        Payload.deserialize toyHash f 0xD9B4BEF9 = .ok []) ∧
      (∃ f, (Payload.GetData (List.replicate 50001 ⟨Inv_Msg_Tx, toyHash []⟩)).serialize
          toyHash 0xD9B4BEF9 = .ok f ∧
        Payload.deserialize toyHash f 0xD9B4BEF9 = .ok [])) :=
  ⟨by norm_num, by decide, by decide, by decide, List.length_replicate _ _,
    inv_count_bound toyHash 0xD9B4BEF9 50001 3 [0xFD, 0x51, 0xC3]
      (List.replicate 50001 ⟨Inv_Msg_Tx, toyHash []⟩) (by norm_num) (by decide) (by decide)
      (by decide) (List.length_replicate _ _)⟩

/-! ## C16: the length of an inventory payload -/

/-- C17 as the code has it: a `ping` frame with an empty payload decodes to a
Ping with the sentinel nonce `UINT64_MAX`, and dispatching that Ping in any
state writes exactly one frame to the socket: a `pong` with an empty payload,
24 bytes long. Nothing else of the state changes. -/
theorem zero_length_ping_answered (getHash256 : List Byte → Hash32)
    (payloadTypeValue : PayloadType → Nat) (s : P2PState) (hm : s.magic_word_ < 2 ^ 32) :
    Payload.deserialize getHash256
        (frame getHash256 s.magic_word_ (Payload.Ping 0).typeStr []) s.magic_word_
      = .ok [.Ping UINT64_MAX] ∧
    processPayload getHash256 payloadTypeValue s [.Ping UINT64_MAX]
      = .ok { s with written := s.written
          ++ [frame getHash256 s.magic_word_ (Payload.Pong UINT64_MAX).typeStr []] } ∧
    (frame getHash256 s.magic_word_ (Payload.Pong UINT64_MAX).typeStr []).length = 24 := by
  refine ⟨deserialize_ping_empty getHash256 s.magic_word_ hm, ?_,
    frame_length getHash256 _ _ [] (typeStr_length _)⟩
  rw [processPayload_Ping]
  exact sendMessage_of_serialize getHash256 s _ _ (serialize_Pong_sentinel getHash256 _)

/-- Witness for C17: the quiet state of the main network. -/
theorem zero_length_ping_answered_witness :
    exampleState.magic_word_ < 2 ^ 32 ∧
    (Payload.deserialize toyHash
        (frame toyHash exampleState.magic_word_ (Payload.Ping 0).typeStr [])
        exampleState.magic_word_
      = .ok [.Ping UINT64_MAX] ∧
    processPayload toyHash (fun _ => 0) exampleState [.Ping UINT64_MAX]
      = .ok { exampleState with written := exampleState.written
          ++ [frame toyHash exampleState.magic_word_ (Payload.Pong UINT64_MAX).typeStr []] } ∧
    (frame toyHash exampleState.magic_word_ (Payload.Pong UINT64_MAX).typeStr []).length
      = 24) :=
  ⟨by decide, zero_length_ping_answered toyHash (fun _ => 0) exampleState (by decide)⟩

/-- C17 as stated fails: for no hash function and no state does the dispatch of
a Ping with the sentinel nonce leave the sequence of written frames unchanged;
in the quiet state of the main network the dispatch succeeds and one frame has
been written. -/
theorem zero_length_ping_counterexample :
    (¬ ∃ (getHash256 : List Byte → Hash32) (payloadTypeValue : PayloadType → Nat)
        (s s2 : P2PState),
      processPayload getHash256 payloadTypeValue s [.Ping UINT64_MAX] = .ok s2 ∧
      s2.written = s.written) ∧
    (∃ s2, processPayload toyHash (fun _ => 0) exampleState [.Ping UINT64_MAX] = .ok s2 ∧
      s2.written.length = exampleState.written.length + 1) := by
  constructor
  · rintro ⟨getHash256, payloadTypeValue, s, s2, hp, hw⟩
    rw [processPayload_Ping, sendMessage_of_serialize getHash256 s _ _
      (serialize_Pong_sentinel getHash256 _)] at hp
    injection hp with hp
    subst hp
    have := congrArg List.length hw
    simp at this
  · exact ⟨_, (processPayload_Ping toyHash (fun _ => 0) exampleState UINT64_MAX).trans
      (sendMessage_of_serialize toyHash exampleState _ _ (serialize_Pong_sentinel toyHash _)),
      by simp⟩

/-! ## C18: the nonce of a `ping` is echoed -/

/-- C18, the code at the failing input: the `ping` frame whose 8 payload bytes
are all `FF` decodes to a Ping with nonce `UINT64_MAX`, the value that also
stands for a zero-length `ping`; dispatching it in the quiet state writes one
`pong` frame of 24 bytes with an empty payload, not the 8 bytes `FF`. The nonce
`0x0123456789ABCDEF` is echoed in the 8 payload bytes of the `pong`. -/
theorem ping_nonce_sentinel_collision (getHash256 : List Byte → Hash32)
    (payloadTypeValue : PayloadType → Nat) :
    Payload.deserialize getHash256
        (frame getHash256 0xD9B4BEF9 (Payload.Ping 0).typeStr (List.replicate 8 0xFF))
        0xD9B4BEF9
      = .ok [.Ping UINT64_MAX] ∧
    processPayload getHash256 payloadTypeValue exampleState [.Ping UINT64_MAX]
      = .ok { exampleState with
          written := [frame getHash256 0xD9B4BEF9 (Payload.Pong 0).typeStr []] } ∧
    (frame getHash256 0xD9B4BEF9 (Payload.Pong 0).typeStr []).length = 24 ∧
    Payload.deserialize getHash256
        (frame getHash256 0xD9B4BEF9 (Payload.Ping 0).typeStr (toLE 8 0x0123456789ABCDEF))
        0xD9B4BEF9
      = .ok [.Ping 0x0123456789ABCDEF] ∧
    processPayload getHash256 payloadTypeValue exampleState [.Ping 0x0123456789ABCDEF]
      = .ok { exampleState with
          written := [frame getHash256 0xD9B4BEF9 (Payload.Pong 0).typeStr
            (toLE 8 0x0123456789ABCDEF)] } := by
  refine ⟨?_, ?_, frame_length getHash256 _ _ [] (typeStr_length _), ?_, ?_⟩
  · exact deserialize_ping_frame getHash256 0xD9B4BEF9 (List.replicate 8 0xFF) (by norm_num)
      (by decide)
  · rw [processPayload_Ping]
    exact sendMessage_of_serialize getHash256 exampleState _ _
      (serialize_Pong_sentinel getHash256 _)
  · exact deserialize_ping_frame getHash256 0xD9B4BEF9 (toLE 8 0x0123456789ABCDEF)
      (by norm_num) (by decide)
  · rw [processPayload_Ping]
    exact sendMessage_of_serialize getHash256 exampleState _ _
      (serialize_Pong getHash256 _ 0x0123456789ABCDEF (by decide))

/-! ## C19: a `tx` and the table of `getTx` -/

/-- C19: for every state and every Tx with non-empty raw bytes `r`: if the
table of `getTx` holds a callback under `hash256(r)`, dispatching the Tx calls
that callback once with the transaction, and the table afterwards is the one
before without that key; if the table holds nothing under `hash256(r)`, the
state, the log of calls included, is unchanged. -/
theorem tx_correlation (getHash256 : List Byte → Hash32)
    (payloadTypeValue : PayloadType → Nat) (s : P2PState) (r : List Byte) (hr : r ≠ []) :
    (∀ callback, s.getTxCallbackMap_ (getHash256 r) = some callback →
      processPayload getHash256 payloadTypeValue s [.Tx r]
        = .ok { s with
            events := s.events ++ [.getTxCallback callback r],
            getTxCallbackMap_ := fun k =>
              if k = getHash256 r then none else s.getTxCallbackMap_ k }) ∧
    (s.getTxCallbackMap_ (getHash256 r) = none →
      processPayload getHash256 payloadTypeValue s [.Tx r] = .ok s) := by
  have hlen : r.length ≠ 0 := fun h => hr (List.length_eq_zero.mp h)
  have hp : processPayload getHash256 payloadTypeValue s [.Tx r]
      = processGetTx getHash256 s (.Tx r) := by
    rw [processPayload_single]
    rfl
  rw [hp]
  constructor
  · intro callback hcb
    simp only [processGetTx, hlen, if_false, hcb]
  · intro hnone
    simp only [processGetTx, hlen, if_false, hnone]

/-- Witness for C19: the transaction `AB`, once with the callback 7 registered
under its hash and once in the quiet state. -/
theorem tx_correlation_witness :
    ([0xAB] : List Byte) ≠ [] ∧
    processPayload toyHash (fun _ => 0)
        (registerGetTxCallback exampleState (toyHash [0xAB]) 7) [.Tx [0xAB]]
      = .ok { registerGetTxCallback exampleState (toyHash [0xAB]) 7 with
          events := (registerGetTxCallback exampleState (toyHash [0xAB]) 7).events
            ++ [.getTxCallback 7 [0xAB]],
          getTxCallbackMap_ := fun k =>
            if k = toyHash [0xAB] then none
            else (registerGetTxCallback exampleState (toyHash [0xAB]) 7).getTxCallbackMap_ k } ∧
    processPayload toyHash (fun _ => 0) exampleState [.Tx [0xAB]] = .ok exampleState :=
  ⟨by decide,
    (tx_correlation toyHash (fun _ => 0) (registerGetTxCallback exampleState (toyHash [0xAB]) 7)
      [0xAB] (by decide)).1 7 (by simp [registerGetTxCallback]),
    (tx_correlation toyHash (fun _ => 0) exampleState [0xAB] (by decide)).2 rfl⟩

/-! ## C20: the entry type that `getTx` requires -/

/-- C20: for every state and every inventory entry, `getTx` on an entry whose
type is neither Tx nor WitnessTx throws `GetDataException` with the state
untouched: nothing is registered and nothing is written; on an entry of type
Tx or WitnessTx it registers its callback under the hash of the entry and
writes exactly one frame, the `getdata` whose payload is the count 1 followed
by the type and the hash of that entry. -/
theorem getTx_entry_type (getHash256 : List Byte → Hash32) (s : P2PState) (entry : InvEntry)
    (waitOnDataCallback : Nat) :
    (entry.invtype_ ≠ Inv_Msg_Tx ∧ entry.invtype_ ≠ Inv_Msg_Witness_Tx →
      getTx getHash256 s entry waitOnDataCallback
        = .getDataException "entry type isnt Inv_Msg_Tx" s) ∧
    (entry.invtype_ = Inv_Msg_Tx ∨ entry.invtype_ = Inv_Msg_Witness_Tx →
      getTx getHash256 s entry waitOnDataCallback
        = .sent (.ok { s with
            getTxCallbackMap_ := fun k =>
              if k = entry.hash then some waitOnDataCallback else s.getTxCallbackMap_ k,
            written := s.written ++ [frame getHash256 s.magic_word_
              (Payload.GetData [entry]).typeStr
              ([1] ++ (toLE 4 entry.invtype_ ++ entry.hash.val))] })) := by
  constructor
  · intro h
    simp only [getTx]
    rw [if_pos h]
  · intro h
    have hn : ¬ (entry.invtype_ ≠ Inv_Msg_Tx ∧ entry.invtype_ ≠ Inv_Msg_Witness_Tx) := by
      rcases h with h | h
      · exact fun hc => hc.1 h
      · exact fun hc => hc.2 h
    have hser := serialize_GetData getHash256 s.magic_word_ [entry] (by simp)
    have hbody : (make_varint ([entry] : List InvEntry).length []).2 ++ encodeInvEntries [entry]
        = [1] ++ (toLE 4 entry.invtype_ ++ entry.hash.val) := by
      have h1 : toLE 1 1 = ([1] : List Byte) := by decide
      simp [encodeInvEntries, make_varint, h1]
    rw [hbody] at hser
    have hsend := sendMessage_of_serialize getHash256
      (registerGetTxCallback s entry.hash waitOnDataCallback) (.GetData [entry]) _ hser
    simp only [getTx, hn, if_false, hsend]
    rfl

/-- Witness for C20: in the quiet state, a block entry is refused and a
transaction entry is requested. -/
theorem getTx_entry_type_witness :
    getTx toyHash exampleState ⟨Inv_Msg_Block, toyHash []⟩ 7
      = .getDataException "entry type isnt Inv_Msg_Tx" exampleState ∧
    getTx toyHash exampleState ⟨Inv_Msg_Tx, toyHash []⟩ 7
      = .sent (.ok { exampleState with
          getTxCallbackMap_ := fun k =>
            if k = (⟨Inv_Msg_Tx, toyHash []⟩ : InvEntry).hash then some 7
            else exampleState.getTxCallbackMap_ k,
          written := exampleState.written ++ [frame toyHash exampleState.magic_word_
            (Payload.GetData [⟨Inv_Msg_Tx, toyHash []⟩]).typeStr
            ([1] ++ (toLE 4 (⟨Inv_Msg_Tx, toyHash []⟩ : InvEntry).invtype_
              ++ (⟨Inv_Msg_Tx, toyHash []⟩ : InvEntry).hash.val))] }) :=
  ⟨(getTx_entry_type toyHash exampleState ⟨Inv_Msg_Block, toyHash []⟩ 7).1
      ⟨by decide, by decide⟩,
    (getTx_entry_type toyHash exampleState ⟨Inv_Msg_Tx, toyHash []⟩ 7).2 (Or.inl rfl)⟩

/-! ## C21: the delay before a reconnect -/

/-- C21, the code at the failing input: after six attempts in a row whose
handshake fails, `waitBeforeReconnect` is 6000, above 5000: the `catch` branch
adds the increment without the test `< 5000` of the branch of a failed
`openSocket`. Failed socket opens alone never take the delay above 5000, and
the first successful handshake sets it to 0; a second successful handshake in
the same loop does not, it adds the increment. -/
theorem backoff_exceeds_cap :
    (connectLoop (List.replicate 6 .handshakeFailed)).waitBeforeReconnect = 6000 ∧
    (∀ n, (connectLoop (List.replicate n .openFailed)).waitBeforeReconnect ≤ 5000) ∧
    (connectLoop [.handshakeFailed, .handshakeSucceeded]).waitBeforeReconnect = 0 ∧
    (connectLoop [.handshakeSucceeded, .handshakeSucceeded]).waitBeforeReconnect = 1000 := by
  refine ⟨by decide, ?_, by decide, by decide⟩
  intro n
  have h : ∀ n, (connectLoop (List.replicate n .openFailed)).waitBeforeReconnect ≤ 5000 ∧
      1000 ∣ (connectLoop (List.replicate n .openFailed)).waitBeforeReconnect := by
    intro n
    induction n with
    | zero => exact ⟨by decide, by decide⟩
    | succ n ih =>
      have hstep : connectLoop (List.replicate (n + 1) .openFailed)
          = connectStep (connectLoop (List.replicate n .openFailed)) .openFailed := by
        simp only [connectLoop, List.replicate_succ', List.foldl_append, List.foldl_cons,
          List.foldl_nil]
      rw [hstep]
      obtain ⟨h1, k, hk⟩ := ih
      simp only [connectStep, RECONNECT_INCREMENT_MS]
      split
      · rename_i hlt
        simp only
        rw [hk] at hlt ⊢
        have hk4 : k ≤ 4 := by omega
        rw [Nat.mod_eq_of_lt (by omega)]
        exact ⟨by omega, ⟨k + 1, by ring⟩⟩
      · exact ⟨h1, k, hk⟩
  exact (h n).1

/-! ## C22: a buffer of several frames -/

/-- C22 as the code has it: for every magic word and every non-empty list of
frames, each either the frame that `serialize` makes of a round-trippable
payload smaller than `2^32 - 24` bytes, or a frame with the right magic word
and checksum, a NUL-terminated command that is none of the seven known ones and
a payload smaller than `2^32 - 24` bytes, the decoder run on the concatenation
returns exactly the payloads of the known frames, in the order of the buffer. -/
theorem multi_frame_decode (getHash256 : List Byte → Hash32) (magic_word : Nat)
    (frames : List WireFrame) (hm : magic_word < 2 ^ 32) (hne : frames ≠ [])
    (hknown : ∀ v f, WireFrame.known v f ∈ frames →
      (∃ n mem0, v.serialize_inner none = .ok (n, mem0) ∧ n + 24 < 2 ^ 32) ∧
      v.serialize getHash256 magic_word = .ok f ∧
      Payload.deserialize getHash256 f magic_word = .ok [v])
    (hunknown : ∀ command pad body, WireFrame.unknown command pad body ∈ frames →
      command.length + 1 + pad.length = 12 ∧ (∀ b ∈ command, b.val ≠ 0) ∧
      findPayloadType command = none ∧ body.length + 24 < 2 ^ 32) :
    Payload.deserialize getHash256 (wireBytes getHash256 magic_word frames) magic_word
      = .ok (frames.filterMap WireFrame.decoded) := by
  have hlen := wireBytes_length getHash256 magic_word hm frames hknown hunknown
  have hpos : 0 < frames.length := List.length_pos.mpr hne
  unfold Payload.deserialize
  rw [if_neg (by simp only [MESSAGE_HEADER_LEN]; omega)]
  rw [deserializeLoop_wireBytes getHash256 _ magic_word hm frames _ 0 [] hknown hunknown
    (by omega) (by simp)]
  simp

set_option maxRecDepth 100000 in
/-- C22 as stated fails, for every hash function. (1) The empty list of frames:
the buffer is empty and the decoder raises `invalid header size`. (2) A single
frame of the unknown command `x` whose payload is `2^32 - 24` zero bytes: the
decoder does not return. -/
theorem multi_frame_decode_counterexample :
    (¬ ∃ (getHash256 : List Byte → Hash32) (magic_word : Nat),
      Payload.deserialize getHash256 (wireBytes getHash256 magic_word []) magic_word
        = .ok (([] : List WireFrame).filterMap WireFrame.decoded)) ∧
    (¬ ∃ getHash256 : List Byte → Hash32,
      Payload.deserialize getHash256
          (wireBytes getHash256 0xD9B4BEF9
            [.unknown (ascii ['x']) (List.replicate 10 0) (List.replicate (2 ^ 32 - 24) 0)])
          0xD9B4BEF9
        = .ok (([.unknown (ascii ['x']) (List.replicate 10 0)
            (List.replicate (2 ^ 32 - 24) 0)] : List WireFrame).filterMap
              WireFrame.decoded)) := by
  constructor
  · rintro ⟨getHash256, magic_word, h⟩
    simp [Payload.deserialize, wireBytes] at h
  · rintro ⟨getHash256, h⟩
    have hcmd : (ascii ['x']).length + 1 + (List.replicate 10 (0 : Byte)).length = 12 := by
      decide
    have hbl : (List.replicate (2 ^ 32 - 24) (0 : Byte)).length = 2 ^ 32 - 24 :=
      List.length_replicate _ _
    have hL := rawFrame_length getHash256 0xD9B4BEF9 (ascii ['x']) (List.replicate 10 0)
      (List.replicate (2 ^ 32 - 24) 0) hcmd
    rw [hbl] at hL
    simp only [wireBytes, WireFrame.bytes, List.append_nil] at h
    unfold Payload.deserialize at h
    rw [if_neg (by rw [hL]; decide),
      deserializeLoop_stall getHash256 0xD9B4BEF9 (ascii ['x']) (List.replicate 10 0)
        (List.replicate (2 ^ 32 - 24) 0) (by norm_num) hcmd (by decide) (by decide) hbl] at h
    cases h

set_option maxRecDepth 100000 in
/-- Witness for C22: the three frames of `exampleFrames`, which decode to the
two Veracks. -/
theorem multi_frame_decode_witness :
    (0xD9B4BEF9 : Nat) < 2 ^ 32 ∧ exampleFrames ≠ [] ∧
    (∀ v f, WireFrame.known v f ∈ exampleFrames →
      (∃ n mem0, v.serialize_inner none = .ok (n, mem0) ∧ n + 24 < 2 ^ 32) ∧
      v.serialize toyHash 0xD9B4BEF9 = .ok f ∧
      Payload.deserialize toyHash f 0xD9B4BEF9 = .ok [v]) ∧
    (∀ command pad body, WireFrame.unknown command pad body ∈ exampleFrames →
      command.length + 1 + pad.length = 12 ∧ (∀ b ∈ command, b.val ≠ 0) ∧
      findPayloadType command = none ∧ body.length + 24 < 2 ^ 32) ∧
    Payload.deserialize toyHash (wireBytes toyHash 0xD9B4BEF9 exampleFrames) 0xD9B4BEF9
      = .ok (exampleFrames.filterMap WireFrame.decoded) ∧
    exampleFrames.filterMap WireFrame.decoded = [.Verack, .Verack] :=
  have hk : ∀ v f, WireFrame.known v f ∈ exampleFrames →
      (∃ n mem0, v.serialize_inner none = .ok (n, mem0) ∧ n + 24 < 2 ^ 32) ∧
      v.serialize toyHash 0xD9B4BEF9 = .ok f ∧
      Payload.deserialize toyHash f 0xD9B4BEF9 = .ok [v] := by
    intro v f h
    simp only [exampleFrames, List.mem_cons, WireFrame.known.injEq, List.mem_singleton,
      reduceCtorEq, false_or, or_false, List.not_mem_nil] at h
    have hv : v = .Verack ∧ f = exampleVerackFrame := by
      rcases h with h | h <;> exact h
    obtain ⟨rfl, rfl⟩ := hv
    exact ⟨⟨0, [], by decide, by norm_num⟩, by decide, by decide⟩
  have hu : ∀ command pad body, WireFrame.unknown command pad body ∈ exampleFrames →
      command.length + 1 + pad.length = 12 ∧ (∀ b ∈ command, b.val ≠ 0) ∧
      findPayloadType command = none ∧ body.length + 24 < 2 ^ 32 := by
    intro command pad body h
    simp only [exampleFrames, List.mem_cons, WireFrame.unknown.injEq, List.mem_singleton,
      reduceCtorEq, false_or, or_false, List.not_mem_nil] at h
    obtain ⟨rfl, rfl, rfl⟩ := h
    exact ⟨by decide, by decide, by decide, by decide⟩
  ⟨by norm_num, by simp [exampleFrames], hk, hu,
    multi_frame_decode toyHash 0xD9B4BEF9 exampleFrames (by norm_num)
      (by simp [exampleFrames]) hk hu,
    rfl⟩

/-! ## C23: the subscribers of block inventory -/

/-- C23: for every state, with subscribers `invBlockLambdas_` in the order of
their registration, and every Inv: when the Inv holds a block entry,
dispatching it calls each subscriber once, in that order, each with the block
entries of the Inv in the order of the wire, after the one call of the
transaction callback that transaction entries cause, and leaves no subscriber
behind; when it holds none, no subscriber is called and the subscribers stay
as they were. -/
theorem block_inv_drain (getHash256 : List Byte → Hash32)
    (payloadTypeValue : PayloadType → Nat) (s : P2PState) (es : List InvEntry) :
    (es.filter (fun e => e.invtype_ = Inv_Msg_Block) ≠ [] →
      processPayload getHash256 payloadTypeValue s [.Inv es]
        = .ok { s with
            invBlockLambdas_ := [],
            events := s.events ++ invTxEvents s (es.filter fun e => e.invtype_ = Inv_Msg_Tx)
              ++ s.invBlockLambdas_.map fun callback =>
                Event.invBlockCallback callback
                  (es.filter fun e => e.invtype_ = Inv_Msg_Block) }) ∧
    (es.filter (fun e => e.invtype_ = Inv_Msg_Block) = [] →
      processPayload getHash256 payloadTypeValue s [.Inv es]
        = .ok { s with
            events := s.events
              ++ invTxEvents s (es.filter fun e => e.invtype_ = Inv_Msg_Tx) }) := by
  rw [processPayload_Inv]
  constructor
  · intro h
    cases hb : es.filter (fun e => e.invtype_ = Inv_Msg_Block) with
    | nil => exact absurd hb h
    | cons b bs => rfl
  · intro h
    rw [h]

/-- Witness for C23: the subscribers 5 and 6; an Inv of a block, a transaction
and a second block, and an Inv of one transaction. -/
theorem block_inv_drain_witness :
    processPayload toyHash (fun _ => 0) { exampleState with invBlockLambdas_ := [5, 6] }
        [.Inv [⟨Inv_Msg_Block, toyHash [1]⟩, ⟨Inv_Msg_Tx, toyHash [2]⟩,
          ⟨Inv_Msg_Block, toyHash [3]⟩]]
      = .ok { exampleState with
          invBlockLambdas_ := [],
          events := [.invTxCallback 0 [⟨Inv_Msg_Tx, toyHash [2]⟩],
            .invBlockCallback 5 [⟨Inv_Msg_Block, toyHash [1]⟩, ⟨Inv_Msg_Block, toyHash [3]⟩],
            .invBlockCallback 6
              [⟨Inv_Msg_Block, toyHash [1]⟩, ⟨Inv_Msg_Block, toyHash [3]⟩]] } ∧
    processPayload toyHash (fun _ => 0) { exampleState with invBlockLambdas_ := [5, 6] }
        [.Inv [⟨Inv_Msg_Tx, toyHash [2]⟩]]
      = .ok { exampleState with
          invBlockLambdas_ := [5, 6],
          events := [.invTxCallback 0 [⟨Inv_Msg_Tx, toyHash [2]⟩]] } :=
  ⟨(block_inv_drain toyHash (fun _ => 0) { exampleState with invBlockLambdas_ := [5, 6] }
      [⟨Inv_Msg_Block, toyHash [1]⟩, ⟨Inv_Msg_Tx, toyHash [2]⟩,
        ⟨Inv_Msg_Block, toyHash [3]⟩]).1 (by decide),
    (block_inv_drain toyHash (fun _ => 0) { exampleState with invBlockLambdas_ := [5, 6] }
      [⟨Inv_Msg_Tx, toyHash [2]⟩]).2 (by decide)⟩

/-! ## C24: a `version` from the peer -/

/-- C24: for every state, whatever the witness flag was, and every Version,
dispatching it sets `PEER_USES_WITNESS` to whether the services of the Version
have the bit `NODE_WITNESS` (`1 << 3`), and writes exactly one frame: a `verack`
of 24 bytes with an empty payload. Nothing else of the state changes. -/
theorem version_dispatch (getHash256 : List Byte → Hash32)
    (payloadTypeValue : PayloadType → Nat) (s : P2PState) (vheader_ : VersionHeader)
    (userAgent_ : List Byte) (startHeight_ : Nat) :
    processPayload getHash256 payloadTypeValue s [.Version vheader_ userAgent_ startHeight_]
      = .ok { s with
          PEER_USES_WITNESS := decide (Nat.land vheader_.services_ (1 <<< 3) ≠ 0),
          written := s.written
            ++ [frame getHash256 s.magic_word_ Payload.Verack.typeStr []] } ∧
    (frame getHash256 s.magic_word_ Payload.Verack.typeStr []).length = 24 ∧
    (frame getHash256 s.magic_word_ Payload.Verack.typeStr []).drop 24 = [] := by
  have hser : ∀ m, Payload.Verack.serialize getHash256 m
      = .ok (frame getHash256 m Payload.Verack.typeStr []) := fun m =>
    (serialize_of_body getHash256 .Verack m 0 0 [] []
      rfl (fun h => absurd h (by decide)) (fun _ => rfl) rfl (by norm_num)).2
  have hlen := frame_length getHash256 s.magic_word_ Payload.Verack.typeStr []
    (typeStr_length _)
  refine ⟨?_, hlen, List.drop_eq_nil_of_le (by rw [hlen]; exact Nat.le_refl _)⟩
  rw [processPayload_single]
  show (checkServices s (.Version vheader_ userAgent_ startHeight_)).bind
    (fun s => returnVerack getHash256 s) = _
  have hw : (1 <<< 3 : Nat) = NODE_WITNESS := by decide
  rw [hw]
  by_cases hb : Nat.land vheader_.services_ NODE_WITNESS ≠ 0
  · simp only [checkServices]
    rw [if_pos hb, bind_ok, returnVerack,
      sendMessage_of_serialize getHash256 _ .Verack _ (hser _)]
    simp [hb]
  · simp only [checkServices]
    rw [if_neg hb, bind_ok, returnVerack,
      sendMessage_of_serialize getHash256 _ .Verack _ (hser _)]
    simp [hb]

/-- Witness for C24: services `0x09` set the flag, services `0x01` clear it. -/
theorem version_dispatch_witness :
    processPayload toyHash (fun _ => 0) exampleState
        [.Version ⟨70012, 0x09, 0, ⟨0, ⟨List.replicate 16 0, rfl⟩, 0⟩,
          ⟨0, ⟨List.replicate 16 0, rfl⟩, 0⟩, 0⟩ [] 0]
      = .ok { exampleState with
          PEER_USES_WITNESS := true,
          written := [frame toyHash 0xD9B4BEF9 Payload.Verack.typeStr []] } ∧
    processPayload toyHash (fun _ => 0) { exampleState with PEER_USES_WITNESS := true }
        [.Version ⟨70012, 0x01, 0, ⟨0, ⟨List.replicate 16 0, rfl⟩, 0⟩,
          ⟨0, ⟨List.replicate 16 0, rfl⟩, 0⟩, 0⟩ [] 0]
      = .ok { exampleState with
          PEER_USES_WITNESS := false,
          written := [frame toyHash 0xD9B4BEF9 Payload.Verack.typeStr []] } :=
  ⟨(version_dispatch toyHash (fun _ => 0) exampleState
      ⟨70012, 0x09, 0, ⟨0, ⟨List.replicate 16 0, rfl⟩, 0⟩,
        ⟨0, ⟨List.replicate 16 0, rfl⟩, 0⟩, 0⟩ [] 0).1,
    (version_dispatch toyHash (fun _ => 0) { exampleState with PEER_USES_WITNESS := true }
      ⟨70012, 0x01, 0, ⟨0, ⟨List.replicate 16 0, rfl⟩, 0⟩,
        ⟨0, ⟨List.replicate 16 0, rfl⟩, 0⟩, 0⟩ [] 0).1⟩

/-! ## C25: the length that `get_varint_len` announces -/

set_option maxRecDepth 100000 in
/-- C26, the code at the failing input: a buffer of `2^32` bytes that is one
frame of the unknown command `x` with a payload of `2^32 - 24` zero bytes,
declared length `0xFFFFFFE8` and the right checksum. The frame is consumed, and
the cursor moves by `MESSAGE_HEADER_LEN + *length`, which is 0 in 32 bits: an
iteration at position 0 leads to an iteration at position 0, and with no
amount of fuel does the loop end. -/
theorem decode_loop_stalls (getHash256 : List Byte → Hash32) (fuel : Nat) :
    (frame getHash256 0xD9B4BEF9 (ascii ['x']) (List.replicate (2 ^ 32 - 24) 0)).length
      = 2 ^ 32 ∧
    (0xFFFFFFE8 + MESSAGE_HEADER_LEN) % 2 ^ 32 = 0 ∧
    deserializeLoop getHash256
        (frame getHash256 0xD9B4BEF9 (ascii ['x']) (List.replicate (2 ^ 32 - 24) 0))
        0xD9B4BEF9 (fuel + 1) 0 []
      = deserializeLoop getHash256
        (frame getHash256 0xD9B4BEF9 (ascii ['x']) (List.replicate (2 ^ 32 - 24) 0))
        0xD9B4BEF9 fuel 0 [] ∧
    deserializeLoop getHash256
        (frame getHash256 0xD9B4BEF9 (ascii ['x']) (List.replicate (2 ^ 32 - 24) 0))
        0xD9B4BEF9 fuel 0 [] = .outOfFuel ∧
    Payload.deserialize getHash256
        (frame getHash256 0xD9B4BEF9 (ascii ['x']) (List.replicate (2 ^ 32 - 24) 0))
        0xD9B4BEF9 = .outOfFuel := by
  have hc : (ascii ['x']).length < 12 := by decide
  have hcmd : (ascii ['x']).length + 1
      + (List.replicate (11 - (ascii ['x']).length) (0 : Byte)).length = 12 := by decide
  have hnz : ∀ b ∈ ascii ['x'], b.val ≠ 0 := by decide
  have hnone : findPayloadType (ascii ['x']) = none := by decide
  have hbl : (List.replicate (2 ^ 32 - 24) (0 : Byte)).length = 2 ^ 32 - 24 :=
    List.length_replicate _ _
  have hstall := deserializeLoop_stall getHash256 0xD9B4BEF9 (ascii ['x'])
    (List.replicate (11 - (ascii ['x']).length) 0) (List.replicate (2 ^ 32 - 24) 0)
    (by norm_num) hcmd hnz hnone hbl
  have hL : (frame getHash256 0xD9B4BEF9 (ascii ['x'])
      (List.replicate (2 ^ 32 - 24) 0)).length = 2 ^ 32 := by
    rw [frame_eq_rawFrame getHash256 _ _ _ hc, rawFrame_length getHash256 _ _ _ _ hcmd, hbl]
    decide
  refine ⟨hL, by decide, ?_, ?_, ?_⟩
  · rw [frame_eq_rawFrame getHash256 _ _ _ hc, hstall, hstall]
  · rw [frame_eq_rawFrame getHash256 _ _ _ hc]
    exact hstall fuel
  · unfold Payload.deserialize
    rw [if_neg (by rw [hL]; decide), frame_eq_rawFrame getHash256 _ _ _ hc]
    exact hstall _

end BitcoinP2P
